import Mathlib

/-!
# go-ibax: the block engine (packages/block/block.go)

A shallow embedding of the block check / play / commit pipeline.

* Go values of type error are `Option Err`; `none` is the nil error.
* Every call that leaves the block package (database, system-parameter cache,
  contract VM, crypto, codec) is a field of `Env`.  Each such field receives the
  list of calls made so far (the trace), so its answer may depend on everything
  that happened before; the embedded functions append one `Event` per call.
* A Go run-time panic (index out of range) is the `Outcome.panic` result.
-/

namespace Ibax

/-- Byte slices. -/
abbrev Bytes := List (Fin 256)

/-- Wrap-around of an integer to the int64 range. -/
def int64 (x : Int) : Int :=
  (x + 9223372036854775808) % 18446744073709551616 - 9223372036854775808

/-- Conversion of an int to uint32, as in the Go conversion uint32(x). -/
def uint32 (x : Int) : Nat := (x % 4294967296).toNat

/-- Go error values.  The constructor `errorsNew` stands for a package-level
variable made with errors.New in the sources, `named` for a package-level error
variable whose declaration is outside the sources; both are compared by
identity in Go, which is equality here. -/
inductive Err where
  | errorsNew (msg : String)
  | named (name : String)
  | errorf (msg : String)
  | withBan (e : Err)
  | errInfo (e : Err)
  | wrap (e : Err) (msg : String)
  deriving DecidableEq, Repr

def ErrIncorrectRollbackHash : Err := .errorsNew "Rollback hash doesn't match"
def ErrEmptyBlock : Err := .errorsNew "Block doesn't contain transactions"
def ErrIncorrectBlockTime : Err := .withBan (.errorsNew "Incorrect block time")
def ErrMaxBlockSize : Err := .withBan (.errorsNew "Block size exceeds maximum limit")
def ErrZeroBlockSize : Err := .withBan (.errorsNew "Block size is zero")
def ErrUnmarshallBlock : Err := .withBan (.errorsNew "Unmarshall block")
/-- The variable ErrLimitStop of package block (declared outside block.go). -/
def ErrLimitStop : Err := .named "block.ErrLimitStop"
/-- The variable ErrLimitTime of package block (declared outside block.go). -/
def ErrLimitTime : Err := .named "block.ErrLimitTime"
/-- The variable custom.ErrNetworkStopping. -/
def ErrNetworkStopping : Err := .named "custom.ErrNetworkStopping"
/-- The variable crypto.ErrIncorrectSign. -/
def ErrIncorrectSign : Err := .named "crypto.ErrIncorrectSign"
/-- The variable script.ErrVMTimeLimit. -/
def ErrVMTimeLimit : Err := .named "script.ErrVMTimeLimit"

/-- The result of a Go call that may panic. -/
inductive Outcome (α : Type) where
  | ret (a : α)
  | panic
  deriving DecidableEq, Repr

/-- The header record utils.BlockData (the fields block.go reads). -/
structure BlockData where
  BlockID : Int
  Time : Int
  EcosystemID : Int
  KeyID : Int
  NodePosition : Int
  Sign : Bytes
  Hash : Bytes
  RollbacksHash : Bytes
  Version : Int
  deriving DecidableEq, Repr

/-- The record transaction.Transaction: the fields block.go reads that are fixed
when the block is parsed.  TxHeader holds TxHeader.KeyID when the pointer is not
nil, TxSmart tells whether the TxSmart pointer is not nil.  The fields Play
writes before calling t.Play are arguments of `Env.TxPlay`, the fields t.Play
leaves behind are in `TxPlayResult`. -/
structure Transaction where
  TxHash : Bytes
  TxKeyID : Int
  TxHeader : Option Int
  TxSmart : Bool
  TxFullData : Bytes
  deriving DecidableEq, Repr

/-- A queue of notifications (types.Notifications): the queued messages. -/
abbrev Notifications := List String

/-- The record Block. -/
structure Block where
  Header : BlockData
  PrevHeader : Option BlockData
  PrevRollbacksHash : Bytes
  MrklRoot : Bytes
  BinData : Bytes
  Transactions : List Transaction
  SysUpdate : Bool
  GenBlock : Bool
  Notifications : List Notifications
  deriving DecidableEq, Repr

/-- The record syspar.HonorNode. -/
structure HonorNode where
  PublicKey : Bytes
  TCPAddress : String
  Stopped : Bool
  deriving DecidableEq, Repr

/-- One registration record smart.FlushInfo; Prev and Info are pointers
(`none` is nil). -/
structure FlushInfo where
  ID : Nat
  Prev : Option Nat
  Info : Option Nat
  Name : String
  deriving DecidableEq, Repr

/-- The contract VM registries: Children is a slice of block pointers, Objects a
map from names to object pointers (kept as an association list, first match
wins). -/
structure VM where
  Children : List Nat
  Objects : List (String × Option Nat)
  deriving DecidableEq, Repr

/-- The record model.LogTransaction. -/
structure LogTransaction where
  Block : Int
  Hash : Bytes
  deriving DecidableEq, Repr

/-- The record model.AfterTxs; rollback rows are kept as opaque numbers. -/
structure AfterTxs where
  UsedTx : List Bytes
  Lts : List LogTransaction
  Rts : List Nat
  deriving DecidableEq, Repr

/-- The calls made inside one iteration of the loop of Block.Play, each with what
it returned. -/
inductive TxOp where
  | savepoint (r : Option Err)
  | play (r : Option Err)
  | checkLimit (r : Option Err)
  | rollbackSavepoint (r : Option Err)
  | markTransactionBad (hash : Bytes) (msg : String)
  | sysUpdate (r : Option Err)
  | releaseSavepoint (r : Option Err)
  | setTransactionStatusBlockMsg (blockID : Int) (msg : String) (hash : Bytes) (r : Option Err)
  deriving DecidableEq, Repr

/-- The calls that leave the block package, in the order they are made. -/
inductive Event where
  | unmarshallBlock (data : Bytes)
  | getBlockDataFromBlockChain (id : Int)
  | blockForTimeExists (time : Int) (position : Int)
  | checkTime (hash : Bytes) (r : Option Err)
  | getNodePublicKeyByPosition (position : Int)
  | checkSign (r : Bool × Option Err)
  | cleanCache
  | startTransaction (r : Option Err)
  | tx (curTx : Nat) (op : TxOp)
  | afterPlayTxs (blockID : Int) (playTxs : AfterTxs) (r : Option Err)
  | dbRollback
  | dbCommit (r : Option Err)
  | badTxForBan (keyID : Int)
  | markTransactionBad (hash : Bytes) (msg : String) (r : Option Err)
  | getNodeKeys
  | marshallBlock (trData : List Bytes)
  | updBlockInfo (blockID : Int) (r : Option Err)
  | insertIntoBlockchain (blockID : Int) (r : Option Err)
  | send (q : Notifications)
  deriving DecidableEq, Repr

abbrev Trace := List Event

/-- What t.Play returns and leaves behind: the message, the flush list (a nil
slice is the empty list), the error, the fields SysUpdate, RollBackTx and
Notifications of the transaction after the call, and the contract VM after the
call. -/
structure TxPlayResult where
  msg : String
  flush : List FlushInfo
  err : Option Err
  SysUpdate : Bool
  RollBackTx : List Nat
  Notifications : Notifications
  vm : VM
  deriving DecidableEq, Repr

/-- The collaborators of the block package.  Every field takes the trace of the
calls made so far as its first argument, except the pure helpers. -/
structure Env where
  /-- The method Error of an error value. -/
  errorText : Err → String
  /-- The helper converter.BinToHex followed by the conversion to string. -/
  BinToHex : Bytes → String
  /-- The call syspar.GetMaxBlockSize. -/
  GetMaxBlockSize : Trace → Int
  /-- The call UnmarshallBlock(buf, true). -/
  UnmarshallBlock : Trace → Bytes → Except Err Block
  /-- The call GetBlockDataFromBlockChain. -/
  GetBlockDataFromBlockChain : Trace → Int → Except Err BlockData
  /-- The value time.Now().Unix() at the one place the block package reads the
  clock (block.go 307). -/
  now : Int
  /-- The call protocols.NewBlockTimeCounter().BlockForTimeExists. -/
  BlockForTimeExists : Trace → Int → Int → Except Err Bool
  /-- The call syspar.GetMaxBlockUserTx. -/
  GetMaxBlockUserTx : Trace → Int
  /-- The method CheckTime of a transaction. -/
  CheckTime : Trace → Transaction → Int → Option Err
  /-- The call conf.Config.IsSubNode. -/
  IsSubNode : Bool
  /-- The variable nodesByPosition of package syspar. -/
  nodesByPosition : Trace → List HonorNode
  /-- The method ForSign of the header. -/
  ForSign : BlockData → BlockData → Bytes → String
  /-- The call utils.CheckSign(keys, forSign, sign, true). -/
  CheckSign : Trace → List Bytes → String → Bytes → Bool × Option Err
  /-- The call model.StartTransaction. -/
  StartTransaction : Trace → Option Err
  /-- The call syspar.GetMaxBlockGenerationTime. -/
  GetMaxBlockGenerationTime : Trace → Int
  /-- The method Savepoint of the database transaction. -/
  Savepoint : Trace → Nat → Option Err
  /-- The method Play of a transaction: trace, VM before the call, loop index,
  transaction, GenBlock, TimeLimit, PrevBlock and the block time that seeds Rand. -/
  TxPlay : Trace → VM → Nat → Transaction → Bool → Int → Option BlockData → Int → TxPlayResult
  /-- The method CheckLimit of the limits made by NewLimits(b). -/
  CheckLimit : Trace → Block → Transaction → Option Err
  /-- The method RollbackSavepoint of the database transaction. -/
  RollbackSavepoint : Trace → Nat → Option Err
  /-- The call syspar.SysUpdate. -/
  SysUpdate : Trace → Option Err
  /-- The method ReleaseSavepoint of the database transaction. -/
  ReleaseSavepoint : Trace → Nat → Option Err
  /-- The call model.SetTransactionStatusBlockMsg. -/
  SetTransactionStatusBlockMsg : Trace → Int → String → Bytes → Option Err
  /-- The call model.AfterPlayTxs. -/
  AfterPlayTxs : Trace → Int → AfterTxs → Option Err
  /-- The call transaction.MarkTransactionBad, as used by PlaySafe. -/
  MarkTransactionBad : Trace → Bytes → String → Option Err
  /-- The private key returned by utils.GetNodeKeys. -/
  NodePrivateKey : Trace → String
  /-- The call MarshallBlock. -/
  MarshallBlock : Trace → BlockData → List Bytes → Option BlockData → String → Except Err Bytes
  /-- The call UpdBlockInfo. -/
  UpdBlockInfo : Trace → Block → Option Err
  /-- The call InsertIntoBlockchain. -/
  InsertIntoBlockchain : Trace → Block → Option Err
  /-- The method Commit of the database transaction. -/
  Commit : Trace → Option Err

/-! ## Block.IsGenesis, readPreviousBlockFromBlockchainTable -/

def Block.IsGenesis (b : Block) : Bool := b.Header.BlockID == 1

/-- The visible body of readPreviousBlockFromBlockchainTable (block.go 165-170;
the lines that open the function are not in the sources): load the header of
block BlockID - 1 and store it in PrevHeader, or wrap the error.  The pointer that
comes back together with an error is taken to be nil. -/
def Block.readPreviousBlockFromBlockchainTable (env : Env) (tr : Trace) (b : Block) :
    Option Err × Block × Trace :=
  let id := int64 (b.Header.BlockID - 1)
  let tr1 := tr ++ [Event.getBlockDataFromBlockChain id]
  match env.GetBlockDataFromBlockChain tr id with
  | .error err => (some (.wrap err ("Can't get block " ++ toString id)), { b with PrevHeader := none }, tr1)
  | .ok prev => (none, { b with PrevHeader := some prev }, tr1)

/-! ## syspar.GetNodeByPosition, syspar.GetNodePublicKeyByPosition -/

/-- The function syspar.GetNodeByPosition over the slice nodesByPosition:
only the upper bound is tested before indexing. -/
def GetNodeByPosition (nodes : List HonorNode) (position : Int) : Outcome (Except Err HonorNode) :=
  if (nodes.length : Int) ≤ position then .ret (.error (.errorf "incorrect position"))
  else if position < 0 then .panic
  else
    match nodes[position.toNat]? with
    | some n => .ret (.ok n)
    | none => .panic

/-- The function syspar.GetNodePublicKeyByPosition. -/
def GetNodePublicKeyByPosition (nodes : List HonorNode) (position : Int) : Outcome (Except Err Bytes) :=
  if (nodes.length : Int) ≤ position then .ret (.error (.errorf "incorrect position"))
  else
    match GetNodeByPosition nodes position with
    | .panic => .panic
    | .ret (.error err) => .ret (.error err)
    | .ret (.ok nodeData) => .ret (.ok nodeData.PublicKey)

/-! ## Block.CheckHash -/

/-- The result of CheckHash: the pair it returns (or a panic) and the trace. -/
structure CheckHashResult where
  ret : Outcome (Bool × Option Err)
  trace : Trace
  deriving DecidableEq, Repr

/-- The method Block.CheckHash (block.go 360-401). -/
def Block.CheckHash (env : Env) (tr : Trace) (b : Block) : CheckHashResult :=
  if b.IsGenesis then ⟨.ret (true, none), tr⟩
  else if env.IsSubNode then ⟨.ret (true, none), tr⟩
  else
    match b.PrevHeader with
    | none => ⟨.ret (true, none), tr⟩
    | some prev =>
      let tr1 := tr ++ [Event.getNodePublicKeyByPosition b.Header.NodePosition]
      match GetNodePublicKeyByPosition (env.nodesByPosition tr) b.Header.NodePosition with
      | .panic => ⟨.panic, tr1⟩
      | .ret (.error err) => ⟨.ret (false, some (.errInfo err)), tr1⟩
      | .ret (.ok nodePublicKey) =>
        if nodePublicKey.length = 0 then
          ⟨.ret (false, some (.errInfo (.errorf "empty nodePublicKey"))), tr1⟩
        else
          let signSource := env.ForSign b.Header prev b.MrklRoot
          let res := env.CheckSign tr1 [nodePublicKey] signSource b.Header.Sign
          let tr2 := tr1 ++ [Event.checkSign res]
          match res.2 with
          | some err =>
            if err = ErrIncorrectSign ∧ ¬ (b.PrevRollbacksHash = prev.RollbacksHash) then
              ⟨.ret (false, some ErrIncorrectRollbackHash), tr2⟩
            else
              ⟨.ret (false, some (.errInfo (.errorf
                ("err: " ++ env.errorText err ++ " / block.PrevHeader.BlockID: " ++ toString prev.BlockID
                  ++ " /  block.PrevHeader.Hash: " ++ env.BinToHex prev.Hash ++ " / ")))), tr2⟩
          | none => ⟨.ret (res.1, none), tr2⟩

/-! ## Block.Check -/

/-- Lookup in a Go map from int64 to int: a missing key reads as 0. -/
def mapGet (m : List (Int × Int)) (k : Int) : Int :=
  match m.lookup k with
  | some v => v
  | none => 0

/-- The transaction loop of Block.Check (block.go 328-348).  The map txCounter is
read but never written: the increment is commented out in the source. -/
def checkTransactions (env : Env) (headerTime : Int) :
    List Transaction → List (Int × Int) → List String → Trace → Option Err × Trace
  | [], _, _, tr => (none, tr)
  | t :: ts, txCounter, txHashes, tr =>
    let hexHash := env.BinToHex t.TxHash
    if hexHash ∈ txHashes then
      (some (.errInfo (.errorf ("duplicate transaction " ++ hexHash))), tr)
    else if mapGet txCounter t.TxKeyID > env.GetMaxBlockUserTx tr then
      (some (.withBan (.errInfo (.errorf "max_block_user_transactions"))), tr)
    else
      let r := env.CheckTime tr t headerTime
      let tr1 := tr ++ [Event.checkTime t.TxHash r]
      match r with
      | some err => (some (.wrap err "check transaction"), tr1)
      | none => checkTransactions env headerTime ts txCounter (hexHash :: txHashes) tr1

/-- The result of Check: the error it returns (or a panic), the block as Check
leaves it (PrevHeader may have been loaded) and the trace. -/
structure CheckResult where
  ret : Outcome (Option Err)
  b : Block
  trace : Trace
  deriving DecidableEq, Repr

/-- The part of Block.Check after the future-time test (block.go 312-357): slot
check, transaction scan, signature check. -/
def Block.checkFromSlot (env : Env) (tr : Trace) (b : Block) : CheckResult :=
  let slot : Option Err × Trace :=
    match b.PrevHeader with
    | none => (none, tr)
    | some prev =>
      let tr1 := tr ++ [Event.blockForTimeExists b.Header.Time b.Header.NodePosition]
      match env.BlockForTimeExists tr b.Header.Time b.Header.NodePosition with
      | .error err => (some err, tr1)
      | .ok true =>
        (some (.withBan (.errorf (env.errorText ErrIncorrectBlockTime ++ " " ++ toString prev.Time))), tr1)
      | .ok false => (none, tr1)
  match slot with
  | (some err, tr1) => ⟨.ret (some err), b, tr1⟩
  | (none, tr1) =>
    match checkTransactions env b.Header.Time b.Transactions [] [] tr1 with
    | (some err, tr2) => ⟨.ret (some err), b, tr2⟩
    | (none, tr2) =>
      let h := b.CheckHash env tr2
      match h.ret with
      | .panic => ⟨.panic, b, h.trace⟩
      | .ret (_, some err) => ⟨.ret (some err), b, h.trace ++ [Event.cleanCache]⟩
      | .ret (_, none) => ⟨.ret none, b, h.trace⟩

/-- The part of Block.Check from the future-time test on (block.go 307-357). -/
def Block.checkFromTime (env : Env) (tr : Trace) (b : Block) : CheckResult :=
  if b.Header.Time > env.now then ⟨.ret (some ErrIncorrectBlockTime), b, tr⟩
  else b.checkFromSlot env tr

/-- The method Block.Check (block.go 296-357). -/
def Block.Check (env : Env) (tr : Trace) (b : Block) : CheckResult :=
  if b.IsGenesis then ⟨.ret none, b, tr⟩
  else
    let needPrev : Bool :=
      match b.PrevHeader with
      | none => true
      | some prev => prev.BlockID != int64 (b.Header.BlockID - 1)
    if needPrev then
      match b.readPreviousBlockFromBlockchainTable env tr with
      | (some err, b1, tr1) => ⟨.ret (some err), b1, tr1⟩
      | (none, b1, tr1) => b1.checkFromTime env tr1
    else b.checkFromTime env tr

/-! ## ProcessBlockWherePrevFromBlockchainTable -/

/-- The result of ProcessBlockWherePrevFromBlockchainTable: the block pointer
(`none` is nil), the error, and the trace. -/
structure ProcessResult where
  block : Option Block
  err : Option Err
  trace : Trace
  deriving DecidableEq, Repr

/-- The function ProcessBlockWherePrevFromBlockchainTable (block.go 430-453). -/
def ProcessBlockWherePrevFromBlockchainTable (env : Env) (tr : Trace) (data : Bytes)
    (checkSize : Bool) : ProcessResult :=
  if checkSize ∧ (data.length : Int) > env.GetMaxBlockSize tr then ⟨none, some ErrMaxBlockSize, tr⟩
  else if data.length = 0 then ⟨none, some ErrZeroBlockSize, tr⟩
  else
    let tr1 := tr ++ [Event.unmarshallBlock data]
    match env.UnmarshallBlock tr data with
    | .error err => ⟨none, some (.wrap ErrUnmarshallBlock (env.errorText err)), tr1⟩
    | .ok block =>
      let block := { block with BinData := data }
      match block.readPreviousBlockFromBlockchainTable env tr1 with
      | (some err, _, tr2) => ⟨none, some err, tr2⟩
      | (none, block, tr2) => ⟨some block, none, tr2⟩

/-! ## Block.Play -/

/-- The test strings.Contains(s, sub). -/
def stringsContains (s sub : String) : Bool :=
  s.toList.tails.any (fun l => sub.toList.isPrefixOf l)

/-- Go map delete on the association list. -/
def mapDelete (m : List (String × Option Nat)) (k : String) : List (String × Option Nat) :=
  m.filter (fun p => p.1 != k)

/-- Go map assignment on the association list. -/
def mapSet (m : List (String × Option Nat)) (k : String) (v : Option Nat) :
    List (String × Option Nat) :=
  (k, v) :: mapDelete m k

/-- One pass of the body of the flush loop of Block.Play (block.go 219-231).
Indexing Children out of range, or slicing an empty Children, panics. -/
def flushRollbackOne (vm : VM) (finfo : FlushInfo) : Outcome VM :=
  match finfo.Prev with
  | none =>
    if finfo.ID ≠ uint32 ((vm.Children.length : Int) - 1) then .ret vm
    else if vm.Children.length = 0 then .panic
    else .ret { Children := vm.Children.take (vm.Children.length - 1),
                Objects := mapDelete vm.Objects finfo.Name }
  | some prev =>
    if finfo.ID < vm.Children.length then
      .ret { Children := vm.Children.set finfo.ID prev,
             Objects := mapSet vm.Objects finfo.Name finfo.Info }
    else .panic

/-- The body of the flush loop applied to the records in the order given. -/
def flushRollbackList (vm : VM) : List FlushInfo → Outcome VM
  | [] => .ret vm
  | finfo :: rest =>
    match flushRollbackOne vm finfo with
    | .panic => .panic
    | .ret vm1 => flushRollbackList vm1 rest

/-- The flush loop of Block.Play (block.go 217-233): the records are visited from
the last to the first. -/
def flushRollback (vm : VM) (flush : List FlushInfo) : Outcome VM :=
  flushRollbackList vm flush.reverse

/-- The variables the loop of Block.Play works on: the trace, the contract VM,
the accumulators playTxs and proccessedTx, and the fields SysUpdate and
Notifications of the block. -/
structure PlayState where
  trace : Trace
  vm : VM
  playTxs : AfterTxs
  proccessedTx : List Transaction
  SysUpdate : Bool
  Notifications : List Notifications
  deriving DecidableEq, Repr

/-- How one iteration of the loop of Block.Play ends. -/
inductive Step where
  | next (st : PlayState)
  | brk (st : PlayState)
  | ret (st : PlayState) (err : Err)
  | panic (st : PlayState)
  deriving DecidableEq, Repr

/-- The error branch of the loop body after the VM undo (block.go 234-267). -/
def playFailed (env : Env) (b : Block) (st : PlayState) (curTx : Nat) (t : Transaction)
    (res : TxPlayResult) (err : Err) : Step :=
  if err = ErrNetworkStopping then .ret st err
  else
    let errRoll := env.RollbackSavepoint st.trace curTx
    let st1 := { st with trace := st.trace ++ [Event.tx curTx (.rollbackSavepoint errRoll)] }
    match errRoll with
    | some e => .ret st1 e
    | none =>
      if b.GenBlock ∧ err = ErrLimitStop then
        if curTx = 0 then .ret st1 err else .brk st1
      else
        let err1 :=
          if b.GenBlock ∧ stringsContains (env.errorText err) (env.errorText ErrVMTimeLimit)
          then ErrLimitTime else err
        let st2 := { st1 with trace := st1.trace ++
          [Event.tx curTx (.markTransactionBad t.TxHash (env.errorText err1))] }
        let st3 :=
          if res.SysUpdate then
            { st2 with trace := st2.trace ++ [Event.tx curTx (.sysUpdate (env.SysUpdate st2.trace))] }
          else st2
        if b.GenBlock then .next st3 else .ret st3 err1

/-- The success branch of the loop body (block.go 269-289). -/
def playSucceeded (env : Env) (b : Block) (st : PlayState) (curTx : Nat) (t : Transaction)
    (res : TxPlayResult) : Step :=
  let st1 := { st with trace := st.trace ++
    [Event.tx curTx (.releaseSavepoint (env.ReleaseSavepoint st.trace curTx))] }
  let st2 := if res.SysUpdate then { st1 with SysUpdate := true } else st1
  let r := env.SetTransactionStatusBlockMsg st2.trace b.Header.BlockID res.msg t.TxHash
  let st3 := { st2 with trace := st2.trace ++
    [Event.tx curTx (.setTransactionStatusBlockMsg b.Header.BlockID res.msg t.TxHash r)] }
  match r with
  | some e => .ret st3 e
  | none =>
    let st4 :=
      if res.Notifications.length > 0 then
        { st3 with Notifications := st3.Notifications ++ [res.Notifications] }
      else st3
    .next { st4 with
      playTxs :=
        { UsedTx := st4.playTxs.UsedTx ++ [t.TxHash],
          Lts := st4.playTxs.Lts ++ [{ Block := b.Header.BlockID, Hash := t.TxHash }],
          Rts := st4.playTxs.Rts ++ res.RollBackTx },
      proccessedTx := st4.proccessedTx ++ [t] }

/-- The calls t.Play and limits.CheckLimit of the loop body (block.go 209-215):
the result of t.Play, the error the execution of the transaction ends with, and
the state after the calls. -/
def playExec (env : Env) (b : Block) (timeLimit : Int) (st : PlayState) (curTx : Nat)
    (t : Transaction) : TxPlayResult × Option Err × PlayState :=
  let res := env.TxPlay st.trace st.vm curTx t b.GenBlock timeLimit b.PrevHeader b.Header.Time
  let st2 := { st with trace := st.trace ++ [Event.tx curTx (.play res.err)], vm := res.vm }
  if res.err = none ∧ t.TxSmart = true then
    let r := env.CheckLimit st2.trace b t
    (res, r, { st2 with trace := st2.trace ++ [Event.tx curTx (.checkLimit r)] })
  else (res, res.err, st2)

/-- The error branch of the loop body (block.go 216-268): the VM registrations
recorded in the flush list are undone first; an index out of range there is a
panic. -/
def playUndo (env : Env) (b : Block) (st : PlayState) (curTx : Nat) (t : Transaction)
    (res : TxPlayResult) (err : Err) : Step :=
  match flushRollback st.vm res.flush with
  | .panic => .panic st
  | .ret vm1 => playFailed env b { st with vm := vm1 } curTx t res err

/-- The body of the loop of Block.Play for the transaction t at index curTx
(block.go 194-290). -/
def playStep (env : Env) (b : Block) (timeLimit : Int) (st : PlayState) (curTx : Nat)
    (t : Transaction) : Step :=
  let sp := env.Savepoint st.trace curTx
  let st1 := { st with trace := st.trace ++ [Event.tx curTx (.savepoint sp)] }
  match sp with
  | some e => .ret st1 e
  | none =>
    match playExec env b timeLimit st1 curTx t with
    | (res, some err, st3) => playUndo env b st3 curTx t res err
    | (res, none, st3) => playSucceeded env b st3 curTx t res

/-- How the loop of Block.Play is left: it ran to its end or met a break, a
return statement returned err, or it panicked. -/
inductive LoopExit where
  | done
  | returned (err : Err)
  | panicked
  deriving DecidableEq, Repr

/-- The loop of Block.Play over the transactions from index curTx on. -/
def playLoop (env : Env) (b : Block) (timeLimit : Int) :
    PlayState → Nat → List Transaction → PlayState × LoopExit
  | st, _, [] => (st, .done)
  | st, curTx, t :: ts =>
    match playStep env b timeLimit st curTx t with
    | .next st1 => playLoop env b timeLimit st1 (curTx + 1) ts
    | .brk st1 => (st1, .done)
    | .ret st1 err => (st1, .returned err)
    | .panic st1 => (st1, .panicked)

/-- The result of Play: the error it returns (or a panic), the block and the
contract VM as Play leaves them, the accumulators handed to AfterPlayTxs, and
the trace. -/
structure PlayResult where
  ret : Outcome (Option Err)
  b : Block
  vm : VM
  playTxs : AfterTxs
  trace : Trace
  deriving DecidableEq, Repr

/-- The variable timeLimit of Block.Play (block.go 179-182). -/
def Block.timeLimit (env : Env) (tr : Trace) (b : Block) : Int :=
  if b.GenBlock then env.GetMaxBlockGenerationTime tr else 0

/-- The state in which the loop of Block.Play starts: empty accumulators. -/
def Block.playInit (tr : Trace) (vm : VM) (b : Block) : PlayState :=
  { trace := tr, vm := vm, playTxs := ⟨[], [], []⟩, proccessedTx := [],
    SysUpdate := b.SysUpdate, Notifications := b.Notifications }

/-- The method Block.Play (block.go 172-293).  The deferred function runs however
the loop is left: it stores proccessedTx in b.Transactions when generating and
calls AfterPlayTxs, whose error replaces the returned one. -/
def Block.Play (env : Env) (tr : Trace) (vm : VM) (b : Block) : PlayResult :=
  let out := playLoop env b (b.timeLimit env tr) (b.playInit tr vm) 0 b.Transactions
  let st := out.1
  let b1 : Block :=
    { b with
      Transactions := if b.GenBlock then st.proccessedTx else b.Transactions,
      SysUpdate := st.SysUpdate,
      Notifications := st.Notifications }
  let r := env.AfterPlayTxs st.trace b.Header.BlockID st.playTxs
  let tr1 := st.trace ++ [Event.afterPlayTxs b.Header.BlockID st.playTxs r]
  let ret : Outcome (Option Err) :=
    match out.2 with
    | .panicked => .panic
    | .returned err =>
      match r with
      | some e => .ret (some e)
      | none => .ret (some err)
    | .done => .ret r
  ⟨ret, b1, st.vm, st.playTxs, tr1⟩

/-! ## Block.repeatMarshallBlock, Block.PlaySafe, InsertBlockWOForks -/

/-- The method Block.repeatMarshallBlock (block.go 136-164). -/
def Block.repeatMarshallBlock (env : Env) (tr : Trace) (b : Block) : Option Err × Block × Trace :=
  let trData := b.Transactions.map (fun t => t.TxFullData)
  let key := env.NodePrivateKey tr
  let tr1 := tr ++ [Event.getNodeKeys]
  if key.length < 1 then (some (.errorf "empty private node key"), b, tr1)
  else
    let tr2 := tr1 ++ [Event.marshallBlock trData]
    match env.MarshallBlock tr1 b.Header trData b.PrevHeader key with
    | .error err => (some err, b, tr2)
    | .ok newBlockData =>
      let tr3 := tr2 ++ [Event.unmarshallBlock newBlockData]
      match env.UnmarshallBlock tr2 newBlockData with
      | .error err => (some err, b, tr3)
      | .ok nb =>
        (none, { b with BinData := newBlockData, Transactions := nb.Transactions,
                        MrklRoot := nb.MrklRoot, SysUpdate := nb.SysUpdate }, tr3)

/-- The result of PlaySafe. -/
structure PlaySafeResult where
  ret : Outcome (Option Err)
  b : Block
  vm : VM
  trace : Trace
  deriving DecidableEq, Repr

/-- The queued notifications are sent one after the other (block.go 130-132). -/
def sendAll (tr : Trace) (qs : List Notifications) : Trace :=
  tr ++ qs.map Event.send

/-- The part of Block.PlaySafe after a successful Play and the generation
branch (block.go 106-133). -/
def Block.commitBlock (env : Env) (tr : Trace) (vm : VM) (b : Block) : PlaySafeResult :=
  let r1 := env.UpdBlockInfo tr b
  let tr1 := tr ++ [Event.updBlockInfo b.Header.BlockID r1]
  match r1 with
  | some err => ⟨.ret (some err), b, vm, tr1 ++ [Event.dbRollback]⟩
  | none =>
    let r2 := env.InsertIntoBlockchain tr1 b
    let tr2 := tr1 ++ [Event.insertIntoBlockchain b.Header.BlockID r2]
    match r2 with
    | some err => ⟨.ret (some err), b, vm, tr2 ++ [Event.dbRollback]⟩
    | none =>
      let b1 := if b.SysUpdate then { b with SysUpdate := false } else b
      let r3 := env.Commit tr2
      let tr3 := tr2 ++ [Event.dbCommit r3]
      match r3 with
      | some err => ⟨.ret (some err), b1, vm, tr3⟩
      | none => ⟨.ret none, b1, vm, sendAll tr3 b1.Notifications⟩

/-- The method Block.PlaySafe (block.go 68-134). -/
def Block.PlaySafe (env : Env) (tr : Trace) (vm : VM) (b : Block) : PlaySafeResult :=
  let r0 := env.StartTransaction tr
  let tr1 := tr ++ [Event.startTransaction r0]
  match r0 with
  | some err => ⟨.ret (some err), b, vm, tr1⟩
  | none =>
    let inputTx := b.Transactions
    let p := b.Play env tr1 vm
    match p.ret with
    | .panic => ⟨.panic, p.b, p.vm, p.trace⟩
    | .ret (some err) =>
      let tr2 := p.trace ++ [Event.dbRollback]
      if p.b.GenBlock ∧ p.b.Transactions.length = 0 then
        let err1 := if err = ErrLimitStop then ErrLimitTime else err
        match inputTx with
        | [] => ⟨.panic, p.b, p.vm, tr2⟩
        | t0 :: _ =>
          let tr3 :=
            match t0.TxHeader with
            | some keyID => tr2 ++ [Event.badTxForBan keyID]
            | none => tr2
          let r := env.MarkTransactionBad tr3 t0.TxHash (env.errorText err1)
          let tr4 := tr3 ++ [Event.markTransactionBad t0.TxHash (env.errorText err1) r]
          match r with
          | some e => ⟨.ret (some e), p.b, p.vm, tr4⟩
          | none => ⟨.ret (some err1), p.b, p.vm, tr4⟩
      else ⟨.ret (some err), p.b, p.vm, tr2⟩
    | .ret none =>
      if p.b.GenBlock ∧ p.b.Transactions.length = 0 then
        ⟨.ret (some ErrEmptyBlock), p.b, p.vm, p.trace ++ [Event.dbCommit (env.Commit p.trace)]⟩
      else if p.b.GenBlock ∧ inputTx.length ≠ p.b.Transactions.length then
        match p.b.repeatMarshallBlock env p.trace with
        | (some err, b1, tr2) => ⟨.ret (some err), b1, p.vm, tr2 ++ [Event.dbRollback]⟩
        | (none, b1, tr2) => b1.commitBlock env tr2 p.vm
      else p.b.commitBlock env p.trace p.vm

/-- The result of InsertBlockWOForks. -/
structure InsertResult where
  ret : Outcome (Option Err)
  vm : VM
  trace : Trace
  deriving DecidableEq, Repr

/-- The function InsertBlockWOForks (block.go 404-421). -/
def InsertBlockWOForks (env : Env) (tr : Trace) (vm : VM) (data : Bytes)
    (genBlock firstBlock : Bool) : InsertResult :=
  let p := ProcessBlockWherePrevFromBlockchainTable env tr data (!firstBlock)
  match p.err, p.block with
  | some err, _ => ⟨.ret (some err), vm, p.trace⟩
  | none, none => ⟨.panic, vm, p.trace⟩
  | none, some block =>
    let block := { block with GenBlock := genBlock }
    let c := block.Check env p.trace
    match c.ret with
    | .panic => ⟨.panic, vm, c.trace⟩
    | .ret (some err) => ⟨.ret (some err), vm, c.trace⟩
    | .ret none =>
      let s := c.b.PlaySafe env c.trace vm
      ⟨s.ret, s.vm, s.trace⟩

/-! ## Reading a run of Play off its trace -/

/-- The state a step of the loop of Play ends in. -/
def Step.state : Step → PlayState
  | .next st => st
  | .brk st => st
  | .ret st _ => st
  | .panic st => st

/-- The calls made by PlaySafe itself: its trace without the calls made before. -/
def Block.playSafeEvents (env : Env) (tr : Trace) (vm : VM) (b : Block) : Trace :=
  (b.PlaySafe env tr vm).trace.drop tr.length

/-- The calls that write the block to the chain: UpdBlockInfo,
InsertIntoBlockchain and the commit of the database transaction. -/
def Event.isCommit : Event → Bool
  | .updBlockInfo _ _ => true
  | .insertIntoBlockchain _ _ => true
  | .dbCommit _ => true
  | _ => false

/-- The events a step appended to the trace of the state st it started from. -/
def Step.events (st : PlayState) (s : Step) : Trace :=
  s.state.trace.drop st.trace.length

/-- The calls of the error branch of the loop body: rolling back the savepoint,
marking the transaction bad, reloading the system parameters. -/
def TxOp.isUndo : TxOp → Bool
  | .rollbackSavepoint _ => true
  | .markTransactionBad _ _ => true
  | .sysUpdate _ => true
  | _ => false

/-- The calls of the success branch of the loop body: releasing the savepoint and
storing the transaction status. -/
def TxOp.isDone : TxOp → Bool
  | .releaseSavepoint _ => true
  | .setTransactionStatusBlockMsg _ _ _ _ => true
  | _ => false

/-- The calls made by Play itself: its trace without the calls made before. -/
def Block.playEvents (env : Env) (tr : Trace) (vm : VM) (b : Block) : Trace :=
  (b.Play env tr vm).trace.drop tr.length

/-- The error of the transaction at index j that the event reports, if it is the
return of t.Play or of CheckLimit with an error for that index. -/
def Event.failure (j : Nat) : Event → Option Err
  | .tx i (.play (some e)) => if i = j then some e else none
  | .tx i (.checkLimit (some e)) => if i = j then some e else none
  | _ => none

/-- The error with which the execution of the transaction at index j ended (t.Play
returned it, or t.Play returned nil and CheckLimit returned it), read off the
events; `none` when no such error was returned for index j. -/
def txError (evs : Trace) (j : Nat) : Option Err :=
  evs.findSome? (Event.failure j)

/-- The transactions of the list, numbered from index i on, whose execution did
not end with an error according to the events, in their order. -/
def okTxs (evs : Trace) : Nat → List Transaction → List Transaction
  | _, [] => []
  | i, t :: ts =>
    if txError evs i = none then t :: okTxs evs (i + 1) ts else okTxs evs (i + 1) ts

/-- The state in which the loop of Play, started in state st at index i, begins
iteration i + k: the first k iterations all went on to the next one. -/
def playReach (env : Env) (b : Block) (timeLimit : Int) :
    PlayState → Nat → List Transaction → Nat → Option PlayState
  | st, _, _, 0 => some st
  | _, _, [], _ + 1 => none
  | st, i, t :: ts, k + 1 =>
    match playStep env b timeLimit st i t with
    | .next st1 => playReach env b timeLimit st1 (i + 1) ts k
    | _ => none

/-! ## Sample data -/

/-- One hexadecimal digit. -/
def hexDigit (n : Nat) : Char :=
  if n < 10 then Char.ofNat (48 + n) else Char.ofNat (87 + n)

/-- Hexadecimal text of a byte slice. -/
def hexEncode (bs : Bytes) : String :=
  String.mk (bs.flatMap (fun x => [hexDigit (x.val / 16), hexDigit (x.val % 16)]))

/-- A rendering of error values as text. -/
def sampleErrorText : Err → String
  | .errorsNew msg => msg
  | .named name => name
  | .errorf msg => msg
  | .withBan e => sampleErrorText e
  | .errInfo e => sampleErrorText e
  | .wrap e msg => msg ++ ": " ++ sampleErrorText e

def sampleHeader (id time : Int) : BlockData :=
  { BlockID := id, Time := time, EcosystemID := 1, KeyID := 7, NodePosition := 0,
    Sign := [1, 2], Hash := [3], RollbacksHash := [4], Version := 1 }

def sampleTx (hash : Fin 256) (key : Int) : Transaction :=
  { TxHash := [hash], TxKeyID := key, TxHeader := some key, TxSmart := true, TxFullData := [hash, hash] }

def sampleBlock (id time : Int) (prev : Option BlockData) (txs : List Transaction) : Block :=
  { Header := sampleHeader id time, PrevHeader := prev, PrevRollbacksHash := [4], MrklRoot := [9],
    BinData := [1], Transactions := txs, SysUpdate := false, GenBlock := false, Notifications := [] }

def sampleVM : VM := { Children := [10, 11], Objects := [("a", some 1)] }

/-- An environment in which the clock reads 1000, the limits are 64 bytes per
block and 1 transaction per sender, one honor node is active, and every
collaborator succeeds. -/
def sampleEnv : Env :=
  { errorText := sampleErrorText
    BinToHex := hexEncode
    GetMaxBlockSize := fun _ => 64
    UnmarshallBlock := fun _ data => .ok (sampleBlock 5 900 none [sampleTx (Fin.ofNat data.length) 1])
    GetBlockDataFromBlockChain := fun _ id => .ok (sampleHeader id 800)
    now := 1000
    BlockForTimeExists := fun _ _ _ => .ok false
    GetMaxBlockUserTx := fun _ => 1
    CheckTime := fun _ _ _ => none
    IsSubNode := false
    nodesByPosition := fun _ => [{ PublicKey := [5, 6], TCPAddress := "127.0.0.1:7078", Stopped := false }]
    ForSign := fun h _ _ => toString h.BlockID
    CheckSign := fun _ _ _ _ => (true, none)
    StartTransaction := fun _ => none
    GetMaxBlockGenerationTime := fun _ => 2000
    Savepoint := fun _ _ => none
    TxPlay := fun _ vm _ _ _ _ _ _ =>
      { msg := "ok", flush := [], err := none, SysUpdate := false, RollBackTx := [], Notifications := [],
        vm := vm }
    CheckLimit := fun _ _ _ => none
    RollbackSavepoint := fun _ _ => none
    SysUpdate := fun _ => none
    ReleaseSavepoint := fun _ _ => none
    SetTransactionStatusBlockMsg := fun _ _ _ _ => none
    AfterPlayTxs := fun _ _ _ => none
    MarkTransactionBad := fun _ _ _ => none
    NodePrivateKey := fun _ => "key"
    MarshallBlock := fun _ _ trData _ _ => .ok trData.flatten
    UpdBlockInfo := fun _ _ => none
    InsertIntoBlockchain := fun _ _ => none
    Commit := fun _ => none }

/-- The sample environment in which t.Play fails with the error e for the
transaction at index failAt (and succeeds for the others), and every rollback of a
savepoint returns roll. -/
def failingEnv (failAt : Nat) (e : Err) (roll : Option Err) : Env :=
  { sampleEnv with
    TxPlay := fun _ vm i _ _ _ _ _ =>
      { msg := "", flush := [], err := if i = failAt then some e else none, SysUpdate := false,
        RollBackTx := [], Notifications := [], vm := vm }
    RollbackSavepoint := fun _ _ => roll }

/-- A sample block that is being generated. -/
def sampleGenBlock (txs : List Transaction) : Block :=
  { sampleBlock 5 900 (some (sampleHeader 4 800)) txs with GenBlock := true }

/-- The sample environment in which every transaction succeeds and sets its flag
SysUpdate (it changed a system parameter). -/
def sysUpdateEnv : Env :=
  { sampleEnv with
    TxPlay := fun _ vm _ _ _ _ _ _ =>
      { msg := "ok", flush := [], err := none, SysUpdate := true, RollBackTx := [],
        Notifications := [], vm := vm } }

/-! ## Registrations on the contract VM and their flush records -/

/-- Go map lookup on the association list: `none` when the key is absent. -/
def mapLookup (m : List (String × Option Nat)) (k : String) : Option (Option Nat) :=
  (m.find? (fun p => p.1 == k)).map (fun p => p.2)

/-- Modelled from the spec: the code that registers contracts on the VM and fills
the flush list (package smart) is not among the sources.  A registration either
appends a child under a name that has no object entry yet, or replaces the child
in an existing slot together with the existing object entry of a name. -/
inductive Registration where
  | append (child : Nat) (name : String) (info : Option Nat)
  | replace (id : Nat) (child : Nat) (name : String) (info : Option Nat)
  deriving DecidableEq, Repr

/-- Modelled from the spec: the producer of smart.FlushInfo is not among the
sources.  One registration on the VM and the record it leaves: an append is
recorded with Prev = nil, ID = the index of the appended child (a uint32) and
Name; a replacement with ID, Name, the previous child Prev and the previous object
entry Info.  The result is `none` when the request is not such a registration:
an append under a name that already has an entry, a replacement of a slot or of an
entry that does not exist, or a slot number that does not fit a uint32. -/
def register (vm : VM) : Registration → Option (VM × FlushInfo)
  | .append child name info =>
    match mapLookup vm.Objects name with
    | some _ => none
    | none =>
      some ({ Children := vm.Children ++ [child], Objects := mapSet vm.Objects name info },
            { ID := uint32 vm.Children.length, Prev := none, Info := none, Name := name })
  | .replace id child name info =>
    match vm.Children[id]?, mapLookup vm.Objects name with
    | some old, some oldInfo =>
      if id < 4294967296 then
        some ({ Children := vm.Children.set id child, Objects := mapSet vm.Objects name info },
              { ID := id, Prev := some old, Info := oldInfo, Name := name })
      else none
    | _, _ => none

/-- Modelled from the spec: the registrations of one transaction made in order,
with the flush list that records each of them in that order. -/
def registerAll (vm : VM) : List Registration → Option (VM × List FlushInfo)
  | [] => some (vm, [])
  | r :: rs =>
    match register vm r with
    | none => none
    | some (vm1, f) =>
      match registerAll vm1 rs with
      | none => none
      | some (vm2, fs) => some (vm2, f :: fs)

/-! ## Package syspar: the parameter cache and the honor nodes -/

/-- Go map lookup on an association list: `none` when the key is absent. -/
def kvGet {κ ν : Type} [DecidableEq κ] (m : List (κ × ν)) (k : κ) : Option ν :=
  (m.find? (fun p => decide (p.1 = k))).map (fun p => p.2)

/-- Go map assignment on an association list: the entry of the key is replaced. -/
def kvSet {κ ν : Type} [DecidableEq κ] (m : List (κ × ν)) (k : κ) (v : ν) : List (κ × ν) :=
  (k, v) :: m.filter (fun p => decide (p.1 ≠ k))

/-- The name of the honor-node parameter (syspar.go 34). -/
def HonorNodes : String := "honor_nodes"

/-- The name of the fuel-rate parameter (syspar.go 32). -/
def FuelRate : String := "fuel_rate"

/-- The name of the taxes-wallet parameter (syspar.go 45). -/
def TaxesWallet : String := "taxes_wallet"

/-- The error value errNodeDisabled (syspar.go 83). -/
def errNodeDisabled : Err := .errorsNew "node is disabled"

/-- The package variables of syspar (syspar.go 75-85): the maps cache, nodes, fuels
and wallets as association lists with one entry per key, the slice
nodesByPosition, and the public key of this node.  The order of the list nodes is
the order in which a range over the map visits its entries. -/
structure Syspar where
  cache : List (String × String)
  nodes : List (String × HonorNode)
  nodesByPosition : List HonorNode
  fuels : List (Int × String)
  wallets : List (Int × String)
  nodePubKey : Bytes
  deriving DecidableEq, Repr

/-- The collaborators of package syspar: the rows (Name, Value) that
model.GetAllSystemParameters reads from the parameter table, json.Unmarshal into a
slice of honor nodes and into a slice of string slices, converter.StrToInt64,
DuplicateHonorNode, hex.EncodeToString, and the bootstrap addresses
conf.Config.NodesAddr. -/
structure SysparEnv where
  GetAllSystemParameters : Except Err (List (String × String))
  unmarshalNodes : String → Except Err (List HonorNode)
  unmarshalParams : String → Except Err (List (List String))
  StrToInt64 : String → Int
  DuplicateHonorNode : List HonorNode → Option Err
  EncodeToString : Bytes → String
  NodesAddr : List String

/-- The function SysString (syspar.go 479-484): the cached value, the empty string
when the name has no entry. -/
def SysString (s : Syspar) (name : String) : String :=
  (kvGet s.cache name).getD ""

/-- The function HasSys (syspar.go 492-497). -/
def HasSys (s : Syspar) (name : String) : Bool :=
  (kvGet s.cache name).isSome

/-- The loop of updateNodes (syspar.go 180-186) over the items left, on the
variables nodes and nodesByPosition. -/
def updateNodesLoop (env : SysparEnv) :
    List HonorNode → List (String × HonorNode) × List HonorNode →
      List (String × HonorNode) × List HonorNode
  | [], acc => acc
  | item :: rest, (nodes, byPosition) =>
    updateNodesLoop env rest
      (kvSet nodes (env.EncodeToString item.PublicKey) item,
        if !item.Stopped then byPosition ++ [item] else byPosition)

/-- The function updateNodes (syspar.go 162-188). -/
def updateNodes (env : SysparEnv) (s : Syspar) : Option Err × Syspar :=
  let parsed : Except Err (List HonorNode) :=
    if (SysString s HonorNodes).length > 0 then env.unmarshalNodes (SysString s HonorNodes)
    else .ok []
  match parsed with
  | .error err => (some err, s)
  | .ok items =>
    let dup := if items.length > 1 then env.DuplicateHonorNode items else none
    match dup with
    | some err => (some err, s)
    | none =>
      let r := updateNodesLoop env items ([], [])
      (none, { s with nodes := r.1, nodesByPosition := r.2 })

/-- The loop of the closure getParams (syspar.go 149-154). -/
def getParamsLoop (env : SysparEnv) : List (List String) → List (Int × String) → List (Int × String)
  | [], res => res
  | item :: rest, res =>
    match item with
    | key :: value :: _ => getParamsLoop env rest (kvSet res (env.StrToInt64 key) value)
    | _ => getParamsLoop env rest res

/-- The closure getParams of SysUpdate (syspar.go 138-157): the map it returns and
the error. -/
def getParams (env : SysparEnv) (s : Syspar) (name : String) : List (Int × String) × Option Err :=
  if (SysString s name).length > 0 then
    match env.unmarshalParams (SysString s name) with
    | .error err => ([], some err)
    | .ok ifuels => (getParamsLoop env ifuels [], none)
  else ([], none)

/-- The loop of SysUpdate that stores the rows in the cache (syspar.go 131-133). -/
def cacheRows : List (String × String) → List (String × String) → List (String × String)
  | [], cache => cache
  | param :: rest, cache => cacheRows rest (kvSet cache param.1 param.2)

/-- The function SysUpdate (syspar.go 121-160): the error it returns and the
package variables as it leaves them. -/
def SysUpdate (env : SysparEnv) (s : Syspar) : Option Err × Syspar :=
  match env.GetAllSystemParameters with
  | .error err => (some err, s)
  | .ok systemParameters =>
    let s1 := { s with cache := cacheRows systemParameters s.cache }
    let r := if (SysString s1 HonorNodes).length > 0 then updateNodes env s1 else (none, s1)
    match r with
    | (some err, s2) => (some err, s2)
    | (none, s2) =>
      let f := getParams env s2 FuelRate
      let w := getParams env s2 TaxesWallet
      (w.2, { s2 with fuels := f.1, wallets := w.1 })

/-- The loop of GetNodePositionByPublicKey (syspar.go 229-241) from index i on. -/
def positionLoop (publicKey : Bytes) : List HonorNode → Nat → Except Err Int
  | [], _ => .error (.errorf "Incorrect public key")
  | item :: rest, i =>
    if item.Stopped then
      if item.PublicKey = publicKey then .error errNodeDisabled
      else positionLoop publicKey rest (i + 1)
    else if item.PublicKey = publicKey then .ok (int64 i)
    else positionLoop publicKey rest (i + 1)

/-- The function GetNodePositionByPublicKey (syspar.go 225-243). -/
def GetNodePositionByPublicKey (s : Syspar) (publicKey : Bytes) : Except Err Int :=
  positionLoop publicKey s.nodesByPosition 0

/-- The loop of GetRemoteHosts and of GetDefaultRemoteHosts over the entries of the
map nodes (syspar.go 450-454, 470-474). -/
def remoteHostsLoop (nodeKey : String) : List (String × HonorNode) → List String → List String
  | [], ret => ret
  | (pubKey, item) :: rest, ret =>
    if pubKey ≠ nodeKey ∧ item.Stopped = false then
      remoteHostsLoop nodeKey rest (ret ++ [item.TCPAddress])
    else remoteHostsLoop nodeKey rest ret

/-- The function GetRemoteHosts (syspar.go 463-476). -/
def GetRemoteHosts (env : SysparEnv) (s : Syspar) : List String :=
  remoteHostsLoop (env.EncodeToString s.nodePubKey) s.nodes []

/-- The function GetDefaultRemoteHosts (syspar.go 444-460). -/
def GetDefaultRemoteHosts (env : SysparEnv) (s : Syspar) : List String :=
  let ret := remoteHostsLoop (env.EncodeToString s.nodePubKey) s.nodes []
  if ret.length = 0 ∧ env.NodesAddr.length > 0 then
    match env.NodesAddr with
    | addr :: _ => ret ++ [addr]
    | [] => ret
  else ret

/-- A sample of the collaborators of syspar: the table holds the rows new = 2 and
honor_nodes = n; the text n parses to an active node with key [1] and a stopped
node with key [2]; one bootstrap address is configured. -/
def sampleSysparEnv : SysparEnv :=
  { GetAllSystemParameters := .ok [("new", "2"), ("honor_nodes", "n")]
    unmarshalNodes := fun _ =>
      .ok [{ PublicKey := [1], TCPAddress := "10.0.0.1:7078", Stopped := false },
           { PublicKey := [2], TCPAddress := "10.0.0.2:7078", Stopped := true }]
    unmarshalParams := fun _ => .ok []
    StrToInt64 := fun _ => 0
    DuplicateHonorNode := fun _ => none
    EncodeToString := hexEncode
    NodesAddr := ["10.0.0.9:7078"] }

/-- The package variables before a refresh: the cache holds the entry old = 1. -/
def sampleSyspar : Syspar :=
  { cache := [("old", "1")], nodes := [], nodesByPosition := [], fuels := [], wallets := [],
    nodePubKey := [9] }

/-! ## The block codec -/

/-- Modelled from the spec: the block codec (MarshallBlock, UnmarshallBlock and
the converter helpers they use) is not among the sources.  An unsigned number in a
fixed number of bytes, most significant byte first. -/
def encodeFixed : Nat → Nat → Bytes
  | 0, _ => []
  | w + 1, n => encodeFixed w (n / 256) ++ [⟨n % 256, Nat.mod_lt _ (by decide)⟩]

/-- Modelled from the spec: the codec is not among the sources.  The number that a
run of bytes holds, most significant byte first. -/
def decodeFixed (bs : Bytes) : Nat :=
  bs.foldl (fun acc x => acc * 256 + x.val) 0

/-- Modelled from the spec: the codec is not among the sources.  A header field of
type int64 in eight bytes. -/
def encodeInt64 (x : Int) : Bytes :=
  encodeFixed 8 (x % 18446744073709551616).toNat

/-- Modelled from the spec: the codec is not among the sources.  The int64 that
eight bytes hold. -/
def decodeInt64 (bs : Bytes) : Int :=
  int64 (decodeFixed bs)

/-- Modelled from the spec: the codec is not among the sources.  A variable-length
field: its length in four bytes, then its bytes. -/
def encodeLengthPlusData (bs : Bytes) : Bytes :=
  encodeFixed 4 bs.length ++ bs

/-- Modelled from the spec: the codec is not among the sources.  The first w bytes
and the bytes after them; `none` when fewer than w bytes are left. -/
def readFixed (w : Nat) (bs : Bytes) : Option (Bytes × Bytes) :=
  if bs.length < w then none else some (bs.take w, bs.drop w)

/-- Modelled from the spec: the codec is not among the sources.  An int64 header
field read off the front. -/
def readInt64 (bs : Bytes) : Option (Int × Bytes) :=
  match readFixed 8 bs with
  | none => none
  | some (field, rest) => some (decodeInt64 field, rest)

/-- Modelled from the spec: the codec is not among the sources.  A length-prefixed
field read off the front. -/
def readLengthPlusData (bs : Bytes) : Option (Bytes × Bytes) :=
  match readFixed 4 bs with
  | none => none
  | some (len, rest) => readFixed (decodeFixed len) rest

/-- Modelled from the spec: the codec is not among the sources.  The transaction
stream: length-prefixed items up to the end of the input.  Every item takes at
least four bytes, so a fuel of the number of bytes left is never used up. -/
def readStream : Nat → Bytes → Option (List Bytes)
  | _, [] => some []
  | 0, _ :: _ => none
  | fuel + 1, x :: bs =>
    match readLengthPlusData (x :: bs) with
    | none => none
    | some (item, rest) =>
      match readStream fuel rest with
      | none => none
      | some items => some (item :: items)

/-- Modelled from the spec: the Merkle tree helper is not among the sources.  One
layer of the tree: neighbours are hashed in pairs, the last node with itself when
the layer has an odd number of nodes. -/
def merkleLayer (sha256 : Bytes → Bytes) : List Bytes → List Bytes
  | [] => []
  | [x] => [sha256 (x ++ x)]
  | x :: y :: rest => sha256 (x ++ y) :: merkleLayer sha256 rest

/-- Modelled from the spec: the Merkle tree helper is not among the sources.
Layers are built bottom-up until one node is left. -/
def merkleFold (sha256 : Bytes → Bytes) : Nat → List Bytes → Bytes
  | _, [] => sha256 []
  | _, [x] => x
  | 0, x :: _ :: _ => x
  | fuel + 1, x :: y :: rest => merkleFold sha256 fuel (merkleLayer sha256 (x :: y :: rest))

/-- Modelled from the spec: the Merkle tree helper is not among the sources.  The
root over the SHA-256 of the transaction hashes. -/
def MerkleTreeRoot (sha256 : Bytes → Bytes) (txHashes : List Bytes) : Bytes :=
  merkleFold sha256 txHashes.length (txHashes.map sha256)

/-- The collaborators of the codec: SHA-256, the hash of a serialized transaction,
the canonical string ForSign over the header fields, the hash of the previous
block and the Merkle root, signing with the node key, checking a signature with
the public key of the node, and the parsing of one transaction. -/
structure CodecEnv where
  sha256 : Bytes → Bytes
  txHash : Bytes → Bytes
  ForSign : Int → Int → Int → Int → Int → Int → Bytes → Bytes → String
  SignString : String → String → Except Err Bytes
  CheckSign : Bytes → String → Bytes → Bool
  UnmarshallTransaction : Bytes → Except Err Transaction

/-- Modelled from the spec: the method ForSign of the header is not among the
sources.  The signature domain of a header with a previous header and a Merkle
root. -/
def CodecEnv.headerForSign (c : CodecEnv) (header prev : BlockData) (mrklRoot : Bytes) : String :=
  c.ForSign header.Version header.BlockID header.Time header.EcosystemID header.KeyID
    header.NodePosition prev.Hash mrklRoot

/-- Modelled from the spec: MarshallBlock is not among the sources.  The header
fields in a fixed order, the variable-length fields (the rollbacks hash of the
previous block and the signature) length-prefixed, then the transaction stream;
the header is signed over ForSign(prev, Merkle root). -/
def MarshallBlock (c : CodecEnv) (header : BlockData) (trData : List Bytes) (prev : BlockData)
    (key : String) : Except Err Bytes :=
  let mrklRoot := MerkleTreeRoot c.sha256 (trData.map c.txHash)
  match c.SignString key (c.headerForSign header prev mrklRoot) with
  | .error err => .error err
  | .ok signed =>
    .ok (encodeInt64 header.Version ++ (encodeInt64 header.BlockID ++ (encodeInt64 header.Time ++
      (encodeInt64 header.EcosystemID ++ (encodeInt64 header.KeyID ++
      (encodeInt64 header.NodePosition ++ (encodeLengthPlusData prev.RollbacksHash ++
      (encodeLengthPlusData signed ++ (trData.map encodeLengthPlusData).flatten))))))))

/-- Modelled from the spec: the parsing of the transactions of a block is not among
the sources.  The items of the stream are parsed in order; the first failure is the
result. -/
def unmarshallTransactions (c : CodecEnv) : List Bytes → Except Err (List Transaction)
  | [] => .ok []
  | item :: rest =>
    match c.UnmarshallTransaction item with
    | .error err => .error err
    | .ok t =>
      match unmarshallTransactions c rest with
      | .error err => .error err
      | .ok ts => .ok (t :: ts)

/-- Modelled from the spec: UnmarshallBlock is not among the sources.  The header
fields are read in the order MarshallBlock wrote them, then the transaction stream;
the Merkle root is computed over the hashes of the transactions read.  Input that
does not parse is rejected with ErrUnmarshallBlock. -/
def UnmarshallBlock (c : CodecEnv) (data : Bytes) : Except Err Block :=
  match readInt64 data with
  | none => .error ErrUnmarshallBlock
  | some (version, r1) =>
  match readInt64 r1 with
  | none => .error ErrUnmarshallBlock
  | some (blockID, r2) =>
  match readInt64 r2 with
  | none => .error ErrUnmarshallBlock
  | some (time, r3) =>
  match readInt64 r3 with
  | none => .error ErrUnmarshallBlock
  | some (ecosystemID, r4) =>
  match readInt64 r4 with
  | none => .error ErrUnmarshallBlock
  | some (keyID, r5) =>
  match readInt64 r5 with
  | none => .error ErrUnmarshallBlock
  | some (nodePosition, r6) =>
  match readLengthPlusData r6 with
  | none => .error ErrUnmarshallBlock
  | some (prevRollbacksHash, r7) =>
  match readLengthPlusData r7 with
  | none => .error ErrUnmarshallBlock
  | some (sign, r8) =>
  match readStream r8.length r8 with
  | none => .error ErrUnmarshallBlock
  | some items =>
  match unmarshallTransactions c items with
  | .error err => .error err
  | .ok txs =>
    .ok { Header := { BlockID := blockID, Time := time, EcosystemID := ecosystemID, KeyID := keyID,
                      NodePosition := nodePosition, Sign := sign, Hash := [], RollbacksHash := [],
                      Version := version },
          PrevHeader := none, PrevRollbacksHash := prevRollbacksHash,
          MrklRoot := MerkleTreeRoot c.sha256 (txs.map (fun t => t.TxHash)),
          BinData := data, Transactions := txs, SysUpdate := false, GenBlock := false,
          Notifications := [] }

/-- The environment of the block package with the codec plugged in: MarshallBlock
needs the previous header, UnmarshallBlock is the one of the codec. -/
def Env.withCodec (env : Env) (c : CodecEnv) : Env :=
  { env with
    MarshallBlock := fun _ header trData prev key =>
      match prev with
      | none => .error (.errorf "previous header is nil")
      | some p => Ibax.MarshallBlock c header trData p key
    UnmarshallBlock := fun _ data => Ibax.UnmarshallBlock c data }

/-- A sample of the collaborators of the codec: hashing keeps the first byte,
signing with the key k gives the length of the text, and every signature checks. -/
def sampleCodecEnv : CodecEnv :=
  { sha256 := fun bs => bs.take 1
    txHash := fun bs => bs.take 1
    ForSign := fun _ blockID _ _ _ _ _ _ => toString blockID
    SignString := fun _ msg => .ok [Fin.ofNat msg.length]
    CheckSign := fun _ _ _ => true
    UnmarshallTransaction := fun bs =>
      .ok { TxHash := bs.take 1, TxKeyID := 1, TxHeader := some 1, TxSmart := true, TxFullData := bs } }

/-! ## Markers and parameters read by the later checks -/

/-- Whether the error value carries the marker of utils.WithBan, at the top or
under the wrappers utils.ErrInfo and errors.Wrap. -/
def Err.isBan : Err → Bool
  | .withBan _ => true
  | .errInfo e => e.isBan
  | .wrap e _ => e.isBan
  | _ => false

/-- The name of the private-blockchain parameter (syspar.go 63). -/
def PrivateBlockchain : String := "private_blockchain"

/-- The function IsPrivateBlockchain (syspar.go 530-533). -/
def IsPrivateBlockchain (s : Syspar) : Bool :=
  let par := SysString s PrivateBlockchain
  decide (par.length > 0 ∧ par ≠ "0" ∧ par ≠ "false")

/-- The sample environment in which the per-sender limit max_tx_block_per_user
reads as -1. -/
def negativeCapEnv : Env :=
  { sampleEnv with GetMaxBlockUserTx := fun _ => -1 }

/-- The sample environment in which persisting the accumulators fails: AfterPlayTxs
returns an error. -/
def afterPlayFailsEnv : Env :=
  { sampleEnv with AfterPlayTxs := fun _ _ _ => some (.errorf "db") }

/-- A sample of the collaborators of syspar in which the table holds
fuel_rate = bad and taxes_wallet = good: the text bad is not JSON, the text good
stands for a list that parses to one pair. -/
def badFuelSysparEnv : SysparEnv :=
  { sampleSysparEnv with
    GetAllSystemParameters := .ok [("fuel_rate", "bad"), ("taxes_wallet", "good")]
    unmarshalParams := fun v =>
      if v = "bad" then .error (.errorf "invalid character b looking for beginning of value")
      else .ok [["1", "w"]]
    StrToInt64 := fun _ => 1 }

/-! ## Package migration -/

/-- One entry of a migration list (the record migration): its version, its data and
whether the data is a template. -/
structure Migration where
  version : String
  data : String
  template : Bool
  deriving DecidableEq, Repr

/-- One call of ApplyMigration: the version and the data passed, and the error
returned (`none` is nil). -/
structure MigrationCall where
  version : String
  data : String
  result : Option Err
  deriving DecidableEq, Repr

/-- The collaborators of package migration: strings.Split on the dot,
strconv.Atoi, the helper sqlConvert, and the two methods of the interface
database; ApplyMigration sees the calls made before. -/
structure MigrationEnv where
  Split : String → List String
  Atoi : String → Except Err Int
  sqlConvert : List String → Except Err String
  CurrentVersion : Except Err String
  ApplyMigration : List MigrationCall → String → String → Option Err

/-- The loop of compareVer (migration.go 58-71) from index i on, over the parts
of a that are left; reading bv[i] out of range is a panic. -/
def compareLoop (env : MigrationEnv) (a b : String) (bv : List String) :
    List String → Nat → Outcome (Except Err Int)
  | [], _ => .ret (.ok 0)
  | v :: rest, i =>
    match env.Atoi v with
    | .error _ => .ret (.error (.errorf ("Wrong version " ++ a)))
    | .ok ai =>
      match bv[i]? with
      | none => .panic
      | some w =>
        match env.Atoi w with
        | .error _ => .ret (.error (.errorf ("Wrong version " ++ b)))
        | .ok bi =>
          if ai < bi then .ret (.ok (-1))
          else if ai > bi then .ret (.ok 1)
          else compareLoop env a b bv rest (i + 1)

/-- The function compareVer (migration.go 46-73). -/
def compareVer (env : MigrationEnv) (a b : String) : Outcome (Except Err Int) :=
  if (env.Split a).length ≠ 3 then .ret (.error (.errorf ("Wrong version " ++ a)))
  else if (env.Split b).length ≠ 3 then .ret (.error (.errorf ("Wrong version " ++ b)))
  else compareLoop env a b (env.Split b) (env.Split a) 0

/-- What migrate returns (or a panic) and the calls of ApplyMigration it made. -/
structure MigrateResult where
  ret : Outcome (Option Err)
  calls : List MigrationCall
  deriving DecidableEq, Repr

/-- The loop of migrate (migration.go 89-109) over the migrations left. -/
def migrateLoop (env : MigrationEnv) (dbVerString : String) :
    List Migration → List MigrationCall → MigrateResult
  | [], calls => ⟨.ret none, calls⟩
  | m :: rest, calls =>
    match compareVer env dbVerString m.version with
    | .panic => ⟨.panic, calls⟩
    | .ret (.error err) => ⟨.ret (some err), calls⟩
    | .ret (.ok cmp) =>
      if cmp ≥ 0 then migrateLoop env dbVerString rest calls
      else
        let converted : Except Err String :=
          if m.template then env.sqlConvert [m.data] else .ok m.data
        match converted with
        | .error err => ⟨.ret (some err), calls⟩
        | .ok data =>
          let r := env.ApplyMigration calls m.version data
          let calls1 := calls ++ [{ version := m.version, data := data, result := r }]
          match r with
          | some err => ⟨.ret (some err), calls1⟩
          | none => migrateLoop env dbVerString rest calls1

/-- The function migrate (migration.go 75-112). -/
def migrate (env : MigrationEnv) (appVer : String) (migrations : List Migration) : MigrateResult :=
  match env.CurrentVersion with
  | .error err => ⟨.ret (some err), []⟩
  | .ok dbVerString =>
    match compareVer env dbVerString appVer with
    | .panic => ⟨.panic, []⟩
    | .ret (.error err) => ⟨.ret (some err), []⟩
    | .ret (.ok cmp) =>
      if cmp ≥ 0 then ⟨.ret none, []⟩
      else migrateLoop env dbVerString migrations []

/-- The triple of integers of a version that consists of exactly three
dot-separated decimal integers; `none` for any other text. -/
def versionTriple (env : MigrationEnv) (a : String) : Option (Int × Int × Int) :=
  match env.Split a with
  | [x, y, z] =>
    match env.Atoi x, env.Atoi y, env.Atoi z with
    | .ok i, .ok j, .ok k => some (i, j, k)
    | _, _, _ => none
  | _ => none

/-- The lexicographic order on triples of integers. -/
def lexLt (x y : Int × Int × Int) : Prop :=
  x.1 < y.1 ∨ (x.1 = y.1 ∧ (x.2.1 < y.2.1 ∨ (x.2.1 = y.2.1 ∧ x.2.2 < y.2.2)))

instance lexLtDecidable (x y : Int × Int × Int) : Decidable (lexLt x y) := by
  unfold lexLt
  infer_instance

/-- The migrations of a list that migrate has to apply for a database version with
the triple db: those whose version has a strictly greater triple, in list order. -/
def pendingMigrations (env : MigrationEnv) (db : Int × Int × Int) (ms : List Migration) :
    List Migration :=
  ms.filter (fun m =>
    match versionTriple env m.version with
    | some t => decide (lexLt db t)
    | none => false)

/-- Applying the pending migrations one after the other: a template is converted
first, the first failure of the conversion or of ApplyMigration ends the run with
that error, and the run returns nil when every migration was applied. -/
def applyPending (env : MigrationEnv) : List Migration → List MigrationCall → MigrateResult
  | [], calls => ⟨.ret none, calls⟩
  | m :: rest, calls =>
    match (if m.template then env.sqlConvert [m.data] else .ok m.data) with
    | .error err => ⟨.ret (some err), calls⟩
    | .ok data =>
      match env.ApplyMigration calls m.version data with
      | some err =>
        ⟨.ret (some err), calls ++ [{ version := m.version, data := data, result := some err }]⟩
      | none =>
        applyPending env rest (calls ++ [{ version := m.version, data := data, result := none }])

/-- Digits of a decimal text read as a number; `none` when a character is not a
digit or the text is empty. -/
def sampleAtoi (s : String) : Except Err Int :=
  if s.isEmpty ∨ ¬ s.toList.all Char.isDigit then .error (.errorf "invalid syntax")
  else .ok (s.toList.foldl (fun acc c => acc * 10 + ((c.toNat - 48 : Nat) : Int)) 0)

/-- Splitting a text at a separator character, on the characters left and the
characters of the current part in reverse. -/
def sampleSplit (sep : Char) : List Char → List Char → List String
  | [], cur => [String.mk cur.reverse]
  | c :: cs, cur =>
    if c = sep then String.mk cur.reverse :: sampleSplit sep cs []
    else sampleSplit sep cs (c :: cur)

/-- A sample of the collaborators of migration: the database is at version 0.1.5,
templates convert to themselves, and applying the version 3.2.0 fails. -/
def sampleMigrationEnv : MigrationEnv :=
  { Split := fun s => sampleSplit (Char.ofNat 46) s.toList []
    Atoi := sampleAtoi
    sqlConvert := fun l => .ok (String.join l)
    CurrentVersion := .ok "0.1.5"
    ApplyMigration := fun _ version _ => if version = "3.2.0" then some (.errorf "apply") else none }

/-- A sample migration list. -/
def sampleMigrations : List Migration :=
  [⟨"0.0.1", "a", true⟩, ⟨"0.1.5", "b", true⟩, ⟨"0.1.6", "c", false⟩, ⟨"3.2.0", "d", false⟩,
    ⟨"3.3.0", "e", false⟩]

/-! ## Package daemons: sendBlockWithTxHashes -/

/-- A row of the transactions table as the disseminator reads it: the hash and the
data. -/
structure UnsentTx where
  Hash : Bytes
  Data : Bytes
  deriving DecidableEq, Repr

/-- The calls sendBlockWithTxHashes makes from line 83 on, each with what it
returned. -/
inductive DissEvent where
  | getAllUnsentTransactions (limit : Int)
  | filterHosts (hosts : List String)
  | sendFullBlockToAll (hosts : List String) (block : Option Int) (trs : List UnsentTx)
      (honorNodeID : Int) (r : Option Err)
  | markSent (block : Int) (r : Option Err)
  | markTransactionSentBatches (hashArr : List Bytes) (r : Option Err)
  deriving DecidableEq, Repr

/-- The collaborators of sendBlockWithTxHashes: syspar.GetMaxTxCount,
model.GetAllUnsentTransactions (a pointer to a slice, `none` is nil),
syspar.GetRemoteHosts, the method FilterHosts of the ban service (good hosts, ban
hosts), tcpclient.SendFullBlockToAll, the method MarkSent of the block, and
model.MarkTransactionSentBatches.  The calls that write see the calls made so
far. -/
structure DissEnv where
  GetMaxTxCount : Int
  GetAllUnsentTransactions : Int → Except Err (Option (List UnsentTx))
  GetRemoteHosts : List String
  FilterHosts : List String → Except Err (List String × List String)
  SendFullBlockToAll : List DissEvent → List String → Option Int → List UnsentTx → Int → Option Err
  MarkSent : List DissEvent → Int → Option Err
  MarkTransactionSentBatches : List DissEvent → List Bytes → Option Err

/-- What sendBlockWithTxHashes returns (or a panic) and the calls it made. -/
structure DissResult where
  ret : Outcome (Option Err)
  trace : List DissEvent
  deriving DecidableEq, Repr

/-- The end of sendBlockWithTxHashes (disseminator.go 111-131): the block, if any,
and the transactions are marked as sent. -/
def markAllSent (env : DissEnv) (tr : List DissEvent) (block : Option Int)
    (trs : Option (List UnsentTx)) : DissResult :=
  let afterBlock : Option Err × List DissEvent :=
    match block with
    | none => (none, tr)
    | some id =>
      let r := env.MarkSent tr id
      (r, tr ++ [DissEvent.markSent id r])
  match afterBlock with
  | (some err, tr1) => ⟨.ret (some err), tr1⟩
  | (none, tr1) =>
    match trs with
    | none => ⟨.ret none, tr1⟩
    | some txs =>
      let hashArr := txs.map (fun t => t.Hash)
      let r := env.MarkTransactionSentBatches tr1 hashArr
      ⟨.ret r, tr1 ++ [DissEvent.markTransactionSentBatches hashArr r]⟩

/-- The send to the good hosts and what follows (disseminator.go 106-131); the
dereference of a nil trs is a panic. -/
def sendToGoodHosts (env : DissEnv) (tr : List DissEvent) (hosts : List String)
    (block : Option Int) (trs : Option (List UnsentTx)) (honorNodeID : Int) : DissResult :=
  match trs with
  | none => ⟨.panic, tr⟩
  | some txs =>
    let r := env.SendFullBlockToAll tr hosts block txs honorNodeID
    let tr1 := tr ++ [DissEvent.sendFullBlockToAll hosts block txs honorNodeID r]
    match r with
    | some err => ⟨.ret (some err), tr1⟩
    | none => markAllSent env tr1 block trs

/-- The function sendBlockWithTxHashes from the reading of the unsent
transactions on (disseminator.go 83-132).  The statements before, which set the
variable block (the unsent block, `none` is nil), are not in the source: block is
an argument. -/
def sendBlockWithTxHashes (env : DissEnv) (block : Option Int) (honorNodeID : Int) : DissResult :=
  let tr0 := [DissEvent.getAllUnsentTransactions env.GetMaxTxCount]
  match env.GetAllUnsentTransactions env.GetMaxTxCount with
  | .error err => ⟨.ret (some err), tr0⟩
  | .ok trs =>
    let noTrs : Bool :=
      match trs with
      | none => true
      | some txs => txs.length == 0
    if noTrs ∧ block = none then ⟨.ret none, tr0⟩
    else
      let tr1 := tr0 ++ [DissEvent.filterHosts env.GetRemoteHosts]
      match env.FilterHosts env.GetRemoteHosts with
      | .error err => ⟨.ret (some err), tr1⟩
      | .ok (hosts, banHosts) =>
        if banHosts.length > 0 then
          match trs with
          | none => ⟨.panic, tr1⟩
          | some txs =>
            let r := env.SendFullBlockToAll tr1 banHosts none txs honorNodeID
            let tr2 := tr1 ++ [DissEvent.sendFullBlockToAll banHosts none txs honorNodeID r]
            match r with
            | some err => ⟨.ret (some err), tr2⟩
            | none => sendToGoodHosts env tr2 hosts block trs honorNodeID
        else sendToGoodHosts env tr1 hosts block trs honorNodeID

/-- Whether the event is one of the two calls that mark something as sent. -/
def DissEvent.isMark : DissEvent → Bool
  | .markSent _ _ => true
  | .markTransactionSentBatches _ _ => true
  | _ => false

/-- A sample of the collaborators of the disseminator: two unsent transactions, one
good host and one ban host, and every call succeeds. -/
def sampleDissEnv : DissEnv :=
  { GetMaxTxCount := 100
    GetAllUnsentTransactions := fun _ => .ok (some [⟨[1], [1, 1]⟩, ⟨[2], [2, 2]⟩])
    GetRemoteHosts := ["10.0.0.1:7078", "10.0.0.2:7078"]
    FilterHosts := fun _ => .ok (["10.0.0.1:7078"], ["10.0.0.2:7078"])
    SendFullBlockToAll := fun _ _ _ _ _ => none
    MarkSent := fun _ _ => none
    MarkTransactionSentBatches := fun _ _ => none }

/-- The sample in which the send of the block to the good hosts fails. -/
def failingSendDissEnv : DissEnv :=
  { sampleDissEnv with
    SendFullBlockToAll := fun _ _ block _ _ =>
      match block with
      | some _ => some (.errorf "tcp")
      | none => none }

/-! ## Package rollback: ToBlockID -/

/-- A row of the blockchain table (model.Block): the fields ToBlockID reads. -/
structure ChainBlock where
  ID : Int
  Data : Bytes
  Hash : Bytes
  RollbacksHash : Bytes
  deriving DecidableEq, Repr

/-- The record model.InfoBlock (info_block.go 13-23). -/
structure InfoBlock where
  Hash : Bytes
  EcosystemID : Int
  KeyID : Int
  NodePosition : String
  BlockID : Int
  Time : Int
  CurrentVersion : String
  Sent : Int
  RollbacksHash : Bytes
  deriving DecidableEq, Repr

/-- The calls of ToBlockID, each with what it returned. -/
inductive RollbackEvent where
  | markVerifiedAndNotUsedTransactionsUnverified (r : Option Err)
  | getBlocks (blockID : Int) (limit : Int) (r : Option Err)
  | rollbackBlock (id : Int) (r : Option Err)
  | getBlock (blockID : Int) (r : Option Err)
  | parseBlockHeader (data : Bytes)
  | updateInfoBlock (ib : InfoBlock) (r : Option Err)
  deriving DecidableEq, Repr

/-- The collaborators of ToBlockID.  The calls that read or write the database
see the calls made so far: MarkVerifiedAndNotUsedTransactionsUnverified, the
failure of GetBlocks, of RollbackBlock on a row, of reading a block, and of
Update on the info block.  GetMaxTxCount, ParseBlockHeader, Int64ToStr and Itoa
are the helpers of these names. -/
structure RollbackEnv where
  MarkVerifiedAndNotUsedTransactionsUnverified : Option Err
  GetMaxTxCount : Int
  getBlocksError : List RollbackEvent → Option Err
  rollbackBlockError : List RollbackEvent → ChainBlock → Option Err
  getBlockError : List RollbackEvent → Option Err
  ParseBlockHeader : Bytes → Except Err BlockData
  Int64ToStr : Int → String
  Itoa : Int → String
  updateInfoBlockError : List RollbackEvent → InfoBlock → Option Err

/-- A sample of the collaborators of ToBlockID: batches of two blocks, every call
succeeds, and the header of the data [n] is the sample header of block n. -/
def sampleRollbackEnv : RollbackEnv :=
  { MarkVerifiedAndNotUsedTransactionsUnverified := none
    GetMaxTxCount := 2
    getBlocksError := fun _ => none
    rollbackBlockError := fun _ _ => none
    getBlockError := fun _ => none
    ParseBlockHeader := fun data =>
      match data with
      | [n] => .ok (sampleHeader (n.val : Int) 800)
      | _ => .error (.errorf "bad header")
    Int64ToStr := fun x => toString x
    Itoa := fun x => toString x
    updateInfoBlockError := fun _ _ => none }

/-- The sample in which the rollback of block 4 fails. -/
def failingRollbackEnv : RollbackEnv :=
  { sampleRollbackEnv with
    rollbackBlockError := fun _ blk => if blk.ID = 4 then some (.errorf "rb") else none }

/-! ## The SM2 signer (packages/crypto/sm2.go) -/

/-- The variable crypto.ErrCheckingSignEmpty, declared outside the sources. -/
def ErrCheckingSignEmpty : Err := .named "crypto.ErrCheckingSignEmpty"

/-- The number held by a run of bytes, as big.Int.SetBytes reads it: unsigned, most
significant byte first. -/
def SetBytes (bs : Bytes) : Nat :=
  bs.foldl (fun acc x => acc * 256 + x.val) 0

/-- The bytes of a number, most significant byte first and without leading zero
bytes, produced in at most the given number of steps. -/
def bigBytesAux : Nat → Nat → Bytes
  | 0, _ => []
  | fuel + 1, n =>
    if n = 0 then [] else bigBytesAux fuel (n / 256) ++ [⟨n % 256, Nat.mod_lt _ (by decide)⟩]

/-- The bytes of a number as big.Int.Bytes gives them: most significant byte first,
without leading zero bytes (none at all for zero).  A number has fewer bytes than
its value, so the steps never run out. -/
def bigBytes (n : Nat) : Bytes := bigBytesAux n n

/-- Modelled from the spec: converter.FillLeft is not among the sources (the package
converter is absent).  A run of fewer than 32 bytes is padded on the left with zero
bytes to 32 bytes; a longer one is returned as it is. -/
def FillLeft (slice : Bytes) : Bytes :=
  if 32 ≤ slice.length then slice
  else List.replicate (32 - slice.length) (0 : Fin 256) ++ slice

/-- The collaborators of the SM2 signer: the curve and key operations of the
library github.com/tjfoc/gmsm/sm2 and the two constants of the package consts,
whose declarations are outside the sources.  A point of the curve is its pair of
coordinates; Sign stands for priv.Sign(rand.Reader, data, nil) on the private key
with the given D and public point, the random draw being part of the
collaborator; GenerateKey stands for sm2.GenerateKey(rand.Reader) and gives D and
the public point. -/
structure SM2Env where
  ScalarBaseMult : Bytes → Nat × Nat
  Sign : Nat → Nat × Nat → Bytes → Bytes × Option Err
  Verify : Nat × Nat → Bytes → Bytes → Bool
  GenerateKey : Except Err (Nat × Nat × Nat)
  PubkeySizeLength : Nat
  PrivkeyLength : Nat

/-- Modelled from the spec: SM2.genKeyPair is not among the sources.  It asks the
library for a key and returns the bytes of D as the private key and the two
coordinates of the public point, each filled to 32 bytes, as the public key (the
form privateToPublic gives). -/
def SM2.genKeyPair (env : SM2Env) : Except Err (Bytes × Bytes) :=
  match env.GenerateKey with
  | .error e => .error e
  | .ok (d, x, y) => .ok (bigBytes d, FillLeft (bigBytes x) ++ FillLeft (bigBytes y))

/-- The body of SM2.sign (sm2.go 14-22; the line with the head of the function is
not among the sources): the private key is read as a number, the public point is
computed from its bytes and the library signs the data. -/
def SM2.sign (env : SM2Env) (privateKey data : Bytes) : Bytes × Option Err :=
  let bi := SetBytes privateKey
  env.Sign bi (env.ScalarBaseMult (bigBytes bi)) data

/-- The function SM2.verify (sm2.go 24-48).  The slice public[0:consts.PrivkeyLength]
panics when the constant exceeds the length of the key. -/
def SM2.verify (env : SM2Env) (public data signature : Bytes) : Outcome (Bool × Option Err) :=
  if public.length = 0 then .ret (false, some ErrCheckingSignEmpty)
  else if data.length = 0 then
    .ret (false, some (.errorf "invalid parameters len(data) == 0"))
  else if public.length ≠ env.PubkeySizeLength then
    .ret (false, some (.errorf ("invalid parameters len(public) = " ++ toString public.length)))
  else if signature.length = 0 then
    .ret (false, some (.errorf "invalid parameters len(signature) == 0"))
  else if public.length < env.PrivkeyLength then .panic
  else
    let verifystatus := env.Verify (SetBytes (public.take env.PrivkeyLength),
      SetBytes (public.drop env.PrivkeyLength)) data signature
    if ¬ verifystatus then .ret (false, some ErrIncorrectSign)
    else .ret (true, none)

/-- The function SM2.privateToPublic (sm2.go 50-58). -/
def SM2.privateToPublic (env : SM2Env) (key : Bytes) : Bytes × Option Err :=
  let pt := env.ScalarBaseMult key
  (FillLeft (bigBytes pt.1) ++ FillLeft (bigBytes pt.2), none)

/-- A sample of the collaborators, on small numbers: the public point of d is
(d + 1, d + 2), a signature is four bytes computed from the first coordinate and
the data, and Verify recomputes it. -/
def sampleSM2Env : SM2Env :=
  { ScalarBaseMult := fun bs => (SetBytes bs + 1, SetBytes bs + 2)
    Sign := fun _ pt data => (encodeFixed 4 (pt.1 * 7 + SetBytes data + 1), none)
    Verify := fun pt data sig => decide (sig = encodeFixed 4 (pt.1 * 7 + SetBytes data + 1))
    GenerateKey := .ok (1000, 1001, 1002)
    PubkeySizeLength := 64
    PrivkeyLength := 32 }

/-- The function strings.Split of the Go library with the separator ".": the parts
of the text between the dots, one more than there are dots. -/
def strings.Split (s : String) : List String :=
  sampleSplit (Char.ofNat 46) s.toList []

/-- The value of a run of decimal digits read from the left onto acc; `none` when
a character is not a decimal digit. -/
def digitsValue : List Char → Nat → Option Nat
  | [], acc => some acc
  | c :: cs, acc =>
    if c.isDigit then digitsValue cs (acc * 10 + (c.toNat - 48)) else none

/-- A decimal integer: an optional sign (minus or plus) followed by at least one
decimal digit.  Its value; `none` for any other text. -/
def decimalInteger (s : String) : Option Int :=
  match s.toList with
  | [] => none
  | c :: cs =>
    if c = Char.ofNat 45 then
      if cs = [] then none else (digitsValue cs 0).map (fun n => -(n : Int))
    else if c = Char.ofNat 43 then
      if cs = [] then none else (digitsValue cs 0).map (fun n => (n : Int))
    else (digitsValue (c :: cs) 0).map (fun n => (n : Int))

/-- The range of the Go type int when it has intSize bits (32 or 64). -/
def inIntRange (intSize : Nat) (v : Int) : Bool :=
  decide (-((2 ^ (intSize - 1) : Nat) : Int) ≤ v ∧ v ≤ ((2 ^ (intSize - 1) : Nat) : Int) - 1)

/-- The function strconv.Atoi of the Go library for an int of intSize bits: a
syntax error for a text that is not a decimal integer, a range error for a decimal
integer that the type int cannot hold, the value otherwise. -/
def strconv.Atoi (intSize : Nat) (s : String) : Except Err Int :=
  match decimalInteger s with
  | none => .error (.wrap (.named "strconv.ErrSyntax") s)
  | some v =>
    if inIntRange intSize v = true then .ok v
    else .error (.wrap (.named "strconv.ErrRange") s)

/-- The collaborators of package migration with strings.Split and strconv.Atoi as
the Go library has them, for an int of intSize bits. -/
def MigrationEnv.withGoLibrary (env : MigrationEnv) (intSize : Nat) : MigrationEnv :=
  { env with Split := strings.Split, Atoi := strconv.Atoi intSize }

/-- In the words of the claim: the triple of a version that consists of exactly
three dot-separated decimal integers; `none` for any other text. -/
def decimalTriple (a : String) : Option (Int × Int × Int) :=
  match strings.Split a with
  | [x, y, z] =>
    match decimalInteger x, decimalInteger y, decimalInteger z with
    | some i, some j, some k => some (i, j, k)
    | _, _, _ => none
  | _ => none

/-- Each of the three integers is within the range of the type int. -/
def tripleInRange (intSize : Nat) (t : Int × Int × Int) : Bool :=
  inIntRange intSize t.1 && inIntRange intSize t.2.1 && inIntRange intSize t.2.2

/-! ## Theorems -/

/-- C1: for every block whose Header.BlockID is 1, Block.Check returns nil,
makes no call and leaves the block as it is, whatever the time, node position,
signature, previous header and transactions of the block are; CheckHash returns
(true, nil) for such a block as well. -/
theorem check_genesis_returns_nil (env : Env) (tr : Trace) (b : Block)
    (h : b.Header.BlockID = 1) :
    (b.Check env tr).ret = .ret none ∧ (b.Check env tr).trace = tr ∧ (b.Check env tr).b = b ∧
      (b.CheckHash env tr).ret = .ret (true, none) := by
  simp [Block.Check, Block.CheckHash, Block.IsGenesis, h]

/-- C1 at a block with id 1 whose time lies in the future, whose previous header
is missing and whose two transactions carry the same hash. -/
theorem check_genesis_returns_nil_witness :
    (sampleBlock 1 5000 none [sampleTx 3 1, sampleTx 3 1]).Header.BlockID = 1 ∧
      ((sampleBlock 1 5000 none [sampleTx 3 1, sampleTx 3 1]).Check sampleEnv []).ret = .ret none :=
  ⟨rfl, (check_genesis_returns_nil sampleEnv [] _ rfl).1⟩

/-- C2, as stated, fails: with size checking on and max_block_size = -1 the empty
input is rejected by the size test, with ErrMaxBlockSize and not
ErrZeroBlockSize. -/
theorem process_empty_negative_max_counterexample :
    (ProcessBlockWherePrevFromBlockchainTable { sampleEnv with GetMaxBlockSize := fun _ => -1 } [] [] true).err
        = some ErrMaxBlockSize ∧
      (ProcessBlockWherePrevFromBlockchainTable { sampleEnv with GetMaxBlockSize := fun _ => -1 } [] [] true).err
        ≠ some ErrZeroBlockSize := by
  decide

/-- C2 (amended): for empty input bytes ProcessBlockWherePrevFromBlockchainTable
returns no block and makes no call (in particular it does not unmarshal); the
error is ErrZeroBlockSize whether or not size checking is requested, except when
size checking is on and max_block_size is negative, where the size test comes
first and the error is ErrMaxBlockSize. -/
theorem process_empty_input (env : Env) (tr : Trace) (checkSize : Bool) :
    (ProcessBlockWherePrevFromBlockchainTable env tr [] checkSize).block = none ∧
      (ProcessBlockWherePrevFromBlockchainTable env tr [] checkSize).trace = tr ∧
      (ProcessBlockWherePrevFromBlockchainTable env tr [] checkSize).err =
        some (if checkSize = true ∧ env.GetMaxBlockSize tr < 0 then ErrMaxBlockSize
              else ErrZeroBlockSize) := by
  unfold ProcessBlockWherePrevFromBlockchainTable
  by_cases hc : checkSize = true ∧ env.GetMaxBlockSize tr < 0
  · have h1 : checkSize = true ∧ ((([] : Bytes).length : Int) > env.GetMaxBlockSize tr) := by
      simpa using hc
    rw [if_pos h1, if_pos hc]
    exact ⟨rfl, rfl, rfl⟩
  · have h1 : ¬ (checkSize = true ∧ ((([] : Bytes).length : Int) > env.GetMaxBlockSize tr)) := by
      simpa using hc
    rw [if_neg h1, if_neg hc]
    exact ⟨rfl, rfl, rfl⟩

/-- C3: for every input longer than max_block_size,
ProcessBlockWherePrevFromBlockchainTable with size checking on returns no block
and ErrMaxBlockSize without any call (the bytes are not unmarshalled), and
InsertBlockWOForks for a block that is not the first one passes size checking on
and returns that error. -/
theorem process_oversized_input (env : Env) (tr : Trace) (data : Bytes)
    (h : (data.length : Int) > env.GetMaxBlockSize tr) :
    ProcessBlockWherePrevFromBlockchainTable env tr data true = ⟨none, some ErrMaxBlockSize, tr⟩ ∧
      ∀ (vm : VM) (genBlock : Bool),
        InsertBlockWOForks env tr vm data genBlock false = ⟨.ret (some ErrMaxBlockSize), vm, tr⟩ := by
  have h1 : ProcessBlockWherePrevFromBlockchainTable env tr data true
      = ⟨none, some ErrMaxBlockSize, tr⟩ := by
    simp [ProcessBlockWherePrevFromBlockchainTable, h]
  refine ⟨h1, fun vm genBlock => ?_⟩
  simp [InsertBlockWOForks, h1]

/-- C3 at an input of 65 bytes with max_block_size = 64. -/
theorem process_oversized_input_witness :
    (((List.replicate 65 (0 : Fin 256)).length : Int) > sampleEnv.GetMaxBlockSize []) ∧
      ProcessBlockWherePrevFromBlockchainTable sampleEnv [] (List.replicate 65 0) true
        = ⟨none, some ErrMaxBlockSize, []⟩ :=
  ⟨by decide, (process_oversized_input sampleEnv [] (List.replicate 65 0) (by decide)).1⟩

/-- The transaction loop of Check only appends to the trace. -/
theorem checkTransactions_trace (env : Env) (time : Int) :
    ∀ (ts : List Transaction) (cnt : List (Int × Int)) (hs : List String) (tr : Trace),
      ∃ l, (checkTransactions env time ts cnt hs tr).2 = tr ++ l := by
  intro ts
  induction ts with
  | nil => intro cnt hs tr; exact ⟨[], by simp [checkTransactions]⟩
  | cons t ts ih =>
    intro cnt hs tr
    unfold checkTransactions
    simp only []
    split
    · exact ⟨[], by simp⟩
    · split
      · exact ⟨[], by simp⟩
      · split
        · exact ⟨_, rfl⟩
        · obtain ⟨l, hl⟩ := ih cnt (env.BinToHex t.TxHash :: hs)
            (tr ++ [Event.checkTime t.TxHash (env.CheckTime tr t time)])
          exact ⟨Event.checkTime t.TxHash (env.CheckTime tr t time) :: l, by rw [hl]; simp⟩

/-- CheckHash only appends to the trace. -/
theorem checkHash_trace (env : Env) (tr : Trace) (b : Block) :
    ∃ l, (b.CheckHash env tr).trace = tr ++ l := by
  unfold Block.CheckHash
  split
  · exact ⟨[], by simp⟩
  · split
    · exact ⟨[], by simp⟩
    · split
      · exact ⟨[], by simp⟩
      · simp only []
        split
        · exact ⟨_, rfl⟩
        · exact ⟨_, rfl⟩
        · split
          · exact ⟨_, rfl⟩
          · split
            · split
              · exact ⟨_, List.append_assoc _ _ _⟩
              · exact ⟨_, List.append_assoc _ _ _⟩
            · exact ⟨_, List.append_assoc _ _ _⟩

/-- With a previous header in place, the checks after the future-time test start
with the slot check. -/
theorem checkFromSlot_trace (env : Env) (tr : Trace) (b : Block) (prev : BlockData)
    (h : b.PrevHeader = some prev) :
    ∃ l, (b.checkFromSlot env tr).trace
      = tr ++ Event.blockForTimeExists b.Header.Time b.Header.NodePosition :: l := by
  unfold Block.checkFromSlot
  simp only [h]
  cases hB : env.BlockForTimeExists tr b.Header.Time b.Header.NodePosition with
  | error e => exact ⟨[], by simp⟩
  | ok v =>
    cases v with
    | true => exact ⟨[], by simp⟩
    | false =>
      simp only []
      obtain ⟨l1, hl1⟩ := checkTransactions_trace env b.Header.Time b.Transactions [] []
        (tr ++ [Event.blockForTimeExists b.Header.Time b.Header.NodePosition])
      cases hT : checkTransactions env b.Header.Time b.Transactions [] []
        (tr ++ [Event.blockForTimeExists b.Header.Time b.Header.NodePosition]) with
      | mk r tr2 =>
        rw [hT] at hl1
        simp only at hl1
        subst hl1
        cases r with
        | some e => exact ⟨l1, by simp⟩
        | none =>
          simp only []
          obtain ⟨l2, hl2⟩ := checkHash_trace env
            (tr ++ [Event.blockForTimeExists b.Header.Time b.Header.NodePosition] ++ l1) b
          split
          · exact ⟨l1 ++ l2, by rw [hl2]; simp⟩
          · exact ⟨l1 ++ l2 ++ [Event.cleanCache], by rw [hl2]; simp⟩
          · exact ⟨l1 ++ l2, by rw [hl2]; simp⟩

/-- The checks of Check from the future-time test on, for a block with a previous
header in place. -/
theorem checkFromTime_cases (env : Env) (tr : Trace) (b : Block) (prev : BlockData)
    (h : b.PrevHeader = some prev) :
    (b.Header.Time > env.now →
      (b.checkFromTime env tr).ret = .ret (some ErrIncorrectBlockTime) ∧
        (b.checkFromTime env tr).trace = tr) ∧
    (b.Header.Time = env.now →
      ∃ l, (b.checkFromTime env tr).trace
        = tr ++ Event.blockForTimeExists b.Header.Time b.Header.NodePosition :: l) := by
  constructor
  · intro ht
    simp [Block.checkFromTime, ht]
  · intro ht
    have : ¬ b.Header.Time > env.now := by omega
    simp only [Block.checkFromTime, this, if_false]
    exact checkFromSlot_trace env tr b prev h

/-- C4: for a block that is not the genesis block and whose previous header is
available (supplied with BlockID = Header.BlockID - 1, or loadable from the
blockchain table): if Header.Time is strictly greater than the clock, Check
returns ErrIncorrectBlockTime having made no call but the possible load of the
previous header (no slot check, no transaction check, no signature check); if
Header.Time equals the clock, Check is not stopped there and goes on to the slot
check. -/
theorem check_future_time (env : Env) (tr : Trace) (b : Block)
    (hgen : b.Header.BlockID ≠ 1)
    (havail : (∃ prev, b.PrevHeader = some prev ∧ prev.BlockID = int64 (b.Header.BlockID - 1)) ∨
      (∃ prev, env.GetBlockDataFromBlockChain tr (int64 (b.Header.BlockID - 1)) = .ok prev)) :
    (b.Header.Time > env.now →
      (b.Check env tr).ret = .ret (some ErrIncorrectBlockTime) ∧
      ((b.Check env tr).trace = tr ∨
        (b.Check env tr).trace = tr ++ [Event.getBlockDataFromBlockChain (int64 (b.Header.BlockID - 1))])) ∧
    (b.Header.Time = env.now →
      Event.blockForTimeExists b.Header.Time b.Header.NodePosition
        ∈ (b.Check env tr).trace.drop tr.length) := by
  have hg : b.IsGenesis = false := by simp [Block.IsGenesis, hgen]
  by_cases hsup : ∃ prev, b.PrevHeader = some prev ∧ prev.BlockID = int64 (b.Header.BlockID - 1)
  · obtain ⟨prev, hp, hid⟩ := hsup
    have hC : b.Check env tr = b.checkFromTime env tr := by
      simp [Block.Check, hg, hp, hid]
    rw [hC]
    obtain ⟨h1, h2⟩ := checkFromTime_cases env tr b prev hp
    refine ⟨fun ht => ⟨(h1 ht).1, Or.inl (h1 ht).2⟩, fun ht => ?_⟩
    obtain ⟨l, hl⟩ := h2 ht
    rw [hl]
    simp
  · have hload : ∃ prev, env.GetBlockDataFromBlockChain tr (int64 (b.Header.BlockID - 1)) = .ok prev := by
      rcases havail with h | h
      · exact absurd h hsup
      · exact h
    obtain ⟨prev, hprev⟩ := hload
    have hneed : (match b.PrevHeader with
        | none => true
        | some p => p.BlockID != int64 (b.Header.BlockID - 1)) = true := by
      cases hp : b.PrevHeader with
      | none => rfl
      | some p =>
        simp only [bne_iff_ne]
        intro hid
        exact hsup ⟨p, hp, hid⟩
    have hC : b.Check env tr = ({ b with PrevHeader := some prev } : Block).checkFromTime env
        (tr ++ [Event.getBlockDataFromBlockChain (int64 (b.Header.BlockID - 1))]) := by
      simp only [Block.Check, hg, hneed, Block.readPreviousBlockFromBlockchainTable, hprev]
      simp
    rw [hC]
    obtain ⟨h1, h2⟩ := checkFromTime_cases env
      (tr ++ [Event.getBlockDataFromBlockChain (int64 (b.Header.BlockID - 1))])
      ({ b with PrevHeader := some prev } : Block) prev rfl
    refine ⟨fun ht => ⟨(h1 ht).1, Or.inr (h1 ht).2⟩, fun ht => ?_⟩
    obtain ⟨l, hl⟩ := h2 ht
    rw [hl]
    simp

/-- C4 at block 5 with time 2000 while the clock reads 1000; the previous header
is loaded from the blockchain table. -/
theorem check_future_time_witness :
    (sampleBlock 5 2000 none [sampleTx 3 1]).Header.BlockID ≠ 1 ∧
      (sampleBlock 5 2000 none [sampleTx 3 1]).Header.Time > sampleEnv.now ∧
      ((sampleBlock 5 2000 none [sampleTx 3 1]).Check sampleEnv []).ret
        = .ret (some ErrIncorrectBlockTime) :=
  ⟨by decide, by decide,
    ((check_future_time sampleEnv [] (sampleBlock 5 2000 none [sampleTx 3 1]) (by decide)
      (Or.inr ⟨sampleHeader 4 800, rfl⟩)).1 (by decide)).1⟩

/-- C5: in Block.CheckHash every failing result carries the boolean false; and
when the signature verification was run and failed with the error err (which
happens only for a block that is not the genesis block, with a previous header
and a non-empty public key at Header.NodePosition), the returned error is
ErrIncorrectRollbackHash if and only if err is crypto.ErrIncorrectSign and
PrevRollbacksHash differs from PrevHeader.RollbacksHash; otherwise it is another
error. -/
theorem checkHash_sign_failure (env : Env) (tr : Trace) (b : Block) :
    (∀ x e, (b.CheckHash env tr).ret = .ret (x, some e) → x = false) ∧
    (∀ ok err, Event.checkSign (ok, some err) ∈ (b.CheckHash env tr).trace.drop tr.length →
      ∃ prev e, b.PrevHeader = some prev ∧ b.Header.BlockID ≠ 1 ∧
        (b.CheckHash env tr).ret = .ret (false, some e) ∧
        (e = ErrIncorrectRollbackHash ↔
          (err = ErrIncorrectSign ∧ b.PrevRollbacksHash ≠ prev.RollbacksHash))) := by
  have hdrop : ∀ l : Trace, (tr ++ l).drop tr.length = l := fun l => by simp
  unfold Block.CheckHash
  split
  · simp
  · rename_i hg
    have hid : b.Header.BlockID ≠ 1 := by
      intro h
      exact hg (by simp [Block.IsGenesis, h])
    split
    · simp
    · split
      · simp
      · rename_i prev hp
        simp only []
        split
        · simp
        · simp
        · split
          · simp
          · split
            · rename_i err1 hres
              split
              · rename_i hc
                refine ⟨by simp, ?_⟩
                intro ok err hmem
                rw [List.append_assoc, hdrop] at hmem
                simp only [List.cons_append, List.nil_append, List.mem_cons, List.mem_singleton,
                  Event.checkSign.injEq, List.mem_nil_iff, or_false, false_or, reduceCtorEq] at hmem
                rw [← hmem] at hres
                simp only [Option.some.injEq] at hres
                subst hres
                exact ⟨prev, ErrIncorrectRollbackHash, hp, hid, rfl, by simp [hc.1, hc.2]⟩
              · rename_i hc
                refine ⟨by simp, ?_⟩
                intro ok err hmem
                rw [List.append_assoc, hdrop] at hmem
                simp only [List.cons_append, List.nil_append, List.mem_cons, List.mem_singleton,
                  Event.checkSign.injEq, List.mem_nil_iff, or_false, false_or, reduceCtorEq] at hmem
                rw [← hmem] at hres
                simp only [Option.some.injEq] at hres
                subst hres
                refine ⟨prev, _, hp, hid, rfl, ?_⟩
                constructor
                · intro h
                  simp [ErrIncorrectRollbackHash] at h
                · intro h
                  exact absurd h hc
            · rename_i hres
              refine ⟨by simp, ?_⟩
              intro ok err hmem
              rw [List.append_assoc, hdrop] at hmem
              simp only [List.cons_append, List.nil_append, List.mem_cons, List.mem_singleton,
                Event.checkSign.injEq, List.mem_nil_iff, or_false, false_or, reduceCtorEq] at hmem
              rw [← hmem] at hres
              simp at hres

/-- C5 at block 5 carrying PrevRollbacksHash = [8] against a local previous header
with RollbacksHash = [4], on a node whose signature check reports
crypto.ErrIncorrectSign. -/
theorem checkHash_sign_failure_witness :
    ∃ prev e,
      ({ sampleBlock 5 900 (some (sampleHeader 4 800)) [] with PrevRollbacksHash := [8] } : Block).PrevHeader
        = some prev ∧
      ({ sampleBlock 5 900 (some (sampleHeader 4 800)) [] with PrevRollbacksHash := [8] } : Block).Header.BlockID
        ≠ 1 ∧
      (({ sampleBlock 5 900 (some (sampleHeader 4 800)) [] with PrevRollbacksHash := [8] } : Block).CheckHash
        { sampleEnv with CheckSign := fun _ _ _ _ => (false, some ErrIncorrectSign) } []).ret
        = .ret (false, some e) ∧
      (e = ErrIncorrectRollbackHash ↔
        (ErrIncorrectSign = ErrIncorrectSign ∧ ([8] : Bytes) ≠ prev.RollbacksHash)) :=
  (checkHash_sign_failure { sampleEnv with CheckSign := fun _ _ _ _ => (false, some ErrIncorrectSign) } []
    { sampleBlock 5 900 (some (sampleHeader 4 800)) [] with PrevRollbacksHash := [8] }).2
    false ErrIncorrectSign (by decide)

/-- A repeated hash, or a hash already seen, stops the transaction loop of Check
with an error. -/
theorem checkTransactions_duplicate (env : Env) (time : Int) :
    ∀ (ts : List Transaction) (cnt : List (Int × Int)) (hs : List String) (tr : Trace),
      (¬ (ts.map (fun t => t.TxHash)).Nodup ∨ ∃ t ∈ ts, env.BinToHex t.TxHash ∈ hs) →
      ∃ e, (checkTransactions env time ts cnt hs tr).1 = some e := by
  intro ts
  induction ts with
  | nil => intro cnt hs tr h; simp at h
  | cons t ts ih =>
    intro cnt hs tr h
    unfold checkTransactions
    simp only []
    split
    · exact ⟨_, rfl⟩
    · rename_i hnot
      split
      · exact ⟨_, rfl⟩
      · split
        · exact ⟨_, rfl⟩
        · apply ih
          rcases h with h | ⟨t1, ht1, hin⟩
          · rw [List.map_cons, List.nodup_cons] at h
            by_cases hmem : t.TxHash ∈ ts.map (fun t => t.TxHash)
            · right
              obtain ⟨t1, ht1, heq⟩ := List.mem_map.1 hmem
              refine ⟨t1, ht1, ?_⟩
              rw [heq]
              exact List.mem_cons_self _ _
            · left
              intro hnd
              exact h ⟨hmem, hnd⟩
          · rcases List.mem_cons.1 ht1 with hEq | hIn
            · subst hEq
              exact absurd hin hnot
            · right
              exact ⟨t1, hIn, List.mem_cons_of_mem _ hin⟩

/-- With a repeated transaction hash the checks after the future-time test end
with an error. -/
theorem checkFromSlot_duplicate (env : Env) (tr : Trace) (b : Block)
    (hdup : ¬ (b.Transactions.map (fun t => t.TxHash)).Nodup) :
    ∃ e, (b.checkFromSlot env tr).ret = .ret (some e) := by
  unfold Block.checkFromSlot
  simp only []
  split
  · exact ⟨_, rfl⟩
  · rename_i tr1 _
    obtain ⟨e, he⟩ := checkTransactions_duplicate env b.Header.Time b.Transactions [] [] tr1
      (Or.inl hdup)
    split
    · exact ⟨_, rfl⟩
    · rename_i hT
      rw [hT] at he
      simp at he

/-- C6: for every block that is not the genesis block and whose transaction list
holds two transactions with the same TxHash, Block.Check returns an error that
is not nil, whatever the collaborators answer (in particular whether or not the
CheckTime of the transactions passes and whether or not the signature is
correct). -/
theorem check_duplicate_hash (env : Env) (tr : Trace) (b : Block)
    (hgen : b.Header.BlockID ≠ 1)
    (hdup : ¬ (b.Transactions.map (fun t => t.TxHash)).Nodup) :
    ∃ e, (b.Check env tr).ret = .ret (some e) := by
  have hg : b.IsGenesis = false := by simp [Block.IsGenesis, hgen]
  have hft : ∀ (b1 : Block) (tr1 : Trace), b1.Transactions = b.Transactions →
      ∃ e, (b1.checkFromTime env tr1).ret = .ret (some e) := by
    intro b1 tr1 hb1
    unfold Block.checkFromTime
    split
    · exact ⟨_, rfl⟩
    · exact checkFromSlot_duplicate env tr1 b1 (by rw [hb1]; exact hdup)
  unfold Block.Check
  simp only [hg, Bool.false_eq_true, if_false]
  split
  · unfold Block.readPreviousBlockFromBlockchainTable
    simp only []
    cases env.GetBlockDataFromBlockChain tr (int64 (b.Header.BlockID - 1)) with
    | error err => exact ⟨_, rfl⟩
    | ok prev => exact hft _ _ rfl
  · exact hft b tr rfl

/-- C6 at block 5 with two transactions of hash [3]. -/
theorem check_duplicate_hash_witness :
    (sampleBlock 5 900 none [sampleTx 3 1, sampleTx 4 2, sampleTx 3 3]).Header.BlockID ≠ 1 ∧
      ¬ ((sampleBlock 5 900 none [sampleTx 3 1, sampleTx 4 2, sampleTx 3 3]).Transactions.map
          (fun t => t.TxHash)).Nodup ∧
      ∃ e, ((sampleBlock 5 900 none [sampleTx 3 1, sampleTx 4 2, sampleTx 3 3]).Check sampleEnv []).ret
        = .ret (some e) :=
  ⟨by decide, by decide,
    check_duplicate_hash sampleEnv [] (sampleBlock 5 900 none [sampleTx 3 1, sampleTx 4 2, sampleTx 3 3])
      (by decide) (by decide)⟩

/-- C7 fails on the code: with max_tx_block_per_user = 1, block 2 holds three
transactions of the sender 42 (distinct hashes, valid times, valid signature)
and Block.Check returns nil. -/
theorem check_accepts_block_over_sender_cap :
    sampleEnv.GetMaxBlockUserTx [] = 1 ∧
      ((sampleBlock 2 900 (some (sampleHeader 1 800))
          [sampleTx 1 42, sampleTx 2 42, sampleTx 3 42]).Transactions.filter
            (fun t => t.TxKeyID == 42)).length = 3 ∧
      ((sampleBlock 2 900 (some (sampleHeader 1 800))
          [sampleTx 1 42, sampleTx 2 42, sampleTx 3 42]).Check sampleEnv []).ret = .ret none := by
  decide

/-! ## The loop of Play: what the trace tells -/

theorem failure_eq_some (j : Nat) (ev : Event) (e : Err) :
    Event.failure j ev = some e ↔
      (ev = Event.tx j (.play (some e)) ∨ ev = Event.tx j (.checkLimit (some e))) := by
  cases ev with
  | tx i op =>
    cases op with
    | play r =>
      cases r with
      | none => simp [Event.failure]
      | some e1 =>
        simp only [Event.failure]
        split
        · subst_vars; simp
        · rename_i h; simp; intro h1; exact absurd h1 h
    | checkLimit r =>
      cases r with
      | none => simp [Event.failure]
      | some e1 =>
        simp only [Event.failure]
        split
        · subst_vars; simp
        · rename_i h; simp; intro h1; exact absurd h1 h
    | _ => simp [Event.failure]
  | _ => simp [Event.failure]

theorem txError_append (l1 l2 : Trace) (j : Nat) :
    txError (l1 ++ l2) j = (txError l1 j).or (txError l2 j) := by
  simp [txError, List.findSome?_append]

theorem txError_eq_none (l : Trace) (j : Nat) :
    txError l j = none ↔ ∀ ev ∈ l, Event.failure j ev = none := by
  simp [txError]

theorem txError_some_mem (l : Trace) (j : Nat) (e : Err) (h : txError l j = some e) :
    Event.tx j (.play (some e)) ∈ l ∨ Event.tx j (.checkLimit (some e)) ∈ l := by
  unfold txError at h
  obtain ⟨ev, hev, hf⟩ := List.exists_of_findSome?_eq_some h
  rcases (failure_eq_some j ev e).1 hf with h1 | h1
  · left; rw [← h1]; exact hev
  · right; rw [← h1]; exact hev

/-- The two calls of playExec: what they append to the trace and how the error
they end with shows in the appended events. -/
theorem playExec_spec (env : Env) (b : Block) (tl : Int) (st : PlayState) (i : Nat)
    (t : Transaction) :
    ∃ le, (playExec env b tl st i t).2.2.trace = st.trace ++ le ∧
      (∀ ev ∈ le, ∃ r, ev = Event.tx i (.play r) ∨ ev = Event.tx i (.checkLimit r)) ∧
      (∀ e, (Event.tx i (.play (some e)) ∈ le ∨ Event.tx i (.checkLimit (some e)) ∈ le) ↔
        (playExec env b tl st i t).2.1 = some e) ∧
      (playExec env b tl st i t).2.2.proccessedTx = st.proccessedTx ∧
      (playExec env b tl st i t).2.2.playTxs = st.playTxs ∧
      (playExec env b tl st i t).2.2.SysUpdate = st.SysUpdate ∧
      (playExec env b tl st i t).2.2.Notifications = st.Notifications := by
  unfold playExec
  simp only []
  split
  · rename_i h
    refine ⟨[Event.tx i (.play (env.TxPlay st.trace st.vm i t b.GenBlock tl b.PrevHeader b.Header.Time).err),
      Event.tx i (.checkLimit (env.CheckLimit (st.trace ++ [Event.tx i (.play
        (env.TxPlay st.trace st.vm i t b.GenBlock tl b.PrevHeader b.Header.Time).err)]) b t))],
      by simp, ?_, ?_, rfl, rfl, rfl, rfl⟩
    · intro ev hev
      simp only [List.mem_cons, List.mem_singleton, List.mem_nil_iff, or_false] at hev
      rcases hev with h1 | h1
      · exact ⟨_, Or.inl h1⟩
      · exact ⟨_, Or.inr h1⟩
    · intro e
      simp [h.1]
      constructor
      · intro h1; exact h1.symm
      · intro h1; exact h1.symm
  · refine ⟨[Event.tx i (.play (env.TxPlay st.trace st.vm i t b.GenBlock tl b.PrevHeader b.Header.Time).err)],
      rfl, ?_, ?_, rfl, rfl, rfl, rfl⟩
    · intro ev hev
      simp only [List.mem_singleton] at hev
      exact ⟨_, Or.inl hev⟩
    · intro e
      simp
      constructor
      · intro h1; exact h1.symm
      · intro h1; exact h1.symm

theorem playFailed_trace (env : Env) (b : Block) (st : PlayState) (i : Nat) (t : Transaction)
    (res : TxPlayResult) (err : Err) :
    (playFailed env b st i t res err).state.trace
        = st.trace ++ (playFailed env b st i t res err).events st ∧
      (playFailed env b st i t res err).state.proccessedTx = st.proccessedTx ∧
      (playFailed env b st i t res err).state.playTxs = st.playTxs ∧
      (playFailed env b st i t res err).state.SysUpdate = st.SysUpdate ∧
      (playFailed env b st i t res err).state.Notifications = st.Notifications ∧
      (playFailed env b st i t res err).state.vm = st.vm ∧
      ∀ ev ∈ (playFailed env b st i t res err).events st, ∃ op, ev = Event.tx i op ∧ op.isUndo = true := by
  unfold playFailed Step.events
  simp only []
  split
  · simp [Step.state]
  · split
    · simp [Step.state, TxOp.isUndo]
    · split
      · split
        · simp [Step.state, TxOp.isUndo]
        · simp [Step.state, TxOp.isUndo]
      · split <;> split <;> simp [Step.state, TxOp.isUndo]

theorem playFailed_cases (env : Env) (b : Block) (st : PlayState) (i : Nat) (t : Transaction)
    (res : TxPlayResult) (err : Err) :
    (err = ErrNetworkStopping → playFailed env b st i t res err = .ret st err) ∧
    (err ≠ ErrNetworkStopping →
      Event.tx i (.rollbackSavepoint (env.RollbackSavepoint st.trace i))
        ∈ (playFailed env b st i t res err).events st) ∧
    (∀ r, Event.tx i (.rollbackSavepoint r) ∈ (playFailed env b st i t res err).events st →
      err ≠ ErrNetworkStopping ∧ r = env.RollbackSavepoint st.trace i) ∧
    (∀ h m, Event.tx i (.markTransactionBad h m) ∈ (playFailed env b st i t res err).events st →
      h = t.TxHash ∧ err ≠ ErrNetworkStopping ∧ env.RollbackSavepoint st.trace i = none ∧
        ¬ (b.GenBlock = true ∧ err = ErrLimitStop)) ∧
    (err ≠ ErrNetworkStopping → ∀ e1, env.RollbackSavepoint st.trace i = some e1 →
      ∃ st1, playFailed env b st i t res err = .ret st1 e1) ∧
    (err ≠ ErrNetworkStopping → env.RollbackSavepoint st.trace i = none →
      b.GenBlock = true → err = ErrLimitStop →
        (i = 0 → ∃ st1, playFailed env b st i t res err = .ret st1 err) ∧
        (i ≠ 0 → ∃ st1, playFailed env b st i t res err = .brk st1)) ∧
    (err ≠ ErrNetworkStopping → env.RollbackSavepoint st.trace i = none →
      ¬ (b.GenBlock = true ∧ err = ErrLimitStop) →
        (∃ m, Event.tx i (.markTransactionBad t.TxHash m) ∈ (playFailed env b st i t res err).events st) ∧
        (b.GenBlock = true → ∃ st1, playFailed env b st i t res err = .next st1) ∧
        (b.GenBlock = false → ∃ st1, playFailed env b st i t res err = .ret st1 err)) := by
  unfold playFailed Step.events
  simp only []
  split
  · rename_i h
    simp [Step.state, h]
  · rename_i h
    split
    · rename_i e1 hr
      simp [Step.state, h, hr]
    · rename_i hr
      split
      · rename_i hc
        split
        · rename_i h0
          have hne : ErrLimitStop ≠ ErrNetworkStopping := by decide
          subst h0
          simp [Step.state, hr, hc.1, hc.2, hne]
        · rename_i h0
          have hne : ErrLimitStop ≠ ErrNetworkStopping := by decide
          simp [Step.state, hr, hc.1, hc.2, h0, hne]
      · rename_i hc
        split
        · rename_i hg
          split <;> simp_all [Step.state]
        · rename_i hg
          split <;> simp_all [Step.state]

theorem playUndo_trace (env : Env) (b : Block) (st : PlayState) (i : Nat) (t : Transaction)
    (res : TxPlayResult) (err : Err) :
    (playUndo env b st i t res err).state.trace
        = st.trace ++ (playUndo env b st i t res err).events st ∧
      (playUndo env b st i t res err).state.proccessedTx = st.proccessedTx ∧
      (playUndo env b st i t res err).state.playTxs = st.playTxs ∧
      (playUndo env b st i t res err).state.SysUpdate = st.SysUpdate ∧
      (playUndo env b st i t res err).state.Notifications = st.Notifications ∧
      ∀ ev ∈ (playUndo env b st i t res err).events st, ∃ op, ev = Event.tx i op ∧ op.isUndo = true := by
  unfold playUndo
  split
  · simp [Step.state, Step.events]
  · rename_i vm1 _
    obtain ⟨h1, h2, h3, h4, h5, _, h7⟩ := playFailed_trace env b { st with vm := vm1 } i t res err
    exact ⟨h1, h2, h3, h4, h5, h7⟩

/-- The error branch of the loop body either panics in the VM undo, having made no
call, or is the branch after the undo. -/
theorem playUndo_cases (env : Env) (b : Block) (st : PlayState) (i : Nat) (t : Transaction)
    (res : TxPlayResult) (err : Err) :
    (playUndo env b st i t res err = .panic st ∧ (playUndo env b st i t res err).events st = []) ∨
    (∃ vm1, playUndo env b st i t res err = playFailed env b { st with vm := vm1 } i t res err ∧
      (playUndo env b st i t res err).events st
        = (playFailed env b { st with vm := vm1 } i t res err).events { st with vm := vm1 }) := by
  unfold playUndo
  split
  · left
    simp [Step.state, Step.events]
  · rename_i vm1 _
    right
    exact ⟨vm1, rfl, rfl⟩

theorem playSucceeded_spec (env : Env) (b : Block) (st : PlayState) (i : Nat) (t : Transaction)
    (res : TxPlayResult) :
    (playSucceeded env b st i t res).state.trace
        = st.trace ++ (playSucceeded env b st i t res).events st ∧
      (∀ ev ∈ (playSucceeded env b st i t res).events st, ∃ op, ev = Event.tx i op ∧ op.isDone = true) ∧
      ((∃ st1, playSucceeded env b st i t res = .next st1 ∧
          st1.proccessedTx = st.proccessedTx ++ [t] ∧
          st1.playTxs.UsedTx = st.playTxs.UsedTx ++ [t.TxHash] ∧
          st1.playTxs.Lts = st.playTxs.Lts ++ [{ Block := b.Header.BlockID, Hash := t.TxHash }] ∧
          st1.playTxs.Rts = st.playTxs.Rts ++ res.RollBackTx) ∨
        (∃ st1 e, playSucceeded env b st i t res = .ret st1 e ∧
          st1.proccessedTx = st.proccessedTx ∧ st1.playTxs = st.playTxs)) := by
  unfold playSucceeded Step.events
  simp only []
  split
  · split <;> simp [Step.state, TxOp.isDone]
  · split <;> split <;> simp [Step.state, TxOp.isDone]

theorem drop_append_length (tr l : Trace) : (tr ++ l).drop tr.length = l := by simp

/-- One iteration of the loop of Play: either the savepoint fails, or the
transaction is executed and its execution ends with an error (the error branch
follows) or without one (the success branch follows). -/
theorem playStep_cases (env : Env) (b : Block) (tl : Int) (st : PlayState) (i : Nat)
    (t : Transaction) :
    (∃ e st1, env.Savepoint st.trace i = some e ∧ playStep env b tl st i t = .ret st1 e ∧
      st1.trace = st.trace ++ [Event.tx i (.savepoint (some e))] ∧
      st1.proccessedTx = st.proccessedTx ∧ st1.playTxs = st.playTxs ∧
      (playStep env b tl st i t).events st = [Event.tx i (.savepoint (some e))]) ∨
    (∃ res st3 le, env.Savepoint st.trace i = none ∧
      st3.trace = st.trace ++ Event.tx i (.savepoint none) :: le ∧
      (∀ ev ∈ le, ∃ r, ev = Event.tx i (.play r) ∨ ev = Event.tx i (.checkLimit r)) ∧
      st3.proccessedTx = st.proccessedTx ∧ st3.playTxs = st.playTxs ∧
      st3.SysUpdate = st.SysUpdate ∧ st3.Notifications = st.Notifications ∧
      ((∃ e, (∀ e1, (Event.tx i (.play (some e1)) ∈ le ∨ Event.tx i (.checkLimit (some e1)) ∈ le)
            ↔ some e = some e1) ∧
          playStep env b tl st i t = playUndo env b st3 i t res e ∧
          (playStep env b tl st i t).events st
            = Event.tx i (.savepoint none) :: (le ++ (playUndo env b st3 i t res e).events st3)) ∨
        ((∀ e1, ¬ (Event.tx i (.play (some e1)) ∈ le ∨ Event.tx i (.checkLimit (some e1)) ∈ le)) ∧
          playStep env b tl st i t = playSucceeded env b st3 i t res ∧
          (playStep env b tl st i t).events st
            = Event.tx i (.savepoint none) :: (le ++ (playSucceeded env b st3 i t res).events st3)))) := by
  unfold playStep
  simp only []
  cases hsp : env.Savepoint st.trace i with
  | some e =>
    left
    exact ⟨e, _, rfl, rfl, rfl, rfl, rfl, by simp [Step.events, Step.state]⟩
  | none =>
    right
    simp only []
    obtain ⟨le, h1, h2, h3, h4, h5, h6, h7⟩ := playExec_spec env b tl
      { st with trace := st.trace ++ [Event.tx i (.savepoint none)] } i t
    cases hx : playExec env b tl { st with trace := st.trace ++ [Event.tx i (.savepoint none)] } i t with
    | mk res p =>
      cases p with
      | mk lim st3 =>
        rw [hx] at h1 h3 h4 h5 h6 h7
        simp only at h1 h3 h4 h5 h6 h7
        have h1' : st3.trace = st.trace ++ Event.tx i (.savepoint none) :: le := by
          rw [h1]; simp
        refine ⟨res, st3, le, trivial, h1', h2, h4, h5, h6, h7, ?_⟩
        cases lim with
        | some e =>
          left
          refine ⟨e, fun e1 => h3 e1, rfl, ?_⟩
          simp only [Step.events]
          rw [(playUndo_trace env b st3 i t res e).1, h1']
          simp [Step.events]
        | none =>
          right
          refine ⟨fun e1 h => by simpa using (h3 e1).1 h, rfl, ?_⟩
          simp only [Step.events]
          rw [(playSucceeded_spec env b st3 i t res).1, h1']
          simp [Step.events]

theorem failure_savepoint (j i : Nat) (r : Option Err) :
    Event.failure j (Event.tx i (.savepoint r)) = none := rfl

theorem failure_of_isUndo (j i : Nat) (op : TxOp) (h : op.isUndo = true) :
    Event.failure j (Event.tx i op) = none := by
  cases op <;> simp [TxOp.isUndo] at h <;> rfl

theorem failure_of_isDone (j i : Nat) (op : TxOp) (h : op.isDone = true) :
    Event.failure j (Event.tx i op) = none := by
  cases op <;> simp [TxOp.isDone] at h <;> rfl

theorem failure_other_index (j i : Nat) (op : TxOp) (h : i ≠ j) :
    Event.failure j (Event.tx i op) = none := by
  cases op with
  | play r => cases r <;> simp [Event.failure, h]
  | checkLimit r => cases r <;> simp [Event.failure, h]
  | _ => rfl

/-- One iteration of the loop only appends calls of its own index to the trace. -/
theorem playStep_trace (env : Env) (b : Block) (tl : Int) (st : PlayState) (i : Nat)
    (t : Transaction) :
    (playStep env b tl st i t).state.trace = st.trace ++ (playStep env b tl st i t).events st ∧
      ∀ ev ∈ (playStep env b tl st i t).events st, ∃ op, ev = Event.tx i op := by
  rcases playStep_cases env b tl st i t with
    ⟨e, st1, _, hs, htr, _, _, hev⟩ | ⟨res, st3, le, _, htr, hle, _, _, _, _, hc⟩
  · rw [hev, hs]
    exact ⟨htr, fun ev hev => ⟨_, List.mem_singleton.1 hev⟩⟩
  · have hle' : ∀ ev ∈ le, ∃ op, ev = Event.tx i op := by
      intro ev hev
      obtain ⟨r, h | h⟩ := hle ev hev
      · exact ⟨_, h⟩
      · exact ⟨_, h⟩
    rcases hc with ⟨e, _, hs, hev⟩ | ⟨_, hs, hev⟩
    · rw [hev, hs]
      obtain ⟨h1, _, _, _, _, h6⟩ := playUndo_trace env b st3 i t res e
      refine ⟨by rw [h1, htr]; simp, ?_⟩
      intro ev hmem
      rcases List.mem_cons.1 hmem with h | h
      · exact ⟨_, h⟩
      · rcases List.mem_append.1 h with h | h
        · exact hle' ev h
        · obtain ⟨op, hop, _⟩ := h6 ev h
          exact ⟨op, hop⟩
    · rw [hev, hs]
      obtain ⟨h1, h2, _⟩ := playSucceeded_spec env b st3 i t res
      refine ⟨by rw [h1, htr]; simp, ?_⟩
      intro ev hmem
      rcases List.mem_cons.1 hmem with h | h
      · exact ⟨_, h⟩
      · rcases List.mem_append.1 h with h | h
        · exact hle' ev h
        · obtain ⟨op, hop, _⟩ := h2 ev h
          exact ⟨op, hop⟩

theorem txError_cons_savepoint (i j : Nat) (r : Option Err) (l : Trace) :
    txError (Event.tx i (.savepoint r) :: l) j = txError l j := by
  simp [txError, List.findSome?_cons, Event.failure]

theorem txError_exec_some (i : Nat) (le : Trace) (e : Err)
    (h : ∀ e1, (Event.tx i (.play (some e1)) ∈ le ∨ Event.tx i (.checkLimit (some e1)) ∈ le)
      ↔ some e = some e1) :
    txError le i = some e := by
  cases hx : txError le i with
  | none =>
    have hmem := (h e).2 rfl
    rw [txError_eq_none] at hx
    rcases hmem with hm | hm
    · have := hx _ hm
      simp [Event.failure] at this
    · have := hx _ hm
      simp [Event.failure] at this
  | some e1 =>
    have := (h e1).1 (txError_some_mem le i e1 hx)
    rw [this]

theorem txError_exec_none (i : Nat) (le : Trace)
    (hle : ∀ ev ∈ le, ∃ r, ev = Event.tx i (.play r) ∨ ev = Event.tx i (.checkLimit r))
    (h : ∀ e1, ¬ (Event.tx i (.play (some e1)) ∈ le ∨ Event.tx i (.checkLimit (some e1)) ∈ le))
    (j : Nat) : txError le j = none := by
  rw [txError_eq_none]
  intro ev hev
  obtain ⟨r, hr | hr⟩ := hle ev hev
  · subst hr
    cases r with
    | none => rfl
    | some e1 => exact absurd (Or.inl hev) (h e1)
  · subst hr
    cases r with
    | none => rfl
    | some e1 => exact absurd (Or.inr hev) (h e1)

theorem txError_of_isUndo (i : Nat) (l : Trace) (j : Nat)
    (h : ∀ ev ∈ l, ∃ op, ev = Event.tx i op ∧ op.isUndo = true) : txError l j = none := by
  rw [txError_eq_none]
  intro ev hev
  obtain ⟨op, hop, hu⟩ := h ev hev
  rw [hop]
  exact failure_of_isUndo j i op hu

theorem txError_of_isDone (i : Nat) (l : Trace) (j : Nat)
    (h : ∀ ev ∈ l, ∃ op, ev = Event.tx i op ∧ op.isDone = true) : txError l j = none := by
  rw [txError_eq_none]
  intro ev hev
  obtain ⟨op, hop, hu⟩ := h ev hev
  rw [hop]
  exact failure_of_isDone j i op hu

/-- Events of other indices tell nothing about the transaction at index j. -/
theorem txError_other_index (l : Trace) (j : Nat)
    (h : ∀ ev ∈ l, ∃ i op, ev = Event.tx i op ∧ i ≠ j) : txError l j = none := by
  rw [txError_eq_none]
  intro ev hev
  obtain ⟨i, op, hop, hne⟩ := h ev hev
  rw [hop]
  exact failure_other_index j i op hne

/-- The error a step reports for its own index, and what the step did with the
accumulators when it went on to the next iteration. -/
theorem playStep_next (env : Env) (b : Block) (tl : Int) (st : PlayState) (i : Nat)
    (t : Transaction) (st1 : PlayState) (h : playStep env b tl st i t = .next st1) :
    st1.proccessedTx = st.proccessedTx ++ okTxs ((playStep env b tl st i t).events st) i [t] ∧
    st1.playTxs.UsedTx = st.playTxs.UsedTx
      ++ (okTxs ((playStep env b tl st i t).events st) i [t]).map (fun t => t.TxHash) ∧
    st1.playTxs.Lts = st.playTxs.Lts
      ++ (okTxs ((playStep env b tl st i t).events st) i [t]).map
          (fun t => { Block := b.Header.BlockID, Hash := t.TxHash }) := by
  rcases playStep_cases env b tl st i t with
    ⟨e, st1', _, hs, _⟩ | ⟨res, st3, le, _, htr, hle, hp, hq, _, _, hc⟩
  · rw [hs] at h
    cases h
  · rcases hc with ⟨e, hiff, hs, hev⟩ | ⟨hno, hs, hev⟩
    · obtain ⟨_, h2, h3, _, _, h6⟩ := playUndo_trace env b st3 i t res e
      have hte : txError ((playStep env b tl st i t).events st) i = some e := by
        rw [hev, txError_cons_savepoint, txError_append, txError_exec_some i le e hiff]
        rfl
      rw [hs] at h
      rw [h] at h2 h3
      simp only [Step.state] at h2 h3
      simp [okTxs, hte, h2, h3, hp, hq]
    · obtain ⟨_, h2, h3⟩ := playSucceeded_spec env b st3 i t res
      have hte : txError ((playStep env b tl st i t).events st) i = none := by
        rw [hev, txError_cons_savepoint, txError_append, txError_exec_none i le hle hno,
          txError_of_isDone i _ i h2]
        rfl
      rw [hs] at h
      rcases h3 with ⟨st1', hn, ha, hb, hc, _⟩ | ⟨st1', e, hn, _⟩
      · rw [hn] at h
        cases h
        simp [okTxs, hte, ha, hb, hc, hp, hq]
      · rw [hn] at h
        cases h

theorem okTxs_congr (evs evs1 : Trace) :
    ∀ (l : List Transaction) (i : Nat),
      (∀ j, i ≤ j → j < i + l.length → txError evs j = txError evs1 j) →
      okTxs evs i l = okTxs evs1 i l := by
  intro l
  induction l with
  | nil => intro i _; rfl
  | cons t ts ih =>
    intro i h
    have h0 : txError evs i = txError evs1 i := h i (Nat.le_refl _) (by simp)
    have h1 : okTxs evs (i + 1) ts = okTxs evs1 (i + 1) ts := by
      apply ih
      intro j hj1 hj2
      apply h j (by omega)
      simp only [List.length_cons]
      omega
    simp only [okTxs, h0, h1]

/-- The loop of Play only appends calls to the trace, each tagged with the index
of an iteration it ran. -/
theorem playLoop_trace (env : Env) (b : Block) (tl : Int) :
    ∀ (txs : List Transaction) (st : PlayState) (i : Nat),
      ∃ l, (playLoop env b tl st i txs).1.trace = st.trace ++ l ∧
        ∀ ev ∈ l, ∃ j op, ev = Event.tx j op ∧ i ≤ j ∧ j < i + txs.length := by
  intro txs
  induction txs with
  | nil => intro st i; exact ⟨[], by simp [playLoop], by simp⟩
  | cons t ts ih =>
    intro st i
    obtain ⟨h1, h2⟩ := playStep_trace env b tl st i t
    have h2' : ∀ ev ∈ (playStep env b tl st i t).events st,
        ∃ j op, ev = Event.tx j op ∧ i ≤ j ∧ j < i + (t :: ts).length := by
      intro ev hev
      obtain ⟨op, hop⟩ := h2 ev hev
      exact ⟨i, op, hop, Nat.le_refl _, by simp⟩
    unfold playLoop
    cases hs : playStep env b tl st i t with
    | next st1 =>
      simp only []
      rw [hs] at h1
      simp only [Step.state] at h1
      obtain ⟨l2, hl2, hl2'⟩ := ih st1 (i + 1)
      refine ⟨(playStep env b tl st i t).events st ++ l2, by rw [hl2, h1, hs]; simp, ?_⟩
      intro ev hev
      rcases List.mem_append.1 hev with h | h
      · exact h2' ev h
      · obtain ⟨j, op, hop, hj1, hj2⟩ := hl2' ev h
        refine ⟨j, op, hop, by omega, ?_⟩
        simp only [List.length_cons]
        omega
    | brk st1 =>
      rw [hs] at h1
      exact ⟨(playStep env b tl st i t).events st, by rw [hs]; exact h1, h2'⟩
    | ret st1 e =>
      rw [hs] at h1
      exact ⟨(playStep env b tl st i t).events st, by rw [hs]; exact h1, h2'⟩
    | panic st1 =>
      rw [hs] at h1
      exact ⟨(playStep env b tl st i t).events st, by rw [hs]; exact h1, h2'⟩

/-- From the state the loop reaches after k iterations it goes on as the loop
started there. -/
theorem playReach_loop (env : Env) (b : Block) (tl : Int) :
    ∀ (k : Nat) (st : PlayState) (i : Nat) (txs : List Transaction) (st1 : PlayState),
      playReach env b tl st i txs k = some st1 →
      playLoop env b tl st i txs = playLoop env b tl st1 (i + k) (txs.drop k) := by
  intro k
  induction k with
  | zero =>
    intro st i txs st1 h
    simp only [playReach, Option.some.injEq] at h
    subst h
    simp
  | succ k ih =>
    intro st i txs st1 h
    cases txs with
    | nil => simp [playReach] at h
    | cons t ts =>
      simp only [playReach] at h
      cases hs : playStep env b tl st i t with
      | next st2 =>
        rw [hs] at h
        simp only at h
        rw [playLoop, hs]
        simp only [List.drop_succ_cons]
        rw [ih st2 (i + 1) ts st1 h]
        congr 1
        omega
      | brk st2 => rw [hs] at h; simp at h
      | ret st2 e => rw [hs] at h; simp at h
      | panic st2 => rw [hs] at h; simp at h

/-- The state the loop reaches after k iterations: the calls made so far carry the
indices of these iterations, and the accumulators hold the transactions among
them that did not end with an error, in order. -/
theorem playReach_spec (env : Env) (b : Block) (tl : Int) :
    ∀ (k : Nat) (st : PlayState) (i : Nat) (txs : List Transaction) (st1 : PlayState),
      playReach env b tl st i txs k = some st1 →
      k ≤ txs.length ∧
      ∃ lr, st1.trace = st.trace ++ lr ∧
        (∀ ev ∈ lr, ∃ j op, ev = Event.tx j op ∧ i ≤ j ∧ j < i + k) ∧
        st1.proccessedTx = st.proccessedTx ++ okTxs lr i (txs.take k) ∧
        st1.playTxs.UsedTx = st.playTxs.UsedTx ++ (okTxs lr i (txs.take k)).map (fun t => t.TxHash) ∧
        st1.playTxs.Lts = st.playTxs.Lts ++ (okTxs lr i (txs.take k)).map
          (fun t => { Block := b.Header.BlockID, Hash := t.TxHash }) := by
  intro k
  induction k with
  | zero =>
    intro st i txs st1 h
    simp only [playReach, Option.some.injEq] at h
    subst h
    exact ⟨Nat.zero_le _, [], by simp, by simp, by simp [okTxs], by simp [okTxs], by simp [okTxs]⟩
  | succ k ih =>
    intro st i txs st1 h
    cases txs with
    | nil => simp [playReach] at h
    | cons t ts =>
      simp only [playReach] at h
      cases hs : playStep env b tl st i t with
      | next st2 =>
        rw [hs] at h
        simp only at h
        obtain ⟨hk, lr2, htr2, hidx2, hp2, hu2, hl2⟩ := ih st2 (i + 1) ts st1 h
        obtain ⟨htr, hidx⟩ := playStep_trace env b tl st i t
        obtain ⟨hp, hu, hl⟩ := playStep_next env b tl st i t st2 hs
        have hst : (playStep env b tl st i t).state = st2 := by rw [hs]; rfl
        rw [hst] at htr
        have hse : ∀ j, i + 1 ≤ j → txError ((playStep env b tl st i t).events st) j = none := by
          intro j hj
          apply txError_other_index
          intro ev hev
          obtain ⟨op, hop⟩ := hidx ev hev
          exact ⟨i, op, hop, by omega⟩
        have hlr : txError lr2 i = none := by
          apply txError_other_index
          intro ev hev
          obtain ⟨j, op, hop, hj, _⟩ := hidx2 ev hev
          exact ⟨j, op, hop, by omega⟩
        have hok : okTxs ((playStep env b tl st i t).events st ++ lr2) i ((t :: ts).take (k + 1))
            = okTxs ((playStep env b tl st i t).events st) i [t] ++ okTxs lr2 (i + 1) (ts.take k) := by
          have e1 : okTxs ((playStep env b tl st i t).events st ++ lr2) (i + 1) (ts.take k)
              = okTxs lr2 (i + 1) (ts.take k) := by
            apply okTxs_congr
            intro j hj _
            rw [txError_append, hse j hj]
            rfl
          simp only [List.take_succ_cons, okTxs, e1, txError_append, hlr, Option.or_none]
          split <;> simp
        refine ⟨by simp only [List.length_cons]; omega,
          (playStep env b tl st i t).events st ++ lr2, by rw [htr2, htr]; simp, ?_, ?_, ?_, ?_⟩
        · intro ev hev
          rcases List.mem_append.1 hev with h1 | h1
          · obtain ⟨op, hop⟩ := hidx ev h1
            exact ⟨i, op, hop, Nat.le_refl _, by omega⟩
          · obtain ⟨j, op, hop, hj1, hj2⟩ := hidx2 ev h1
            exact ⟨j, op, hop, by omega, by omega⟩
        · rw [hok, hp2, hp]; simp
        · rw [hok, hu2, hu]; simp
        · rw [hok, hl2, hl]; simp
      | brk st2 => rw [hs] at h; simp at h
      | ret st2 e => rw [hs] at h; simp at h
      | panic st2 => rw [hs] at h; simp at h

/-- Every call that the loop of Play made for index j was made by the iteration
for index j, which the loop reached. -/
theorem playLoop_reach (env : Env) (b : Block) (tl : Int) :
    ∀ (txs : List Transaction) (st : PlayState) (i : Nat) (l : Trace),
      (playLoop env b tl st i txs).1.trace = st.trace ++ l →
      ∀ j op, Event.tx j op ∈ l →
        i ≤ j ∧ ∃ st1 t, playReach env b tl st i txs (j - i) = some st1 ∧
          txs[j - i]? = some t ∧ Event.tx j op ∈ (playStep env b tl st1 j t).events st1 := by
  intro txs
  induction txs with
  | nil =>
    intro st i l h j op hmem
    simp only [playLoop] at h
    have : l = [] := by simpa using h
    subst this
    simp at hmem
  | cons t ts ih =>
    intro st i l h j op hmem
    obtain ⟨htr, hidx⟩ := playStep_trace env b tl st i t
    have hhere : Event.tx j op ∈ (playStep env b tl st i t).events st →
        i ≤ j ∧ ∃ st1 t1, playReach env b tl st i (t :: ts) (j - i) = some st1 ∧
          (t :: ts)[j - i]? = some t1 ∧ Event.tx j op ∈ (playStep env b tl st1 j t1).events st1 := by
      intro hm
      obtain ⟨op1, hop⟩ := hidx _ hm
      have hji : j = i := by
        injection hop
      subst hji
      exact ⟨Nat.le_refl _, st, t, by simp [playReach], by simp, hm⟩
    unfold playLoop at h
    cases hs : playStep env b tl st i t with
    | next st2 =>
      have hst : (playStep env b tl st i t).state = st2 := by rw [hs]; rfl
      rw [hst] at htr
      rw [hs] at h
      simp only at h
      obtain ⟨l2, hl2, _⟩ := playLoop_trace env b tl ts st2 (i + 1)
      have hl : l = (playStep env b tl st i t).events st ++ l2 := by
        rw [hl2, htr, List.append_assoc] at h
        exact (List.append_cancel_left h).symm
      rw [hl] at hmem
      rcases List.mem_append.1 hmem with hm | hm
      · exact hhere hm
      · obtain ⟨hij, st1, t1, hr, ht, he⟩ := ih st2 (i + 1) l2 hl2 j op hm
        have hk : j - i = (j - (i + 1)) + 1 := by omega
        refine ⟨by omega, st1, t1, ?_, ?_, he⟩
        · rw [hk]
          simp only [playReach, hs]
          exact hr
        · rw [hk]
          simpa using ht
    | brk st2 =>
      have hst : (playStep env b tl st i t).state = st2 := by rw [hs]; rfl
      rw [hst] at htr
      rw [hs] at h
      simp only at h
      have hl : l = (playStep env b tl st i t).events st := by
        rw [htr] at h
        exact (List.append_cancel_left h).symm
      rw [hl] at hmem
      exact hhere hmem
    | ret st2 e =>
      have hst : (playStep env b tl st i t).state = st2 := by rw [hs]; rfl
      rw [hst] at htr
      rw [hs] at h
      simp only at h
      have hl : l = (playStep env b tl st i t).events st := by
        rw [htr] at h
        exact (List.append_cancel_left h).symm
      rw [hl] at hmem
      exact hhere hmem
    | panic st2 =>
      have hst : (playStep env b tl st i t).state = st2 := by rw [hs]; rfl
      rw [hst] at htr
      rw [hs] at h
      simp only at h
      have hl : l = (playStep env b tl st i t).events st := by
        rw [htr] at h
        exact (List.append_cancel_left h).symm
      rw [hl] at hmem
      exact hhere hmem

/-- Every iteration of the loop starts by setting its savepoint. -/
theorem playStep_first (env : Env) (b : Block) (tl : Int) (st : PlayState) (i : Nat)
    (t : Transaction) :
    ∃ r l, (playStep env b tl st i t).events st = Event.tx i (.savepoint r) :: l := by
  rcases playStep_cases env b tl st i t with
    ⟨e, st1, _, _, _, _, _, hev⟩ | ⟨res, st3, le, _, _, _, _, _, _, _, hc⟩
  · exact ⟨_, _, hev⟩
  · rcases hc with ⟨e, _, _, hev⟩ | ⟨_, _, hev⟩
    · exact ⟨_, _, hev⟩
    · exact ⟨_, _, hev⟩

/-- The loop from an iteration on: the calls of that iteration come first. -/
theorem playLoop_cons_trace_aux (env : Env) (b : Block) (tl : Int) (st : PlayState) (i : Nat)
    (t : Transaction) (ts : List Transaction) :
    ∃ lrest, (playLoop env b tl st i (t :: ts)).1.trace
        = st.trace ++ (playStep env b tl st i t).events st ++ lrest ∧
      (∀ ev ∈ lrest, ∃ j op, ev = Event.tx j op ∧ i < j) := by
  obtain ⟨htr, _⟩ := playStep_trace env b tl st i t
  unfold playLoop
  cases hs : playStep env b tl st i t with
  | next st2 =>
    have hst : (playStep env b tl st i t).state = st2 := by rw [hs]; rfl
    rw [hst] at htr
    obtain ⟨l2, hl2, hidx⟩ := playLoop_trace env b tl ts st2 (i + 1)
    refine ⟨l2, ?_, ?_⟩
    · simp only []
      rw [hl2, htr, hs]
    · intro ev hev
      obtain ⟨j, op, hop, hj, _⟩ := hidx ev hev
      exact ⟨j, op, hop, by omega⟩
  | brk st2 =>
    have hst : (playStep env b tl st i t).state = st2 := by rw [hs]; rfl
    rw [hst] at htr
    exact ⟨[], by simp only []; rw [htr, hs]; simp, by simp⟩
  | ret st2 e =>
    have hst : (playStep env b tl st i t).state = st2 := by rw [hs]; rfl
    rw [hst] at htr
    exact ⟨[], by simp only []; rw [htr, hs]; simp, by simp⟩
  | panic st2 =>
    have hst : (playStep env b tl st i t).state = st2 := by rw [hs]; rfl
    rw [hst] at htr
    exact ⟨[], by simp only []; rw [htr, hs]; simp, by simp⟩

/-- The loop from an iteration on: the calls of that iteration, then the calls of
later iterations, which are made only if the iteration went on to the next
one. -/
theorem playLoop_cons_trace (env : Env) (b : Block) (tl : Int) (st : PlayState) (i : Nat)
    (t : Transaction) (ts : List Transaction) :
    ∃ lrest, (playLoop env b tl st i (t :: ts)).1.trace
        = st.trace ++ (playStep env b tl st i t).events st ++ lrest ∧
      (∀ ev ∈ lrest, ∃ j op, ev = Event.tx j op ∧ i < j) ∧
      ((∀ stx, playStep env b tl st i t ≠ .next stx) → lrest = []) ∧
      (∀ stx, playStep env b tl st i t = .next stx → ts ≠ [] →
        ∃ r l, lrest = Event.tx (i + 1) (.savepoint r) :: l) := by
  obtain ⟨htr, _⟩ := playStep_trace env b tl st i t
  unfold playLoop
  cases hs : playStep env b tl st i t with
  | next st2 =>
    have hst : (playStep env b tl st i t).state = st2 := by rw [hs]; rfl
    rw [hst] at htr
    obtain ⟨l2, hl2, hidx⟩ := playLoop_trace env b tl ts st2 (i + 1)
    refine ⟨l2, ?_, ?_, ?_, ?_⟩
    · simp only []
      rw [hl2, htr, hs]
    · intro ev hev
      obtain ⟨j, op, hop, hj, _⟩ := hidx ev hev
      exact ⟨j, op, hop, by omega⟩
    · intro h
      exact absurd rfl (h st2)
    · intro stx hx hne
      cases ts with
      | nil => exact absurd rfl hne
      | cons t1 ts1 =>
        obtain ⟨lr1, h1, _⟩ := playLoop_cons_trace_aux env b tl st2 (i + 1) t1 ts1
        obtain ⟨r, l1, hf⟩ := playStep_first env b tl st2 (i + 1) t1
        rw [h1, hf, List.append_assoc] at hl2
        exact ⟨r, l1 ++ lr1, by
          have := List.append_cancel_left hl2
          rw [← this]; simp⟩
  | brk st2 =>
    have hst : (playStep env b tl st i t).state = st2 := by rw [hs]; rfl
    rw [hst] at htr
    exact ⟨[], by simp only []; rw [htr, hs]; simp, by simp, fun _ => rfl, fun stx hx => by cases hx⟩
  | ret st2 e =>
    have hst : (playStep env b tl st i t).state = st2 := by rw [hs]; rfl
    rw [hst] at htr
    exact ⟨[], by simp only []; rw [htr, hs]; simp, by simp, fun _ => rfl, fun stx hx => by cases hx⟩
  | panic st2 =>
    have hst : (playStep env b tl st i t).state = st2 := by rw [hs]; rfl
    rw [hst] at htr
    exact ⟨[], by simp only []; rw [htr, hs]; simp, by simp, fun _ => rfl, fun stx hx => by cases hx⟩

/-- The calls of Play are the calls of its loop followed by the call of
AfterPlayTxs made by the deferred function. -/
theorem play_events (env : Env) (tr : Trace) (vm : VM) (b : Block) (l : Trace)
    (h : (playLoop env b (b.timeLimit env tr) (b.playInit tr vm) 0 b.Transactions).1.trace = tr ++ l) :
    b.playEvents env tr vm = l ++ [Event.afterPlayTxs b.Header.BlockID
      (playLoop env b (b.timeLimit env tr) (b.playInit tr vm) 0 b.Transactions).1.playTxs
      (env.AfterPlayTxs (playLoop env b (b.timeLimit env tr) (b.playInit tr vm) 0 b.Transactions).1.trace
        b.Header.BlockID
        (playLoop env b (b.timeLimit env tr) (b.playInit tr vm) 0 b.Transactions).1.playTxs)] := by
  simp only [Block.playEvents, Block.Play]
  rw [h]
  simp

/-- When the trace of Play shows that the execution of the transaction at index i
ended with the error e: the loop reached iteration i, the savepoint was set, the
calls t.Play and CheckLimit ended with e, and the error branch was taken. -/
theorem play_failure_inv (env : Env) (tr : Trace) (vm : VM) (b : Block) (i : Nat) (e : Err)
    (hfail : txError (b.playEvents env tr vm) i = some e) :
    ∃ st1 t lr res st3 le lrest,
      playReach env b (b.timeLimit env tr) (b.playInit tr vm) 0 b.Transactions i = some st1 ∧
      b.Transactions[i]? = some t ∧
      st1.trace = tr ++ lr ∧
      (∀ ev ∈ lr, ∃ j op, ev = Event.tx j op ∧ j < i) ∧
      st1.proccessedTx = okTxs lr 0 (b.Transactions.take i) ∧
      st3.trace = st1.trace ++ Event.tx i (.savepoint none) :: le ∧
      (∀ ev ∈ le, ∃ r, ev = Event.tx i (.play r) ∨ ev = Event.tx i (.checkLimit r)) ∧
      st3.proccessedTx = st1.proccessedTx ∧
      playStep env b (b.timeLimit env tr) st1 i t = playUndo env b st3 i t res e ∧
      playLoop env b (b.timeLimit env tr) (b.playInit tr vm) 0 b.Transactions
        = playLoop env b (b.timeLimit env tr) st1 i (t :: b.Transactions.drop (i + 1)) ∧
      b.playEvents env tr vm
        = lr ++ (Event.tx i (.savepoint none) :: (le ++ (playUndo env b st3 i t res e).events st3))
            ++ lrest ++ [Event.afterPlayTxs b.Header.BlockID (b.Play env tr vm).playTxs
              (env.AfterPlayTxs
                (playLoop env b (b.timeLimit env tr) (b.playInit tr vm) 0 b.Transactions).1.trace
                b.Header.BlockID (b.Play env tr vm).playTxs)] ∧
      (∀ ev ∈ lrest, ∃ j op, ev = Event.tx j op ∧ i < j) ∧
      ((∀ stx, playUndo env b st3 i t res e ≠ .next stx) → lrest = []) ∧
      (∀ stx, playUndo env b st3 i t res e = .next stx → i + 1 < b.Transactions.length →
        ∃ r l, lrest = Event.tx (i + 1) (.savepoint r) :: l) := by
  obtain ⟨l, hl, _⟩ := playLoop_trace env b (b.timeLimit env tr) b.Transactions (b.playInit tr vm) 0
  have hl' : (playLoop env b (b.timeLimit env tr) (b.playInit tr vm) 0 b.Transactions).1.trace
      = tr ++ l := hl
  have hev := play_events env tr vm b l hl'
  have hfl : txError l i = some e := by
    rw [hev, txError_append] at hfail
    have : ∀ ptx r, txError [Event.afterPlayTxs b.Header.BlockID ptx r] i = none := by
      intro ptx r
      simp [txError, Event.failure]
    rw [this, Option.or_none] at hfail
    exact hfail
  have hmem := txError_some_mem l i e hfl
  have hreach : ∃ op, (op = TxOp.play (some e) ∨ op = TxOp.checkLimit (some e)) ∧
      Event.tx i op ∈ l := by
    rcases hmem with h | h
    · exact ⟨_, Or.inl rfl, h⟩
    · exact ⟨_, Or.inr rfl, h⟩
  obtain ⟨op, hop, hin⟩ := hreach
  obtain ⟨_, st1, t, hr, ht, hstep⟩ :=
    playLoop_reach env b (b.timeLimit env tr) b.Transactions (b.playInit tr vm) 0 l hl i op hin
  simp only [Nat.sub_zero] at hr ht
  obtain ⟨_, lr, hlr, hidx, hp, _, _⟩ :=
    playReach_spec env b (b.timeLimit env tr) i (b.playInit tr vm) 0 b.Transactions st1 hr
  have hloop := playReach_loop env b (b.timeLimit env tr) i (b.playInit tr vm) 0 b.Transactions st1 hr
  have hdrop : b.Transactions.drop i = t :: b.Transactions.drop (i + 1) := by
    have hlt : i < b.Transactions.length := by
      rcases List.getElem?_eq_some_iff.1 ht with ⟨h, _⟩
      exact h
    rw [List.drop_eq_getElem_cons hlt]
    congr 1
    rcases List.getElem?_eq_some_iff.1 ht with ⟨_, h⟩
    exact h
  rw [hdrop, Nat.zero_add] at hloop
  obtain ⟨lrest, hrest, hridx, hrnil, hrnext⟩ := playLoop_cons_trace env b (b.timeLimit env tr) st1 i t
    (b.Transactions.drop (i + 1))
  have hlr' : st1.trace = tr ++ lr := hlr
  have hidx' : ∀ ev ∈ lr, ∃ j op, ev = Event.tx j op ∧ j < i := by
    intro ev hev
    obtain ⟨j, op1, h1, _, h3⟩ := hidx ev hev
    exact ⟨j, op1, h1, by omega⟩
  have hp' : st1.proccessedTx = okTxs lr 0 (b.Transactions.take i) := by
    rw [hp]; rfl
  have hl2 : l = lr ++ (playStep env b (b.timeLimit env tr) st1 i t).events st1 ++ lrest := by
    rw [hloop, hrest, hlr', List.append_assoc, List.append_assoc] at hl'
    rw [List.append_assoc]
    exact (List.append_cancel_left hl').symm
  rcases playStep_cases env b (b.timeLimit env tr) st1 i t with
    ⟨e1, stx, _, _, _, _, _, hse⟩ | ⟨res, st3, le, _, htr3, hle, hp3, _, _, _, hc⟩
  · rw [hse] at hstep
    rcases hop with h | h <;> · subst h; simp at hstep
  · rcases hc with ⟨e1, hiff, hs, hse⟩ | ⟨hno, hs, hse⟩
    · have he : e1 = e := by
        rw [hse] at hstep
        obtain ⟨_, _, _, _, _, hundo⟩ := playUndo_trace env b st3 i t res e1
        rcases List.mem_cons.1 hstep with h | h
        · rcases hop with h1 | h1 <;> · subst h1; simp at h
        · rcases List.mem_append.1 h with h | h
          · have := (hiff e).1 (by
              rcases hop with h1 | h1
              · subst h1; exact Or.inl h
              · subst h1; exact Or.inr h)
            exact Option.some.inj this
          · obtain ⟨op1, h1, h2⟩ := hundo _ h
            injection h1 with _ h1
            subst h1
            rcases hop with h1 | h1 <;> · subst h1; simp [TxOp.isUndo] at h2
      subst he
      refine ⟨st1, t, lr, res, st3, le, lrest, hr, ht, hlr', hidx', hp', htr3, hle, hp3, hs,
        hloop, ?_, hridx, ?_, ?_⟩
      · rw [hev, hl2, hse]
        rfl
      · intro h
        apply hrnil
        rw [hs]
        exact h
      · intro stx hx hlen
        apply hrnext stx (by rw [hs]; exact hx)
        intro hnil
        have := congrArg List.length hnil
        simp at this
        omega
    · exfalso
      rw [hse] at hstep
      obtain ⟨_, hdone, _⟩ := playSucceeded_spec env b st3 i t res
      rcases List.mem_cons.1 hstep with h | h
      · rcases hop with h1 | h1 <;> · subst h1; simp at h
      · rcases List.mem_append.1 h with h | h
        · apply hno e
          rcases hop with h1 | h1
          · subst h1; exact Or.inl h
          · subst h1; exact Or.inr h
        · obtain ⟨op1, h1, h2⟩ := hdone _ h
          injection h1 with _ h1
          subst h1
          rcases hop with h1 | h1 <;> · subst h1; simp [TxOp.isDone] at h2

/-- What Play returns, by the way its loop was left. -/
theorem play_ret_of_exit (env : Env) (tr : Trace) (vm : VM) (b : Block) :
    ((playLoop env b (b.timeLimit env tr) (b.playInit tr vm) 0 b.Transactions).2 = .panicked →
      (b.Play env tr vm).ret = .panic) ∧
    (∀ err, (playLoop env b (b.timeLimit env tr) (b.playInit tr vm) 0 b.Transactions).2 = .returned err →
      ∃ e1, (b.Play env tr vm).ret = .ret (some e1)) := by
  constructor
  · intro h
    simp only [Block.Play, h]
  · intro err h
    simp only [Block.Play, h]
    split
    · exact ⟨_, rfl⟩
    · exact ⟨_, rfl⟩

/-- The trace of Play around iteration i once its execution is known to have ended
with an error: where events can sit, what the loop left behind. -/
theorem play_failure_frame (env : Env) (tr : Trace) (vm : VM) (b : Block) (i : Nat) (e : Err)
    (hfail : txError (b.playEvents env tr vm) i = some e) :
    ∃ t st3 res,
      b.Transactions[i]? = some t ∧
      st3.proccessedTx = okTxs (b.playEvents env tr vm) 0 (b.Transactions.take i) ∧
      (∀ op, Event.tx i op ∈ b.playEvents env tr vm → op.isUndo = true →
        Event.tx i op ∈ (playUndo env b st3 i t res e).events st3) ∧
      (∀ ev ∈ (playUndo env b st3 i t res e).events st3, ev ∈ b.playEvents env tr vm) ∧
      (∀ id ptx r, Event.afterPlayTxs id ptx r ∈ b.playEvents env tr vm →
        r = env.AfterPlayTxs
          (playLoop env b (b.timeLimit env tr) (b.playInit tr vm) 0 b.Transactions).1.trace
          b.Header.BlockID
          (playLoop env b (b.timeLimit env tr) (b.playInit tr vm) 0 b.Transactions).1.playTxs) ∧
      (∀ ev ∈ b.playEvents env tr vm, ev.isCommit = false) ∧
      ((∀ stx, playUndo env b st3 i t res e ≠ .next stx) →
        (∀ j op, i < j → Event.tx j op ∉ b.playEvents env tr vm) ∧
        playLoop env b (b.timeLimit env tr) (b.playInit tr vm) 0 b.Transactions
          = ((playUndo env b st3 i t res e).state,
              match playUndo env b st3 i t res e with
              | .next _ => .done
              | .brk _ => .done
              | .ret _ err => .returned err
              | .panic _ => .panicked)) ∧
      (∀ stx, playUndo env b st3 i t res e = .next stx → i + 1 < b.Transactions.length →
        ∃ r, Event.tx (i + 1) (.savepoint r) ∈ b.playEvents env tr vm) := by
  obtain ⟨st1, t, lr, res, st3, le, lrest, hr, ht, hlr, hidx, hp, htr3, hle, hp3, hs, hloop, hev,
    hridx, hrnil, hrnext⟩ := play_failure_inv env tr vm b i e hfail
  obtain ⟨_, _, _, _, _, hundo⟩ := playUndo_trace env b st3 i t res e
  refine ⟨t, st3, res, ht, ?_, ?_, ?_, ?_, ?_, ?_, ?_⟩
  · rw [hp3, hp]
    apply okTxs_congr
    intro j _ hj
    have hj' : j < i := by
      have := List.length_take_le i b.Transactions
      omega
    rw [hev, List.append_assoc, List.append_assoc, txError_append]
    have : txError ((Event.tx i (.savepoint none) :: (le ++ (playUndo env b st3 i t res e).events st3))
        ++ (lrest ++ [Event.afterPlayTxs b.Header.BlockID (b.Play env tr vm).playTxs
              (env.AfterPlayTxs
                (playLoop env b (b.timeLimit env tr) (b.playInit tr vm) 0 b.Transactions).1.trace
                b.Header.BlockID (b.Play env tr vm).playTxs)])) j = none := by
      rw [txError_eq_none]
      intro ev hmem
      simp only [List.mem_append, List.mem_cons, List.mem_singleton, List.mem_nil_iff, or_false]
        at hmem
      rcases hmem with ((h | h | h) | h | h)
      · rw [h]; rfl
      · obtain ⟨r, h1 | h1⟩ := hle _ h <;>
        · rw [h1]; exact failure_other_index j i _ (by omega)
      · obtain ⟨op1, h1, _⟩ := hundo _ h
        rw [h1]; exact failure_other_index j i _ (by omega)
      · obtain ⟨j1, op1, h1, h2⟩ := hridx _ h
        rw [h1]; exact failure_other_index j j1 _ (by omega)
      · rw [h]; rfl
    rw [this, Option.or_none]
  · intro op hmem hu
    rw [hev] at hmem
    simp only [List.mem_append, List.mem_cons, List.mem_singleton, List.mem_nil_iff, or_false,
      reduceCtorEq] at hmem
    rcases hmem with ((h | h | h | h) | h)
    · obtain ⟨j, op1, h1, h2⟩ := hidx _ h
      injection h1 with h1 _
      omega
    · injection h with _ h
      subst h
      simp [TxOp.isUndo] at hu
    · obtain ⟨r1, h1 | h1⟩ := hle _ h <;>
      · injection h1 with _ h1; subst h1; simp [TxOp.isUndo] at hu
    · exact h
    · obtain ⟨j, op1, h1, h2⟩ := hridx _ h
      injection h1 with h1 _
      omega
  · intro ev h
    rw [hev]
    simp only [List.mem_append, List.mem_cons]
    exact Or.inl (Or.inl (Or.inr (Or.inr (Or.inr h))))
  · intro id ptx r hmem
    rw [hev] at hmem
    simp only [List.mem_append, List.mem_cons, List.mem_singleton, List.mem_nil_iff, or_false,
      reduceCtorEq] at hmem
    rcases hmem with ((h | h | h | h) | h) | h
    · obtain ⟨j, op1, h1, _⟩ := hidx _ h
      cases h1
    · exact h.elim
    · obtain ⟨r1, h1 | h1⟩ := hle _ h <;> cases h1
    · obtain ⟨op1, h1, _⟩ := hundo _ h
      cases h1
    · obtain ⟨j, op1, h1, _⟩ := hridx _ h
      cases h1
    · injection h with _ _ h3
  · intro ev hmem
    rw [hev] at hmem
    simp only [List.mem_append, List.mem_cons, List.mem_singleton, List.mem_nil_iff, or_false]
      at hmem
    rcases hmem with ((h | h | h | h) | h) | h
    · obtain ⟨j, op1, h1, _⟩ := hidx _ h
      rw [h1]; rfl
    · rw [h]; rfl
    · obtain ⟨r1, h1 | h1⟩ := hle _ h <;> · rw [h1]; rfl
    · obtain ⟨op1, h1, _⟩ := hundo _ h
      rw [h1]; rfl
    · obtain ⟨j, op1, h1, _⟩ := hridx _ h
      rw [h1]; rfl
    · rw [h]; rfl
  · intro hnn
    constructor
    · intro j op hj hmem
      rw [hev, hrnil hnn] at hmem
      simp only [List.mem_append, List.mem_cons, List.mem_singleton, List.mem_nil_iff, or_false,
        reduceCtorEq] at hmem
      rcases hmem with (h | h | h | h)
      · obtain ⟨j1, op1, h1, h2⟩ := hidx _ h
        injection h1 with h1 _
        omega
      · injection h with h1 _
        omega
      · obtain ⟨r, h1 | h1⟩ := hle _ h <;> · injection h1 with h1 _; omega
      · obtain ⟨op1, h1, _⟩ := hundo _ h
        injection h1 with h1 _
        omega
    · rw [hloop, playLoop, hs]
      cases hU : playUndo env b st3 i t res e with
      | next stx => exact absurd hU (hnn stx)
      | brk stx => rfl
      | ret stx err => rfl
      | panic stx => rfl
  · intro stx hU hlen
    obtain ⟨r, l, hl⟩ := hrnext stx hU hlen
    refine ⟨r, ?_⟩
    rw [hev, hl]
    simp

/-- When generating, an execution that ended with ErrLimitStop never lets the loop
go on to the next transaction. -/
theorem playUndo_limit_stop (env : Env) (b : Block) (st : PlayState) (i : Nat) (t : Transaction)
    (res : TxPlayResult) (hgen : b.GenBlock = true) :
    ∀ stx, playUndo env b st i t res ErrLimitStop ≠ .next stx := by
  intro stx hU
  have hne : ErrLimitStop ≠ ErrNetworkStopping := by decide
  rcases playUndo_cases env b st i t res ErrLimitStop with ⟨hP, _⟩ | ⟨vm1, hF, _⟩
  · rw [hP] at hU
    cases hU
  · obtain ⟨_, _, _, _, F5, F6, _⟩ := playFailed_cases env b { st with vm := vm1 } i t res ErrLimitStop
    rw [← hF] at F5 F6
    cases hro : env.RollbackSavepoint st.trace i with
    | some e1 =>
      obtain ⟨sty, h⟩ := F5 hne e1 hro
      rw [h] at hU
      cases hU
    | none =>
      obtain ⟨h0, h1⟩ := F6 hne hro hgen rfl
      by_cases hi : i = 0
      · obtain ⟨sty, h⟩ := h0 hi
        rw [h] at hU
        cases hU
      · obtain ⟨sty, h⟩ := h1 hi
        rw [h] at hU
        cases hU

/-- The trace of Play is the trace it started from followed by its own calls. -/
theorem play_trace (env : Env) (tr : Trace) (vm : VM) (b : Block) :
    (b.Play env tr vm).trace = tr ++ b.playEvents env tr vm := by
  obtain ⟨l, hl, _⟩ := playLoop_trace env b (b.timeLimit env tr) b.Transactions (b.playInit tr vm) 0
  have hl' : (playLoop env b (b.timeLimit env tr) (b.playInit tr vm) 0 b.Transactions).1.trace
      = tr ++ l := hl
  rw [play_events env tr vm b l hl']
  simp only [Block.Play]
  rw [hl']
  simp

/-- PlaySafe when Play panics: the panic goes through. -/
theorem playSafe_of_play_panic (env : Env) (tr : Trace) (vm : VM) (b : Block)
    (hstart : env.StartTransaction tr = none)
    (hp : (b.Play env (tr ++ [Event.startTransaction none]) vm).ret = .panic) :
    (b.PlaySafe env tr vm).ret = .panic ∧
    (b.PlaySafe env tr vm).b = (b.Play env (tr ++ [Event.startTransaction none]) vm).b ∧
    (b.PlaySafe env tr vm).trace = (b.Play env (tr ++ [Event.startTransaction none]) vm).trace := by
  simp [Block.PlaySafe, hstart, hp]

/-- PlaySafe when Play, generating, returns an error and leaves no transaction:
the database transaction is rolled back, the sender of the first input
transaction is banned when it has a header, the first input transaction is marked
bad with the text of the error (ErrLimitTime in place of ErrLimitStop), and the
error of the marking or else that error is returned. -/
theorem playSafe_of_play_error_empty (env : Env) (tr : Trace) (vm : VM) (b : Block) (err : Err)
    (t0 : Transaction) (rest : List Transaction)
    (hstart : env.StartTransaction tr = none)
    (hp : (b.Play env (tr ++ [Event.startTransaction none]) vm).ret = .ret (some err))
    (hgen : b.GenBlock = true)
    (hempty : (b.Play env (tr ++ [Event.startTransaction none]) vm).b.Transactions = [])
    (hin : b.Transactions = t0 :: rest) :
    ∃ r l,
      (b.PlaySafe env tr vm).trace = (b.Play env (tr ++ [Event.startTransaction none]) vm).trace
        ++ Event.dbRollback :: l
        ++ [Event.markTransactionBad t0.TxHash
            (env.errorText (if err = ErrLimitStop then ErrLimitTime else err)) r] ∧
      (∀ ev ∈ l, ∃ k, ev = Event.badTxForBan k) ∧
      (b.PlaySafe env tr vm).ret
        = .ret (some (r.getD (if err = ErrLimitStop then ErrLimitTime else err))) ∧
      (b.PlaySafe env tr vm).b = (b.Play env (tr ++ [Event.startTransaction none]) vm).b := by
  have hg : (b.Play env (tr ++ [Event.startTransaction none]) vm).b.GenBlock = true := by
    simp only [Block.Play]
    exact hgen
  simp only [Block.PlaySafe, hstart, hp, hg, hempty, hin, List.length_nil, and_self, if_true]
  cases hh : t0.TxHeader with
  | none =>
    simp only []
    split
    · rename_i e hr
      refine ⟨some e, [], ?_, by simp, ?_, rfl⟩
      · rw [hr]
      · simp
    · rename_i hr
      refine ⟨none, [], ?_, by simp, ?_, rfl⟩
      · rw [hr]
      · simp
  | some keyID =>
    simp only []
    split
    · rename_i e hr
      refine ⟨some e, [Event.badTxForBan keyID], ?_, by simp, ?_, rfl⟩
      · rw [hr]; simp
      · simp
    · rename_i hr
      refine ⟨none, [Event.badTxForBan keyID], ?_, by simp, ?_, rfl⟩
      · rw [hr]; simp
      · simp

/-- C9 (amended): when generating (GenBlock = true) and the trace of the Play run by
PlaySafe shows that the execution of the first transaction (index 0) ended with
ErrLimitStop, then Play leaves b.Transactions empty and does not return nil; if
the rollback of savepoint 0 succeeded, Play returns the error of AfterPlayTxs
when that call fails and ErrLimitStop otherwise.  PlaySafe then does not return
nil either, leaves b.Transactions empty and calls neither UpdBlockInfo nor
InsertIntoBlockchain nor Commit; when Play returned ErrLimitStop, PlaySafe marks
the first input transaction bad with the text of ErrLimitTime and returns
ErrLimitTime, or the error of that marking when it fails. -/
theorem playSafe_limit_stop_first (env : Env) (tr : Trace) (vm : VM) (b : Block)
    (hgen : b.GenBlock = true) (hstart : env.StartTransaction tr = none)
    (hfail : txError (b.playEvents env (tr ++ [Event.startTransaction none]) vm) 0
      = some ErrLimitStop) :
    ((b.Play env (tr ++ [Event.startTransaction none]) vm).b.Transactions = [] ∧
      (b.Play env (tr ++ [Event.startTransaction none]) vm).ret ≠ .ret none ∧
      (Event.tx 0 (.rollbackSavepoint none)
          ∈ b.playEvents env (tr ++ [Event.startTransaction none]) vm →
        ∀ id ptx r, Event.afterPlayTxs id ptx r
            ∈ b.playEvents env (tr ++ [Event.startTransaction none]) vm →
          (b.Play env (tr ++ [Event.startTransaction none]) vm).ret
            = .ret (some (r.getD ErrLimitStop)))) ∧
    ((b.PlaySafe env tr vm).b.Transactions = [] ∧
      (b.PlaySafe env tr vm).ret ≠ .ret none ∧
      (∀ ev ∈ b.playSafeEvents env tr vm, ev.isCommit = false) ∧
      ((b.Play env (tr ++ [Event.startTransaction none]) vm).ret = .ret (some ErrLimitStop) →
        ∃ t0 r, b.Transactions[0]? = some t0 ∧
          Event.markTransactionBad t0.TxHash (env.errorText ErrLimitTime) r
            ∈ b.playSafeEvents env tr vm ∧
          (b.PlaySafe env tr vm).ret = .ret (some (r.getD ErrLimitTime)))) := by
  have hne : ErrLimitStop ≠ ErrNetworkStopping := by decide
  obtain ⟨t, st3, res, ht, hp, hundoin, hin, hafter, hcommit, hexit, _⟩ :=
    play_failure_frame env (tr ++ [Event.startTransaction none]) vm b 0 ErrLimitStop hfail
  have hnn := playUndo_limit_stop env b st3 0 t res hgen
  obtain ⟨_, hloop⟩ := hexit hnn
  obtain ⟨_, hpU, _⟩ := playUndo_trace env b st3 0 t res ErrLimitStop
  have htx : (b.Play env (tr ++ [Event.startTransaction none]) vm).b.Transactions = [] := by
    simp only [Block.Play, hgen, if_true, hloop]
    rw [hpU, hp]
    simp [okTxs]
  have htr := play_trace env (tr ++ [Event.startTransaction none]) vm b
  -- the first input transaction
  have hcons : ∃ rest, b.Transactions = t :: rest := by
    cases hb : b.Transactions with
    | nil => rw [hb] at ht; simp at ht
    | cons t1 rest =>
      rw [hb] at ht
      simp only [List.getElem?_cons_zero, Option.some.injEq] at ht
      exact ⟨rest, by rw [ht]⟩
  obtain ⟨rest, hrest⟩ := hcons
  -- how the loop was left
  have hU : playUndo env b st3 0 t res ErrLimitStop = .panic st3 ∨
      ∃ stx ex, playUndo env b st3 0 t res ErrLimitStop = .ret stx ex ∧
        (Event.tx 0 (.rollbackSavepoint none)
          ∈ b.playEvents env (tr ++ [Event.startTransaction none]) vm → ex = ErrLimitStop) := by
    rcases playUndo_cases env b st3 0 t res ErrLimitStop with ⟨hP, _⟩ | ⟨vm1, hF, hFe⟩
    · exact Or.inl hP
    · right
      obtain ⟨_, _, F3, _, F5, F6, _⟩ :=
        playFailed_cases env b { st3 with vm := vm1 } 0 t res ErrLimitStop
      rw [← hFe] at F3
      rw [← hF] at F5 F6
      cases hro : env.RollbackSavepoint st3.trace 0 with
      | some e1 =>
        obtain ⟨stx, h⟩ := F5 hne e1 hro
        refine ⟨stx, e1, h, ?_⟩
        intro hmem
        have := (F3 _ (hundoin _ hmem rfl)).2
        rw [hro] at this
        cases this
      | none =>
        obtain ⟨stx, h⟩ := (F6 hne hro hgen rfl).1 rfl
        exact ⟨stx, ErrLimitStop, h, fun _ => rfl⟩
  have hsafeev : ∀ l, (b.PlaySafe env tr vm).trace
      = (b.Play env (tr ++ [Event.startTransaction none]) vm).trace ++ l →
      b.playSafeEvents env tr vm
        = Event.startTransaction none
            :: (b.playEvents env (tr ++ [Event.startTransaction none]) vm ++ l) := by
    intro l hl
    simp only [Block.playSafeEvents]
    rw [hl, htr]
    simp
  rcases hU with hP | ⟨stx, ex, hR, hex⟩
  · -- the VM undo panics
    have hret : (b.Play env (tr ++ [Event.startTransaction none]) vm).ret = .panic := by
      simp only [Block.Play, hloop, hP]
    obtain ⟨s1, s2, s3⟩ := playSafe_of_play_panic env tr vm b hstart hret
    have hnoroll : Event.tx 0 (.rollbackSavepoint none)
        ∉ b.playEvents env (tr ++ [Event.startTransaction none]) vm := by
      intro hmem
      have := hundoin _ hmem rfl
      rw [hP] at this
      simp [Step.events, Step.state] at this
    refine ⟨⟨htx, by rw [hret]; simp, fun hmem => absurd hmem hnoroll⟩,
      by rw [s2]; exact htx, by rw [s1]; simp, ?_, ?_⟩
    · intro ev hmem
      rw [hsafeev [] (by rw [s3]; simp)] at hmem
      simp only [List.append_nil, List.mem_cons] at hmem
      rcases hmem with h | h
      · rw [h]; rfl
      · exact hcommit ev h
    · intro h
      rw [hret] at h
      cases h
  · -- the loop was left by a return statement
    have hret : (b.Play env (tr ++ [Event.startTransaction none]) vm).ret
        = .ret (some ((env.AfterPlayTxs
          (playLoop env b (b.timeLimit env (tr ++ [Event.startTransaction none]))
            (b.playInit (tr ++ [Event.startTransaction none]) vm) 0 b.Transactions).1.trace
          b.Header.BlockID
          (playLoop env b (b.timeLimit env (tr ++ [Event.startTransaction none]))
            (b.playInit (tr ++ [Event.startTransaction none]) vm) 0 b.Transactions).1.playTxs).getD ex)) := by
      simp only [Block.Play]
      rw [hloop, hR]
      simp only []
      split <;> rename_i h <;> simp [h]
    obtain ⟨r, l, s1, s2, s3, s4⟩ := playSafe_of_play_error_empty env tr vm b _ t rest hstart hret
      hgen htx hrest
    refine ⟨⟨htx, by rw [hret]; simp, ?_⟩, by rw [s4]; exact htx, by rw [s3]; simp, ?_, ?_⟩
    · intro hmem id ptx r1 hafterin
      rw [hret, hafter id ptx r1 hafterin, hex hmem]
    · intro ev hmem
      rw [hsafeev _ (by rw [s1, List.append_assoc])] at hmem
      simp only [List.mem_cons, List.mem_append, List.mem_singleton, List.mem_nil_iff, or_false]
        at hmem
      rcases hmem with h | h | (h | h) | h
      · rw [h]; rfl
      · exact hcommit ev h
      · rw [h]; rfl
      · obtain ⟨k, hk⟩ := s2 ev h
        rw [hk]; rfl
      · rw [h]; rfl
    · intro h
      rw [hret] at h
      have herr := Option.some.inj (Outcome.ret.inj h)
      rw [herr] at s1 s3
      simp only [if_true] at s1 s3
      refine ⟨t, r, ht, ?_, s3⟩
      rw [hsafeev _ (by rw [s1, List.append_assoc])]
      simp

/-- C9, as stated, fails: when generating one candidate that ends with ErrLimitStop
while the rollback of its savepoint fails, Play returns the error of the
rollback, not ErrLimitStop, and PlaySafe returns that error, not ErrLimitTime. -/
theorem playSafe_limit_stop_rollback_counterexample :
    (sampleGenBlock [sampleTx 1 1]).GenBlock = true ∧
    txError ((sampleGenBlock [sampleTx 1 1]).playEvents
      (failingEnv 0 ErrLimitStop (some (.errorf "db"))) [Event.startTransaction none] sampleVM) 0
      = some ErrLimitStop ∧
    ((sampleGenBlock [sampleTx 1 1]).Play
      (failingEnv 0 ErrLimitStop (some (.errorf "db"))) [Event.startTransaction none] sampleVM).ret
      = .ret (some (.errorf "db")) ∧
    ((sampleGenBlock [sampleTx 1 1]).PlaySafe
      (failingEnv 0 ErrLimitStop (some (.errorf "db"))) [] sampleVM).ret
      = .ret (some (.errorf "db")) ∧
    Err.errorf "db" ≠ ErrLimitStop ∧ Err.errorf "db" ≠ ErrLimitTime := by
  decide

/-- C9 (amended) at two candidates of which the first ends with ErrLimitStop, all
database calls succeeding: nothing is left in b.Transactions and PlaySafe returns
ErrLimitTime without touching the chain. -/
theorem playSafe_limit_stop_first_witness :
    (sampleGenBlock [sampleTx 1 1, sampleTx 2 2]).GenBlock = true ∧
    txError ((sampleGenBlock [sampleTx 1 1, sampleTx 2 2]).playEvents
      (failingEnv 0 ErrLimitStop none) ([] ++ [Event.startTransaction none]) sampleVM) 0
      = some ErrLimitStop ∧
    ((sampleGenBlock [sampleTx 1 1, sampleTx 2 2]).PlaySafe
      (failingEnv 0 ErrLimitStop none) [] sampleVM).b.Transactions = [] ∧
    ((sampleGenBlock [sampleTx 1 1, sampleTx 2 2]).PlaySafe
      (failingEnv 0 ErrLimitStop none) [] sampleVM).ret ≠ .ret none ∧
    (∀ ev ∈ (sampleGenBlock [sampleTx 1 1, sampleTx 2 2]).playSafeEvents
      (failingEnv 0 ErrLimitStop none) [] sampleVM, ev.isCommit = false) :=
  ⟨rfl, by decide,
    (playSafe_limit_stop_first (failingEnv 0 ErrLimitStop none) [] sampleVM
      (sampleGenBlock [sampleTx 1 1, sampleTx 2 2]) rfl rfl (by decide)).2.1,
    (playSafe_limit_stop_first (failingEnv 0 ErrLimitStop none) [] sampleVM
      (sampleGenBlock [sampleTx 1 1, sampleTx 2 2]) rfl rfl (by decide)).2.2.1,
    (playSafe_limit_stop_first (failingEnv 0 ErrLimitStop none) [] sampleVM
      (sampleGenBlock [sampleTx 1 1, sampleTx 2 2]) rfl rfl (by decide)).2.2.2.1⟩

/-- Play itself only makes the calls of its loop and the call of AfterPlayTxs. -/
theorem play_events_kind (env : Env) (tr : Trace) (vm : VM) (b : Block) :
    ∀ ev ∈ b.playEvents env tr vm,
      (∃ i op, ev = Event.tx i op) ∨ ∃ id ptx r, ev = Event.afterPlayTxs id ptx r := by
  obtain ⟨l, hl, hidx⟩ := playLoop_trace env b (b.timeLimit env tr) b.Transactions (b.playInit tr vm) 0
  have hl' : (playLoop env b (b.timeLimit env tr) (b.playInit tr vm) 0 b.Transactions).1.trace
      = tr ++ l := hl
  intro ev hev
  rw [play_events env tr vm b l hl'] at hev
  rcases List.mem_append.1 hev with h | h
  · obtain ⟨j, op, hop, _⟩ := hidx ev h
    exact Or.inl ⟨j, op, hop⟩
  · exact Or.inr ⟨_, _, _, List.mem_singleton.1 h⟩

/-- C12: for a received block (GenBlock = false), once the database transaction is
open, if Block.Play returns an error that is not nil then Block.PlaySafe returns
that error, and its calls are: StartTransaction, the calls of Play, and the
rollback of the database transaction; neither UpdBlockInfo nor
InsertIntoBlockchain nor Commit is called and no notification is sent. -/
theorem playSafe_received_play_error (env : Env) (tr : Trace) (vm : VM) (b : Block) (err : Err)
    (hgen : b.GenBlock = false) (hstart : env.StartTransaction tr = none)
    (hp : (b.Play env (tr ++ [Event.startTransaction none]) vm).ret = .ret (some err)) :
    (b.PlaySafe env tr vm).ret = .ret (some err) ∧
    b.playSafeEvents env tr vm
      = Event.startTransaction none
          :: (b.playEvents env (tr ++ [Event.startTransaction none]) vm ++ [Event.dbRollback]) ∧
    (∀ ev ∈ b.playSafeEvents env tr vm, ev.isCommit = false ∧ ∀ q, ev ≠ Event.send q) := by
  have hg : (b.Play env (tr ++ [Event.startTransaction none]) vm).b.GenBlock = false := by
    simp only [Block.Play]
    exact hgen
  have htr := play_trace env (tr ++ [Event.startTransaction none]) vm b
  have hret : (b.PlaySafe env tr vm).ret = .ret (some err) := by
    simp [Block.PlaySafe, hstart, hp, hg]
  have hev : b.playSafeEvents env tr vm
      = Event.startTransaction none
          :: (b.playEvents env (tr ++ [Event.startTransaction none]) vm ++ [Event.dbRollback]) := by
    simp only [Block.playSafeEvents, Block.PlaySafe, hstart, hp, hg]
    simp [htr]
  refine ⟨hret, hev, ?_⟩
  intro ev hmem
  rw [hev] at hmem
  simp only [List.mem_cons, List.mem_append, List.mem_singleton, List.mem_nil_iff, or_false]
    at hmem
  rcases hmem with h | h | h
  · subst h
    exact ⟨rfl, fun q hq => by cases hq⟩
  · rcases play_events_kind env _ vm b ev h with ⟨i, op, h1⟩ | ⟨id, ptx, r, h1⟩
    · subst h1
      exact ⟨rfl, fun q hq => by cases hq⟩
    · subst h1
      exact ⟨rfl, fun q hq => by cases hq⟩
  · subst h
    exact ⟨rfl, fun q hq => by cases hq⟩

/-- C12 at a received block of three transactions whose second one fails. -/
theorem playSafe_received_play_error_witness :
    (sampleBlock 5 900 (some (sampleHeader 4 800))
      [sampleTx 1 1, sampleTx 2 2, sampleTx 3 3]).GenBlock = false ∧
    ((sampleBlock 5 900 (some (sampleHeader 4 800)) [sampleTx 1 1, sampleTx 2 2, sampleTx 3 3]).Play
      (failingEnv 1 (.errorf "db") none) ([] ++ [Event.startTransaction none]) sampleVM).ret
      = .ret (some (.errorf "db")) ∧
    ((sampleBlock 5 900 (some (sampleHeader 4 800)) [sampleTx 1 1, sampleTx 2 2, sampleTx 3 3]).PlaySafe
      (failingEnv 1 (.errorf "db") none) [] sampleVM).ret = .ret (some (.errorf "db")) :=
  ⟨rfl, by decide,
    (playSafe_received_play_error (failingEnv 1 (.errorf "db") none) [] sampleVM
      (sampleBlock 5 900 (some (sampleHeader 4 800)) [sampleTx 1 1, sampleTx 2 2, sampleTx 3 3])
      (.errorf "db") rfl rfl (by decide)).1⟩

/-- The calls of PlaySafe, once the database transaction is open: StartTransaction,
the calls of Play, and whatever PlaySafe called after Play. -/
theorem playSafeEvents_of_trace (env : Env) (tr : Trace) (vm : VM) (b : Block) (l : Trace)
    (h : (b.PlaySafe env tr vm).trace
      = (b.Play env (tr ++ [Event.startTransaction none]) vm).trace ++ l) :
    b.playSafeEvents env tr vm
      = Event.startTransaction none
          :: (b.playEvents env (tr ++ [Event.startTransaction none]) vm ++ l) := by
  simp only [Block.playSafeEvents]
  rw [h, play_trace env (tr ++ [Event.startTransaction none]) vm b]
  simp

/-- Play neither rolls back nor commits the database transaction. -/
theorem play_events_no_db (env : Env) (tr : Trace) (vm : VM) (b : Block) :
    Event.dbRollback ∉ b.playEvents env tr vm ∧ ∀ r, Event.dbCommit r ∉ b.playEvents env tr vm := by
  constructor
  · intro h
    rcases play_events_kind env tr vm b _ h with ⟨i, op, h1⟩ | ⟨id, ptx, r, h1⟩ <;> cases h1
  · intro r h
    rcases play_events_kind env tr vm b _ h with ⟨i, op, h1⟩ | ⟨id, ptx, r1, h1⟩ <;> cases h1

/-- The calls of repeatMarshallBlock: reading the node keys, marshalling,
unmarshalling. -/
theorem repeatMarshallBlock_trace (env : Env) (tr : Trace) (b : Block) :
    ∃ l, (b.repeatMarshallBlock env tr).2.2 = tr ++ l ∧
      Event.dbRollback ∉ l ∧ (∀ r, Event.dbCommit r ∉ l) := by
  unfold Block.repeatMarshallBlock
  simp only []
  split
  · exact ⟨[Event.getNodeKeys], rfl, by simp, by simp⟩
  · split
    · exact ⟨[Event.getNodeKeys, Event.marshallBlock (b.Transactions.map (fun t => t.TxFullData))],
        by simp, by simp, by simp⟩
    · rename_i nbd _
      split
      · exact ⟨[Event.getNodeKeys, Event.marshallBlock (b.Transactions.map (fun t => t.TxFullData)),
          Event.unmarshallBlock nbd], by simp, by simp, by simp⟩
      · exact ⟨[Event.getNodeKeys, Event.marshallBlock (b.Transactions.map (fun t => t.TxFullData)),
          Event.unmarshallBlock nbd], by simp, by simp, by simp⟩

/-- The last part of PlaySafe: when it returns an error, either UpdBlockInfo or
InsertIntoBlockchain failed and the database transaction was rolled back without
a commit, or the commit itself failed. -/
theorem commitBlock_error (env : Env) (tr : Trace) (vm : VM) (b : Block) (e : Err)
    (h : (b.commitBlock env tr vm).ret = .ret (some e)) :
    ∃ l, (b.commitBlock env tr vm).trace = tr ++ l ∧
      ((Event.dbRollback ∈ l ∧ ∀ r, Event.dbCommit r ∉ l) ∨
        (Event.dbCommit (some e) ∈ l ∧ Event.dbRollback ∉ l)) := by
  unfold Block.commitBlock at h ⊢
  cases h1 : env.UpdBlockInfo tr b with
  | some e1 =>
    simp only [h1]
    exact ⟨[Event.updBlockInfo b.Header.BlockID (some e1), Event.dbRollback], by simp,
      Or.inl ⟨by simp, by simp⟩⟩
  | none =>
    simp only [h1] at h ⊢
    cases h2 : env.InsertIntoBlockchain (tr ++ [Event.updBlockInfo b.Header.BlockID none]) b with
    | some e2 =>
      simp only [h2]
      exact ⟨[Event.updBlockInfo b.Header.BlockID none,
        Event.insertIntoBlockchain b.Header.BlockID (some e2), Event.dbRollback], by simp,
        Or.inl ⟨by simp, by simp⟩⟩
    | none =>
      simp only [h2] at h ⊢
      cases h3 : env.Commit (tr ++ [Event.updBlockInfo b.Header.BlockID none]
          ++ [Event.insertIntoBlockchain b.Header.BlockID none]) with
      | some e3 =>
        simp only [h3] at h ⊢
        have he : e3 = e := by
          simpa using h
        subst he
        exact ⟨[Event.updBlockInfo b.Header.BlockID none,
          Event.insertIntoBlockchain b.Header.BlockID none, Event.dbCommit (some e3)], by simp,
          Or.inr ⟨by simp, by simp⟩⟩
      | none =>
        simp only [h3] at h
        cases h

/-- What PlaySafe called after Play when it returned an error. -/
theorem playSafe_error_tail (env : Env) (tr : Trace) (vm : VM) (b : Block) (e : Err)
    (hstart : env.StartTransaction tr = none)
    (hret : (b.PlaySafe env tr vm).ret = .ret (some e)) :
    ∃ l, (b.PlaySafe env tr vm).trace
        = (b.Play env (tr ++ [Event.startTransaction none]) vm).trace ++ l ∧
      ((Event.dbRollback ∈ l ∧ ∀ r, Event.dbCommit r ∉ l) ∨
        (b.GenBlock = true ∧ e = ErrEmptyBlock ∧
          (b.Play env (tr ++ [Event.startTransaction none]) vm).ret = .ret none ∧
          (b.Play env (tr ++ [Event.startTransaction none]) vm).b.Transactions = [] ∧
          Event.dbRollback ∉ l ∧ ∃ r, Event.dbCommit r ∈ l) ∨
        (Event.dbCommit (some e) ∈ l ∧ Event.dbRollback ∉ l)) := by
  have hg : (b.Play env (tr ++ [Event.startTransaction none]) vm).b.GenBlock = b.GenBlock := by
    simp only [Block.Play]
  unfold Block.PlaySafe at hret ⊢
  simp only [hstart] at hret ⊢
  cases hpr : (b.Play env (tr ++ [Event.startTransaction none]) vm).ret with
  | panic =>
    simp only [hpr] at hret
    cases hret
  | ret r =>
    cases r with
    | some err =>
      simp only [hpr] at hret ⊢
      by_cases hc : (b.Play env (tr ++ [Event.startTransaction none]) vm).b.GenBlock = true ∧
          (b.Play env (tr ++ [Event.startTransaction none]) vm).b.Transactions.length = 0
      · rw [if_pos hc] at hret ⊢
        cases hin : b.Transactions with
        | nil =>
          simp only [hin] at hret
          cases hret
        | cons t0 rest =>
          simp only []
          cases hh : t0.TxHeader with
          | none =>
            simp only []
            generalize env.MarkTransactionBad _ _ _ = r
            exact ⟨[Event.dbRollback, Event.markTransactionBad t0.TxHash
              (env.errorText (if err = ErrLimitStop then ErrLimitTime else err)) r],
              by cases r <;> simp, Or.inl ⟨by simp, by simp⟩⟩
          | some keyID =>
            simp only []
            generalize env.MarkTransactionBad _ _ _ = r
            exact ⟨[Event.dbRollback, Event.badTxForBan keyID, Event.markTransactionBad t0.TxHash
              (env.errorText (if err = ErrLimitStop then ErrLimitTime else err)) r],
              by cases r <;> simp, Or.inl ⟨by simp, by simp⟩⟩
      · rw [if_neg hc]
        exact ⟨[Event.dbRollback], rfl, Or.inl ⟨by simp, by simp⟩⟩
    | none =>
      simp only [hpr] at hret ⊢
      split
      · rename_i hc
        rw [if_pos hc] at hret
        have he : e = ErrEmptyBlock := by
          simpa using hret.symm
        refine ⟨[Event.dbCommit
          (env.Commit (b.Play env (tr ++ [Event.startTransaction none]) vm).trace)], rfl,
          Or.inr (Or.inl ⟨?_, he, trivial, ?_, by simp, ⟨_, List.mem_singleton.2 rfl⟩⟩)⟩
        · rw [← hg]; exact hc.1
        · exact List.length_eq_zero.1 hc.2
      · rename_i hc
        rw [if_neg hc] at hret
        split
        · rename_i hc2
          rw [if_pos hc2] at hret
          obtain ⟨lm, hlm, hm1, hm2⟩ := repeatMarshallBlock_trace env
            (b.Play env (tr ++ [Event.startTransaction none]) vm).trace
            (b.Play env (tr ++ [Event.startTransaction none]) vm).b
          split
          · rename_i err b1 tr2 heq
            rw [heq] at hlm
            simp only at hlm
            refine ⟨lm ++ [Event.dbRollback], by rw [hlm]; simp, Or.inl ⟨by simp, ?_⟩⟩
            intro r hr
            rcases List.mem_append.1 hr with h | h
            · exact hm2 r h
            · simp at h
          · rename_i b1 tr2 heq
            rw [heq] at hlm hret
            simp only at hlm hret
            obtain ⟨l, hl, hcase⟩ := commitBlock_error env tr2
              (b.Play env (tr ++ [Event.startTransaction none]) vm).vm b1 e hret
            refine ⟨lm ++ l, by rw [hl, hlm]; simp, ?_⟩
            rcases hcase with ⟨h1, h2⟩ | ⟨h1, h2⟩
            · refine Or.inl ⟨List.mem_append_right _ h1, ?_⟩
              intro r hr
              rcases List.mem_append.1 hr with h | h
              · exact hm2 r h
              · exact h2 r h
            · refine Or.inr (Or.inr ⟨List.mem_append_right _ h1, ?_⟩)
              intro hr
              rcases List.mem_append.1 hr with h | h
              · exact hm1 h
              · exact h2 h
        · rename_i hc2
          rw [if_neg hc2] at hret
          obtain ⟨l, hl, hcase⟩ := commitBlock_error env
            (b.Play env (tr ++ [Event.startTransaction none]) vm).trace
            (b.Play env (tr ++ [Event.startTransaction none]) vm).vm
            (b.Play env (tr ++ [Event.startTransaction none]) vm).b e hret
          refine ⟨l, hl, ?_⟩
          rcases hcase with h | h
          · exact Or.inl h
          · exact Or.inr (Or.inr h)

/-- C13, as stated, fails: when generating a block whose only candidate fails (and is
marked bad), Play returns nil with no transaction left, and PlaySafe commits the
database transaction, never rolls it back, and returns ErrEmptyBlock. -/
theorem playSafe_empty_block_commit_counterexample :
    ((sampleGenBlock [sampleTx 1 1]).PlaySafe (failingEnv 0 (.errorf "boom") none) [] sampleVM).ret
      = .ret (some ErrEmptyBlock) ∧
    (sampleGenBlock [sampleTx 1 1]).playSafeEvents (failingEnv 0 (.errorf "boom") none) [] sampleVM
      = [Event.startTransaction none, Event.tx 0 (.savepoint none),
          Event.tx 0 (.play (some (.errorf "boom"))), Event.tx 0 (.rollbackSavepoint none),
          Event.tx 0 (.markTransactionBad [1] "boom"),
          Event.afterPlayTxs 5 ⟨[], [], []⟩ none, Event.dbCommit none] ∧
    Event.dbRollback ∉ (sampleGenBlock [sampleTx 1 1]).playSafeEvents
      (failingEnv 0 (.errorf "boom") none) [] sampleVM := by
  decide

/-- C13 (amended): whenever Block.PlaySafe returns an error that is not nil after it
has opened its database transaction, one of three things happened: the database
transaction was rolled back and Commit was not called; or, when generating, Play
returned nil and left no transaction, Commit was called with no rollback and
ErrEmptyBlock is the error; or UpdBlockInfo and InsertIntoBlockchain succeeded,
the final Commit itself failed with the error returned, and no rollback was
called. -/
theorem playSafe_error_rollback (env : Env) (tr : Trace) (vm : VM) (b : Block) (e : Err)
    (hstart : env.StartTransaction tr = none)
    (hret : (b.PlaySafe env tr vm).ret = .ret (some e)) :
    (Event.dbRollback ∈ b.playSafeEvents env tr vm ∧
      ∀ r, Event.dbCommit r ∉ b.playSafeEvents env tr vm) ∨
    (b.GenBlock = true ∧ e = ErrEmptyBlock ∧
      (b.Play env (tr ++ [Event.startTransaction none]) vm).ret = .ret none ∧
      (b.Play env (tr ++ [Event.startTransaction none]) vm).b.Transactions = [] ∧
      Event.dbRollback ∉ b.playSafeEvents env tr vm ∧
      ∃ r, Event.dbCommit r ∈ b.playSafeEvents env tr vm) ∨
    (Event.dbCommit (some e) ∈ b.playSafeEvents env tr vm ∧
      Event.dbRollback ∉ b.playSafeEvents env tr vm) := by
  obtain ⟨l, hl, hcase⟩ := playSafe_error_tail env tr vm b e hstart hret
  obtain ⟨hn1, hn2⟩ := play_events_no_db env (tr ++ [Event.startTransaction none]) vm b
  have hev := playSafeEvents_of_trace env tr vm b l hl
  have hin : ∀ ev, ev ∈ l → ev ∈ b.playSafeEvents env tr vm := by
    intro ev h
    rw [hev]
    exact List.mem_cons_of_mem _ (List.mem_append_right _ h)
  have hnoroll : Event.dbRollback ∉ l → Event.dbRollback ∉ b.playSafeEvents env tr vm := by
    intro h hmem
    rw [hev] at hmem
    rcases List.mem_cons.1 hmem with h1 | h1
    · cases h1
    · rcases List.mem_append.1 h1 with h2 | h2
      · exact hn1 h2
      · exact h h2
  have hnocommit : (∀ r, Event.dbCommit r ∉ l) →
      ∀ r, Event.dbCommit r ∉ b.playSafeEvents env tr vm := by
    intro h r hmem
    rw [hev] at hmem
    rcases List.mem_cons.1 hmem with h1 | h1
    · cases h1
    · rcases List.mem_append.1 h1 with h2 | h2
      · exact hn2 r h2
      · exact h r h2
  rcases hcase with ⟨h1, h2⟩ | ⟨h1, h2, h3, h4, h5, r, h6⟩ | ⟨h1, h2⟩
  · exact Or.inl ⟨hin _ h1, hnocommit h2⟩
  · exact Or.inr (Or.inl ⟨h1, h2, h3, h4, hnoroll h5, r, hin _ h6⟩)
  · exact Or.inr (Or.inr ⟨hin _ h1, hnoroll h2⟩)

/-- C13 (amended) at a received block whose second transaction fails: the database
transaction is rolled back and not committed. -/
theorem playSafe_error_rollback_witness :
    ((sampleBlock 5 900 (some (sampleHeader 4 800)) [sampleTx 1 1, sampleTx 2 2]).PlaySafe
      (failingEnv 1 (.errorf "db") none) [] sampleVM).ret = .ret (some (.errorf "db")) ∧
    ((Event.dbRollback ∈ (sampleBlock 5 900 (some (sampleHeader 4 800))
          [sampleTx 1 1, sampleTx 2 2]).playSafeEvents (failingEnv 1 (.errorf "db") none) [] sampleVM ∧
        ∀ r, Event.dbCommit r ∉ (sampleBlock 5 900 (some (sampleHeader 4 800))
          [sampleTx 1 1, sampleTx 2 2]).playSafeEvents (failingEnv 1 (.errorf "db") none) [] sampleVM) ∨
      ((sampleBlock 5 900 (some (sampleHeader 4 800)) [sampleTx 1 1, sampleTx 2 2]).GenBlock = true ∧
        Err.errorf "db" = ErrEmptyBlock ∧
        ((sampleBlock 5 900 (some (sampleHeader 4 800)) [sampleTx 1 1, sampleTx 2 2]).Play
          (failingEnv 1 (.errorf "db") none) ([] ++ [Event.startTransaction none]) sampleVM).ret
          = .ret none ∧
        ((sampleBlock 5 900 (some (sampleHeader 4 800)) [sampleTx 1 1, sampleTx 2 2]).Play
          (failingEnv 1 (.errorf "db") none) ([] ++ [Event.startTransaction none]) sampleVM).b.Transactions
          = [] ∧
        Event.dbRollback ∉ (sampleBlock 5 900 (some (sampleHeader 4 800))
          [sampleTx 1 1, sampleTx 2 2]).playSafeEvents (failingEnv 1 (.errorf "db") none) [] sampleVM ∧
        ∃ r, Event.dbCommit r ∈ (sampleBlock 5 900 (some (sampleHeader 4 800))
          [sampleTx 1 1, sampleTx 2 2]).playSafeEvents (failingEnv 1 (.errorf "db") none) [] sampleVM) ∨
      (Event.dbCommit (some (.errorf "db")) ∈ (sampleBlock 5 900 (some (sampleHeader 4 800))
          [sampleTx 1 1, sampleTx 2 2]).playSafeEvents (failingEnv 1 (.errorf "db") none) [] sampleVM ∧
        Event.dbRollback ∉ (sampleBlock 5 900 (some (sampleHeader 4 800))
          [sampleTx 1 1, sampleTx 2 2]).playSafeEvents (failingEnv 1 (.errorf "db") none) [] sampleVM)) :=
  ⟨by decide,
    playSafe_error_rollback (failingEnv 1 (.errorf "db") none) [] sampleVM
      (sampleBlock 5 900 (some (sampleHeader 4 800)) [sampleTx 1 1, sampleTx 2 2])
      (.errorf "db") rfl (by decide)⟩

/-! ## The accumulators of Play -/

/-- On a received block the error branch of the loop body never goes on: it
returns or panics. -/
theorem playUndo_received (env : Env) (b : Block) (st : PlayState) (i : Nat) (t : Transaction)
    (res : TxPlayResult) (err : Err) (hgen : b.GenBlock = false) :
    (∀ stx, playUndo env b st i t res err ≠ .next stx) ∧
    (∀ stx, playUndo env b st i t res err ≠ .brk stx) := by
  unfold playUndo
  split
  · exact ⟨fun stx h => (by cases h), fun stx h => (by cases h)⟩
  · unfold playFailed
    simp only [hgen]
    split
    · exact ⟨fun stx h => (by cases h), fun stx h => (by cases h)⟩
    · split
      · exact ⟨fun stx h => (by cases h), fun stx h => (by cases h)⟩
      · simp

/-- The success branch of the loop body never breaks out of the loop. -/
theorem playSucceeded_not_brk (env : Env) (b : Block) (st : PlayState) (i : Nat) (t : Transaction)
    (res : TxPlayResult) : ∀ stx, playSucceeded env b st i t res ≠ .brk stx := by
  intro stx h
  rcases (playSucceeded_spec env b st i t res).2.2 with ⟨st1, hn, _⟩ | ⟨st1, e, hn, _⟩
  · rw [hn] at h; cases h
  · rw [hn] at h; cases h

/-- An iteration that breaks out of the loop leaves the accumulators as they were,
and the execution of its transaction ended with an error. -/
theorem playStep_brk (env : Env) (b : Block) (tl : Int) (st : PlayState) (i : Nat)
    (t : Transaction) (st1 : PlayState) (h : playStep env b tl st i t = .brk st1) :
    st1.proccessedTx = st.proccessedTx ∧ st1.playTxs = st.playTxs ∧ b.GenBlock = true := by
  rcases playStep_cases env b tl st i t with
    ⟨e, st1', _, hs, _⟩ | ⟨res, st3, le, _, htr, hle, hp, hq, _, _, hc⟩
  · rw [hs] at h
    cases h
  · rcases hc with ⟨e, hiff, hs, hev⟩ | ⟨hno, hs, hev⟩
    · obtain ⟨_, h2, h3, _⟩ := playUndo_trace env b st3 i t res e
      rw [hs] at h
      rw [h] at h2 h3
      simp only [Step.state] at h2 h3
      refine ⟨by rw [h2, hp], by rw [h3, hq], ?_⟩
      cases hg : b.GenBlock with
      | true => rfl
      | false => exact absurd h ((playUndo_received env b st3 i t res e hg).2 st1)
    · rw [hs] at h
      exact absurd h (playSucceeded_not_brk env b st3 i t res st1)

/-- On a received block an iteration that goes on to the next one has added its
transaction to the accumulators. -/
theorem playStep_next_received (env : Env) (b : Block) (tl : Int) (st : PlayState) (i : Nat)
    (t : Transaction) (st1 : PlayState) (hgen : b.GenBlock = false)
    (h : playStep env b tl st i t = .next st1) :
    st1.proccessedTx = st.proccessedTx ++ [t] := by
  rcases playStep_cases env b tl st i t with
    ⟨e, st1', _, hs, _⟩ | ⟨res, st3, le, _, htr, hle, hp, hq, _, _, hc⟩
  · rw [hs] at h
    cases h
  · rcases hc with ⟨e, hiff, hs, hev⟩ | ⟨hno, hs, hev⟩
    · rw [hs] at h
      exact absurd h ((playUndo_received env b st3 i t res e hgen).1 st1)
    · rw [hs] at h
      rcases (playSucceeded_spec env b st3 i t res).2.2 with ⟨st1', hn, ha, _⟩ | ⟨st1', e, hn, _⟩
      · rw [hn] at h
        cases h
        rw [ha, hp]
      · rw [hn] at h
        cases h

/-- Events of the iteration for index i tell nothing about a later index, and
events of later iterations nothing about index i. -/
theorem txError_step_append (i : Nat) (se l2 : Trace)
    (hse : ∀ ev ∈ se, ∃ op, ev = Event.tx i op)
    (hl2 : ∀ ev ∈ l2, ∃ j op, ev = Event.tx j op ∧ i + 1 ≤ j) :
    txError (se ++ l2) i = txError se i ∧
    ∀ j, i + 1 ≤ j → txError (se ++ l2) j = txError l2 j := by
  constructor
  · rw [txError_append]
    have : txError l2 i = none := by
      apply txError_other_index
      intro ev hev
      obtain ⟨j, op, hop, hj⟩ := hl2 ev hev
      exact ⟨j, op, hop, by omega⟩
    rw [this]
    cases txError se i <;> rfl
  · intro j hj
    rw [txError_append]
    have : txError se j = none := by
      apply txError_other_index
      intro ev hev
      obtain ⟨op, hop⟩ := hse ev hev
      exact ⟨i, op, hop, by omega⟩
    rw [this]
    rfl

/-- When the loop of Play runs to its end or breaks, the accumulators hold, in
order, the transactions of the iterations it ran whose execution did not end with
an error; on a received block these are all the transactions. -/
theorem playLoop_done (env : Env) (b : Block) (tl : Int) :
    ∀ (txs : List Transaction) (st : PlayState) (i : Nat),
      (playLoop env b tl st i txs).2 = .done →
      ∃ l k, k ≤ txs.length ∧
        (playLoop env b tl st i txs).1.trace = st.trace ++ l ∧
        (∀ ev ∈ l, ∃ j op, ev = Event.tx j op ∧ i ≤ j) ∧
        (playLoop env b tl st i txs).1.proccessedTx
          = st.proccessedTx ++ okTxs l i (txs.take k) ∧
        (playLoop env b tl st i txs).1.playTxs.UsedTx
          = st.playTxs.UsedTx ++ (okTxs l i (txs.take k)).map (fun t => t.TxHash) ∧
        (playLoop env b tl st i txs).1.playTxs.Lts
          = st.playTxs.Lts ++ (okTxs l i (txs.take k)).map
              (fun t => { Block := b.Header.BlockID, Hash := t.TxHash }) ∧
        (b.GenBlock = false →
          (playLoop env b tl st i txs).1.proccessedTx = st.proccessedTx ++ txs) := by
  intro txs
  induction txs with
  | nil =>
    intro st i _
    exact ⟨[], 0, Nat.le_refl _, by simp [playLoop], by simp, by simp [playLoop, okTxs],
      by simp [playLoop, okTxs], by simp [playLoop, okTxs], fun _ => by simp [playLoop]⟩
  | cons t ts ih =>
    intro st i hdone
    obtain ⟨htr, hidx⟩ := playStep_trace env b tl st i t
    cases hs : playStep env b tl st i t with
    | next st1 =>
      have hst : (playStep env b tl st i t).state = st1 := by rw [hs]; rfl
      rw [hst] at htr
      have hloop : playLoop env b tl st i (t :: ts) = playLoop env b tl st1 (i + 1) ts := by
        simp only [playLoop, hs]
      rw [hloop] at hdone ⊢
      obtain ⟨l2, k, hk, h1, h2, h3, h4, h5, h6⟩ := ih st1 (i + 1) hdone
      obtain ⟨n1, n2, n3⟩ := playStep_next env b tl st i t st1 hs
      obtain ⟨e1, e2⟩ := txError_step_append i ((playStep env b tl st i t).events st) l2 hidx h2
      have hok : okTxs ((playStep env b tl st i t).events st ++ l2) i ((t :: ts).take (k + 1))
          = okTxs ((playStep env b tl st i t).events st) i [t] ++ okTxs l2 (i + 1) (ts.take k) := by
        have hc : okTxs ((playStep env b tl st i t).events st ++ l2) (i + 1) (ts.take k)
            = okTxs l2 (i + 1) (ts.take k) :=
          okTxs_congr _ _ _ _ (fun j hj _ => e2 j hj)
        simp only [List.take_succ_cons, okTxs, e1, hc]
        split <;> simp
      refine ⟨(playStep env b tl st i t).events st ++ l2, k + 1, by simpa using hk, ?_, ?_, ?_, ?_,
        ?_, ?_⟩
      · rw [h1, htr, List.append_assoc]
      · intro ev hev
        rcases List.mem_append.1 hev with h | h
        · obtain ⟨op, hop⟩ := hidx ev h
          exact ⟨i, op, hop, Nat.le_refl _⟩
        · obtain ⟨j, op, hop, hj⟩ := h2 ev h
          exact ⟨j, op, hop, by omega⟩
      · rw [h3, n1, hok, List.append_assoc]
      · rw [h4, n2, hok, List.map_append, List.append_assoc]
      · rw [h5, n3, hok, List.map_append, List.append_assoc]
      · intro hgen
        rw [h6 hgen, playStep_next_received env b tl st i t st1 hgen hs]
        simp
    | brk st1 =>
      have hst : (playStep env b tl st i t).state = st1 := by rw [hs]; rfl
      rw [hst] at htr
      have hloop : playLoop env b tl st i (t :: ts) = (st1, .done) := by
        simp only [playLoop, hs]
      obtain ⟨b1, b2, b3⟩ := playStep_brk env b tl st i t st1 hs
      rw [hloop]
      refine ⟨(playStep env b tl st i t).events st, 0, Nat.zero_le _, htr, ?_, ?_, ?_, ?_, ?_⟩
      · intro ev hev
        obtain ⟨op, hop⟩ := hidx ev hev
        exact ⟨i, op, hop, Nat.le_refl _⟩
      · simp [okTxs, b1]
      · simp [okTxs, b2]
      · simp [okTxs, b2]
      · intro hgen
        rw [hgen] at b3
        cases b3
    | ret st1 e =>
      simp only [playLoop, hs] at hdone
      cases hdone
    | panic st1 =>
      simp only [playLoop, hs] at hdone
      cases hdone

/-- A transaction kept by okTxs sits at an index for which the events report no
error. -/
theorem okTxs_mem (evs : Trace) :
    ∀ (l : List Transaction) (i : Nat) (t : Transaction), t ∈ okTxs evs i l →
      ∃ j, l[j]? = some t ∧ txError evs (i + j) = none := by
  intro l
  induction l with
  | nil => intro i t h; simp [okTxs] at h
  | cons t0 ts ih =>
    intro i t h
    simp only [okTxs] at h
    have hrest : t ∈ okTxs evs (i + 1) ts → ∃ j, (t0 :: ts)[j]? = some t ∧ txError evs (i + j) = none := by
      intro h1
      obtain ⟨j, hj1, hj2⟩ := ih (i + 1) t h1
      refine ⟨j + 1, by simpa using hj1, ?_⟩
      rw [← hj2]
      congr 1
      omega
    split at h
    · rename_i h0
      rcases List.mem_cons.1 h with h1 | h1
      · exact ⟨0, by simp [h1], by simpa using h0⟩
      · exact hrest h1
    · exact hrest h

/-- The calls of an iteration the loop reached are among the calls of the loop. -/
theorem playReach_events_sub (env : Env) (b : Block) (tl : Int) (st : PlayState) (i : Nat)
    (txs : List Transaction) (k : Nat) (st1 : PlayState) (t : Transaction) (l : Trace)
    (hr : playReach env b tl st i txs k = some st1) (ht : txs[k]? = some t)
    (hl : (playLoop env b tl st i txs).1.trace = st.trace ++ l) :
    ∀ ev ∈ (playStep env b tl st1 (i + k) t).events st1, ev ∈ l := by
  obtain ⟨_, lr, hlr, _⟩ := playReach_spec env b tl k st i txs st1 hr
  have hloop := playReach_loop env b tl k st i txs st1 hr
  have hdrop : txs.drop k = t :: txs.drop (k + 1) := by
    have hk : k < txs.length := by
      rcases Nat.lt_or_ge k txs.length with h | h
      · exact h
      · rw [List.getElem?_eq_none h] at ht
        cases ht
    rw [List.getElem?_eq_getElem hk] at ht
    cases ht
    exact List.drop_eq_getElem_cons hk
  rw [hdrop] at hloop
  obtain ⟨lrest, hrest, _⟩ := playLoop_cons_trace_aux env b tl st1 (i + k) t (txs.drop (k + 1))
  rw [← hloop, hl, hlr] at hrest
  have : l = lr ++ (playStep env b tl st1 (i + k) t).events st1 ++ lrest := by
    have h2 : st.trace ++ l
        = st.trace ++ (lr ++ (playStep env b tl st1 (i + k) t).events st1 ++ lrest) := by
      rw [hrest]
      simp
    exact List.append_cancel_left h2
  intro ev hev
  rw [this]
  simp [hev]

/-- An iteration that marks its transaction bad does so with the hash of that
transaction, after the execution of the transaction ended with an error. -/
theorem playStep_markbad (env : Env) (b : Block) (tl : Int) (st : PlayState) (i : Nat)
    (t : Transaction) (h : Bytes) (m : String)
    (hmem : Event.tx i (.markTransactionBad h m) ∈ (playStep env b tl st i t).events st) :
    h = t.TxHash ∧
    ∃ e, Event.tx i (.play (some e)) ∈ (playStep env b tl st i t).events st ∨
      Event.tx i (.checkLimit (some e)) ∈ (playStep env b tl st i t).events st := by
  rcases playStep_cases env b tl st i t with
    ⟨e, st1', _, hs, _, _, _, hev⟩ | ⟨res, st3, le, _, htr, hle, hp, hq, _, _, hc⟩
  · rw [hev] at hmem
    simp at hmem
  · have hnle : Event.tx i (.markTransactionBad h m) ∉ le := by
      intro hin
      obtain ⟨r, hr | hr⟩ := hle _ hin
      · cases hr
      · cases hr
    rcases hc with ⟨e, hiff, hs, hev⟩ | ⟨hno, hs, hev⟩
    · rw [hev] at hmem ⊢
      rcases List.mem_cons.1 hmem with h1 | h1
      · cases h1
      · rcases List.mem_append.1 h1 with h2 | h2
        · exact absurd h2 hnle
        · constructor
          · rcases playUndo_cases env b st3 i t res e with ⟨_, hPe⟩ | ⟨vm1, _, hFe⟩
            · rw [hPe] at h2
              simp at h2
            · obtain ⟨_, _, _, F4, _⟩ := playFailed_cases env b { st3 with vm := vm1 } i t res e
              rw [← hFe] at F4
              exact (F4 h m h2).1
          · refine ⟨e, ?_⟩
            rcases (hiff e).2 rfl with h3 | h3
            · left
              exact List.mem_cons_of_mem _ (List.mem_append_left _ h3)
            · right
              exact List.mem_cons_of_mem _ (List.mem_append_left _ h3)
    · rw [hev] at hmem
      rcases List.mem_cons.1 hmem with h1 | h1
      · cases h1
      · rcases List.mem_append.1 h1 with h2 | h2
        · exact absurd h2 hnle
        · obtain ⟨op, hop, hd⟩ := (playSucceeded_spec env b st3 i t res).2.1 _ h2
          cases hop
          cases hd

/-- A transaction that Play marked bad in its loop: its execution ended with an
error, and the hash marked is its own. -/
theorem play_markbad (env : Env) (tr : Trace) (vm : VM) (b : Block) (i : Nat) (h : Bytes)
    (m : String) (hmem : Event.tx i (.markTransactionBad h m) ∈ b.playEvents env tr vm) :
    txError (b.playEvents env tr vm) i ≠ none ∧
    ∃ t, b.Transactions[i]? = some t ∧ h = t.TxHash := by
  obtain ⟨l, hl, _⟩ := playLoop_trace env b (b.timeLimit env tr) b.Transactions (b.playInit tr vm) 0
  have hl' : (playLoop env b (b.timeLimit env tr) (b.playInit tr vm) 0 b.Transactions).1.trace
      = tr ++ l := hl
  have hev := play_events env tr vm b l hl'
  have hin : Event.tx i (.markTransactionBad h m) ∈ l := by
    rw [hev] at hmem
    rcases List.mem_append.1 hmem with h1 | h1
    · exact h1
    · simp at h1
  obtain ⟨_, st1, t, hr, ht, hstep⟩ :=
    playLoop_reach env b (b.timeLimit env tr) b.Transactions (b.playInit tr vm) 0 l hl _ _ hin
  simp only [Nat.sub_zero] at hr ht
  obtain ⟨hh, e, hfail⟩ := playStep_markbad env b (b.timeLimit env tr) st1 i t h m hstep
  have hsub := playReach_events_sub env b (b.timeLimit env tr) (b.playInit tr vm) 0
    b.Transactions i st1 t l hr ht hl
  simp only [Nat.zero_add] at hsub
  refine ⟨?_, t, ht, hh⟩
  intro hnone
  rw [txError_eq_none] at hnone
  rcases hfail with hf | hf
  · have := hnone _ (by rw [hev]; exact List.mem_append_left _ (hsub _ hf))
    simp [Event.failure] at this
  · have := hnone _ (by rw [hev]; exact List.mem_append_left _ (hsub _ hf))
    simp [Event.failure] at this

/-- C14: whenever Block.Play returns nil, the accumulators handed to AfterPlayTxs
hold, for the transactions of b.Transactions as Play leaves it and in the same
order, one LogTransaction entry each with Block = Header.BlockID and Hash = the
TxHash of the transaction, and UsedTx is the list of these hashes; AfterPlayTxs
was called once, with these accumulators.  The transactions Play leaves are those
among the first k of the block, for some k, whose execution did not end with an
error; a transaction that was marked bad is one whose execution ended with an
error, so it contributes no entry; and when the hashes of the block are pairwise
different, no hash that was marked bad is in UsedTx or in an entry of Lts. -/
theorem play_nil_accumulators (env : Env) (tr : Trace) (vm : VM) (b : Block)
    (hret : (b.Play env tr vm).ret = .ret none) :
    (b.Play env tr vm).playTxs.Lts
      = (b.Play env tr vm).b.Transactions.map
          (fun t => { Block := b.Header.BlockID, Hash := t.TxHash }) ∧
    (b.Play env tr vm).playTxs.UsedTx
      = (b.Play env tr vm).b.Transactions.map (fun t => t.TxHash) ∧
    Event.afterPlayTxs b.Header.BlockID (b.Play env tr vm).playTxs none
      ∈ b.playEvents env tr vm ∧
    (∀ id ptx r, Event.afterPlayTxs id ptx r ∈ b.playEvents env tr vm →
      id = b.Header.BlockID ∧ ptx = (b.Play env tr vm).playTxs ∧ r = none) ∧
    (∃ k, k ≤ b.Transactions.length ∧
      (b.Play env tr vm).b.Transactions
        = okTxs (b.playEvents env tr vm) 0 (b.Transactions.take k)) ∧
    (b.GenBlock = false → (b.Play env tr vm).b.Transactions = b.Transactions) ∧
    (∀ i h m, Event.tx i (.markTransactionBad h m) ∈ b.playEvents env tr vm →
      txError (b.playEvents env tr vm) i ≠ none ∧
      ∃ t, b.Transactions[i]? = some t ∧ h = t.TxHash) ∧
    ((b.Transactions.map (fun t => t.TxHash)).Nodup →
      ∀ i h m, Event.tx i (.markTransactionBad h m) ∈ b.playEvents env tr vm →
        h ∉ (b.Play env tr vm).playTxs.UsedTx ∧
        ∀ lt ∈ (b.Play env tr vm).playTxs.Lts, lt.Hash ≠ h) := by
  -- the loop was left by running to its end or by a break
  have hexit : (playLoop env b (b.timeLimit env tr) (b.playInit tr vm) 0 b.Transactions).2
      = .done := by
    obtain ⟨hpan, hretd⟩ := play_ret_of_exit env tr vm b
    cases hx : (playLoop env b (b.timeLimit env tr) (b.playInit tr vm) 0 b.Transactions).2 with
    | done => rfl
    | returned err =>
      obtain ⟨e1, h1⟩ := hretd err hx
      rw [h1] at hret
      cases hret
    | panicked =>
      rw [hpan hx] at hret
      cases hret
  have hafter : env.AfterPlayTxs
      (playLoop env b (b.timeLimit env tr) (b.playInit tr vm) 0 b.Transactions).1.trace
      b.Header.BlockID
      (playLoop env b (b.timeLimit env tr) (b.playInit tr vm) 0 b.Transactions).1.playTxs = none := by
    have h := hret
    simp only [Block.Play, hexit] at h
    cases hr : env.AfterPlayTxs
      (playLoop env b (b.timeLimit env tr) (b.playInit tr vm) 0 b.Transactions).1.trace
      b.Header.BlockID
      (playLoop env b (b.timeLimit env tr) (b.playInit tr vm) 0 b.Transactions).1.playTxs with
    | none => rfl
    | some e =>
      rw [hr] at h
      cases h
  obtain ⟨l, k, hk, hl, hidx, hp0, hu0, hlts0, hrec0⟩ :=
    playLoop_done env b (b.timeLimit env tr) b.Transactions (b.playInit tr vm) 0 hexit
  have hp : (playLoop env b (b.timeLimit env tr) (b.playInit tr vm) 0 b.Transactions).1.proccessedTx
      = okTxs l 0 (b.Transactions.take k) := hp0
  have hu : (playLoop env b (b.timeLimit env tr) (b.playInit tr vm) 0 b.Transactions).1.playTxs.UsedTx
      = (okTxs l 0 (b.Transactions.take k)).map (fun t => t.TxHash) := hu0
  have hlts : (playLoop env b (b.timeLimit env tr) (b.playInit tr vm) 0 b.Transactions).1.playTxs.Lts
      = (okTxs l 0 (b.Transactions.take k)).map
          (fun t => { Block := b.Header.BlockID, Hash := t.TxHash }) := hlts0
  have hrec : b.GenBlock = false →
      (playLoop env b (b.timeLimit env tr) (b.playInit tr vm) 0 b.Transactions).1.proccessedTx
        = b.Transactions := hrec0
  have hl' : (playLoop env b (b.timeLimit env tr) (b.playInit tr vm) 0 b.Transactions).1.trace
      = tr ++ l := hl
  have hev := play_events env tr vm b l hl'
  rw [hafter] at hev
  have hptx : (b.Play env tr vm).playTxs
      = (playLoop env b (b.timeLimit env tr) (b.playInit tr vm) 0 b.Transactions).1.playTxs := rfl
  -- the events of the loop and of Play report the same errors
  have hok : okTxs l 0 (b.Transactions.take k)
      = okTxs (b.playEvents env tr vm) 0 (b.Transactions.take k) := by
    apply okTxs_congr
    intro j _ _
    rw [hev, txError_append]
    cases txError l j <;> rfl
  -- the transactions Play leaves are those of the accumulator proccessedTx
  have htxs : (b.Play env tr vm).b.Transactions
      = okTxs (b.playEvents env tr vm) 0 (b.Transactions.take k) := by
    cases hg : b.GenBlock with
    | true =>
      simp only [Block.Play, hg, if_true]
      rw [hp, hok]
    | false =>
      have h1 : (b.Play env tr vm).b.Transactions = b.Transactions := by
        simp only [Block.Play, hg]
        rfl
      rw [h1, ← hok, ← hp, hrec hg]
  have hused : (b.Play env tr vm).playTxs.UsedTx
      = (b.Play env tr vm).b.Transactions.map (fun t => t.TxHash) := by
    rw [hptx, hu, htxs, hok]
  have hlogged : (b.Play env tr vm).playTxs.Lts
      = (b.Play env tr vm).b.Transactions.map
          (fun t => { Block := b.Header.BlockID, Hash := t.TxHash }) := by
    rw [hptx, hlts, htxs, hok]
  have hnodup : (b.Transactions.map (fun t => t.TxHash)).Nodup →
      ∀ i h m, Event.tx i (.markTransactionBad h m) ∈ b.playEvents env tr vm →
        h ∉ (b.Play env tr vm).playTxs.UsedTx := by
    intro hnd i h m hmem hin
    obtain ⟨hne, t, ht, hh⟩ := play_markbad env tr vm b i h m hmem
    rw [hused, htxs] at hin
    obtain ⟨t1, ht1, hh1⟩ := List.mem_map.1 hin
    obtain ⟨j, hj, hjn⟩ := okTxs_mem _ _ _ _ ht1
    rw [Nat.zero_add] at hjn
    have hj' : b.Transactions[j]? = some t1 := by
      rw [List.getElem?_take] at hj
      split at hj
      · exact hj
      · cases hj
    have hij : i = j := by
      have hi1 : (b.Transactions.map (fun t => t.TxHash))[i]? = some h := by
        rw [List.getElem?_map, ht, hh]; rfl
      have hj1 : (b.Transactions.map (fun t => t.TxHash))[j]? = some h := by
        rw [List.getElem?_map, hj', ← hh1]; rfl
      have hil : i < (b.Transactions.map (fun t => t.TxHash)).length := by
        rcases Nat.lt_or_ge i (b.Transactions.map (fun t => t.TxHash)).length with h0 | h0
        · exact h0
        · rw [List.getElem?_eq_none h0] at hi1
          cases hi1
      have hjl : j < (b.Transactions.map (fun t => t.TxHash)).length := by
        rcases Nat.lt_or_ge j (b.Transactions.map (fun t => t.TxHash)).length with h0 | h0
        · exact h0
        · rw [List.getElem?_eq_none h0] at hj1
          cases hj1
      rw [List.getElem?_eq_getElem hil] at hi1
      rw [List.getElem?_eq_getElem hjl] at hj1
      exact (List.Nodup.getElem_inj_iff hnd).1 (by
        rw [Option.some.inj hi1, Option.some.inj hj1])
    rw [hij] at hne
    exact hne hjn
  refine ⟨hlogged, hused, ?_, ?_, ⟨k, hk, htxs⟩, ?_, ?_, ?_⟩
  · rw [hev]
    exact List.mem_append_right _ (List.mem_singleton.2 rfl)
  · intro id ptx r hmem
    rw [hev] at hmem
    rcases List.mem_append.1 hmem with h1 | h1
    · obtain ⟨j, op, hop, _⟩ := hidx _ h1
      cases hop
    · have := List.mem_singleton.1 h1
      cases this
      exact ⟨rfl, rfl, rfl⟩
  · intro hg
    simp only [Block.Play, hg]
    rfl
  · intro i h m hmem
    exact play_markbad env tr vm b i h m hmem
  · intro hnd i h m hmem
    refine ⟨hnodup hnd i h m hmem, ?_⟩
    intro lt hlt heq
    apply hnodup hnd i h m hmem
    rw [hused]
    rw [hlogged] at hlt
    obtain ⟨t1, ht1, hlt1⟩ := List.mem_map.1 hlt
    rw [← heq, ← hlt1]
    exact List.mem_map.2 ⟨t1, ht1, rfl⟩

/-- C14 at a generated block of three candidates whose second fails and is marked
bad: Play returns nil, and the accumulators log the first and the third. -/
theorem play_nil_accumulators_witness :
    ((sampleGenBlock [sampleTx 1 1, sampleTx 2 2, sampleTx 3 3]).Play
      (failingEnv 1 (.errorf "boom") none) [] sampleVM).ret = .ret none ∧
    ((sampleGenBlock [sampleTx 1 1, sampleTx 2 2, sampleTx 3 3]).Play
      (failingEnv 1 (.errorf "boom") none) [] sampleVM).playTxs.UsedTx = [[1], [3]] ∧
    ((sampleGenBlock [sampleTx 1 1, sampleTx 2 2, sampleTx 3 3]).Play
      (failingEnv 1 (.errorf "boom") none) [] sampleVM).playTxs.Lts
      = ((sampleGenBlock [sampleTx 1 1, sampleTx 2 2, sampleTx 3 3]).Play
          (failingEnv 1 (.errorf "boom") none) [] sampleVM).b.Transactions.map
          (fun t => { Block := (sampleGenBlock [sampleTx 1 1, sampleTx 2 2, sampleTx 3 3]).Header.BlockID,
                      Hash := t.TxHash }) ∧
    Event.tx 1 (.markTransactionBad [2] "boom")
      ∈ (sampleGenBlock [sampleTx 1 1, sampleTx 2 2, sampleTx 3 3]).playEvents
          (failingEnv 1 (.errorf "boom") none) [] sampleVM :=
  ⟨by decide, by decide,
    (play_nil_accumulators (failingEnv 1 (.errorf "boom") none) [] sampleVM
      (sampleGenBlock [sampleTx 1 1, sampleTx 2 2, sampleTx 3 3]) (by decide)).1,
    by decide⟩

/-- The calls of PlaySafe on a received block whose only transaction succeeds and
sets SysUpdate: Play leaves b.SysUpdate = true, PlaySafe clears the flag (block.go
116-123) and returns nil after the commit, and the block package itself makes no
call of syspar.SysUpdate on this path.  What t.Play does to the parameter cache is
not part of this model. -/
theorem playSafe_commit_skips_sysUpdate :
    ((sampleBlock 5 900 (some (sampleHeader 4 800)) [sampleTx 1 1]).Play sysUpdateEnv
      [Event.startTransaction none] sampleVM).b.SysUpdate = true ∧
    ((sampleBlock 5 900 (some (sampleHeader 4 800)) [sampleTx 1 1]).PlaySafe sysUpdateEnv
      [] sampleVM).ret = .ret none ∧
    (sampleBlock 5 900 (some (sampleHeader 4 800)) [sampleTx 1 1]).playSafeEvents sysUpdateEnv
      [] sampleVM
      = [Event.startTransaction none, Event.tx 0 (.savepoint none), Event.tx 0 (.play none),
          Event.tx 0 (.checkLimit none), Event.tx 0 (.releaseSavepoint none),
          Event.tx 0 (.setTransactionStatusBlockMsg 5 "ok" [1] none),
          Event.afterPlayTxs 5 ⟨[[1]], [⟨5, [1]⟩], []⟩ none,
          Event.updBlockInfo 5 none, Event.insertIntoBlockchain 5 none, Event.dbCommit none] ∧
    (∀ i r, Event.tx i (.sysUpdate r) ∉
      (sampleBlock 5 900 (some (sampleHeader 4 800)) [sampleTx 1 1]).playSafeEvents sysUpdateEnv
        [] sampleVM) ∧
    ((sampleBlock 5 900 (some (sampleHeader 4 800)) [sampleTx 1 1]).PlaySafe sysUpdateEnv
      [] sampleVM).b.SysUpdate = false := by
  refine ⟨by decide, by decide, by decide, ?_, by decide⟩
  intro i r h
  have hev : (sampleBlock 5 900 (some (sampleHeader 4 800)) [sampleTx 1 1]).playSafeEvents
      sysUpdateEnv [] sampleVM
      = [Event.startTransaction none, Event.tx 0 (.savepoint none), Event.tx 0 (.play none),
          Event.tx 0 (.checkLimit none), Event.tx 0 (.releaseSavepoint none),
          Event.tx 0 (.setTransactionStatusBlockMsg 5 "ok" [1] none),
          Event.afterPlayTxs 5 ⟨[[1]], [⟨5, [1]⟩], []⟩ none,
          Event.updBlockInfo 5 none, Event.insertIntoBlockchain 5 none, Event.dbCommit none] := by
    decide
  rw [hev] at h
  simp at h

/-! ## The undo of the VM registrations -/

theorem mapLookup_cons (p : String × Option Nat) (ps : List (String × Option Nat)) (n : String) :
    mapLookup (p :: ps) n = if p.1 = n then some p.2 else mapLookup ps n := by
  by_cases h : p.1 = n
  · simp [mapLookup, List.find?_cons, h]
  · have h' : (p.1 == n) = false := by simpa using h
    simp [mapLookup, List.find?_cons, h, h']

theorem mapDelete_cons (p : String × Option Nat) (ps : List (String × Option Nat)) (k : String) :
    mapDelete (p :: ps) k = if p.1 = k then mapDelete ps k else p :: mapDelete ps k := by
  by_cases h : p.1 = k
  · simp [mapDelete, List.filter_cons, h]
  · simp [mapDelete, List.filter_cons, h]

theorem mapLookup_mapDelete (m : List (String × Option Nat)) (k n : String) :
    mapLookup (mapDelete m k) n = if n = k then none else mapLookup m n := by
  induction m with
  | nil => simp [mapLookup, mapDelete]
  | cons p ps ih =>
    rw [mapDelete_cons]
    by_cases hpk : p.1 = k
    · rw [if_pos hpk, ih, mapLookup_cons]
      by_cases hnk : n = k
      · simp [hnk]
      · have : ¬ p.1 = n := fun h => hnk (h.symm.trans hpk)
        simp [hnk, this]
    · rw [if_neg hpk, mapLookup_cons, ih, mapLookup_cons]
      by_cases hpn : p.1 = n
      · have : ¬ n = k := fun h => hpk (hpn.trans h)
        simp [hpn, this]
      · simp [hpn]

theorem mapLookup_mapSet (m : List (String × Option Nat)) (k n : String) (v : Option Nat) :
    mapLookup (mapSet m k v) n = if n = k then some v else mapLookup m n := by
  unfold mapSet
  rw [mapLookup_cons, mapLookup_mapDelete]
  by_cases hnk : n = k
  · simp [hnk]
  · have : ¬ k = n := fun h => hnk h.symm
    simp [hnk, this]

theorem list_set_getElem (l : List Nat) (i : Nat) (h : i < l.length) : l.set i l[i] = l := by
  apply List.ext_getElem?
  intro j
  rw [List.getElem?_set]
  by_cases hij : i = j
  · subst hij
    simp [h]
  · simp [hij]

theorem flushRollbackList_append (vm : VM) (l1 l2 : List FlushInfo) :
    flushRollbackList vm (l1 ++ l2)
      = match flushRollbackList vm l1 with
        | .panic => .panic
        | .ret vm1 => flushRollbackList vm1 l2 := by
  induction l1 generalizing vm with
  | nil => simp [flushRollbackList]
  | cons f fs ih =>
    simp only [List.cons_append, flushRollbackList]
    cases flushRollbackOne vm f with
    | panic => rfl
    | ret vm1 => exact ih vm1

/-- Undoing the record of one registration, on a VM that agrees with the VM after
the registration, gives a VM that agrees with the VM before it. -/
theorem register_undo (vm vm1 : VM) (r : Registration) (f : FlushInfo)
    (h : register vm r = some (vm1, f)) (w : VM) (hc : w.Children = vm1.Children)
    (ho : ∀ n, mapLookup w.Objects n = mapLookup vm1.Objects n) :
    ∃ w1, flushRollbackOne w f = .ret w1 ∧ w1.Children = vm.Children ∧
      ∀ n, mapLookup w1.Objects n = mapLookup vm.Objects n := by
  cases r with
  | append child name info =>
    simp only [register] at h
    cases hl : mapLookup vm.Objects name with
    | some v =>
      rw [hl] at h
      cases h
    | none =>
      rw [hl] at h
      simp only [Option.some.injEq, Prod.mk.injEq] at h
      obtain ⟨h1, h2⟩ := h
      subst h1
      subst h2
      simp only at hc ho
      have hlen : w.Children.length = vm.Children.length + 1 := by
        rw [hc]; simp
      have hid : uint32 ((w.Children.length : Int) - 1) = uint32 vm.Children.length := by
        rw [hlen]
        congr 1
        push_cast
        ring
      refine ⟨{ Children := w.Children.take (w.Children.length - 1),
                Objects := mapDelete w.Objects name }, ?_, ?_, ?_⟩
      · simp only [flushRollbackOne, hid, ne_eq, not_true_eq_false, if_false]
        rw [if_neg (by omega)]
      · simp only [hlen, hc]
        simp
      · intro n
        simp only [mapLookup_mapDelete, ho, mapLookup_mapSet]
        by_cases hn : n = name
        · simp [hn, hl]
        · simp [hn]
  | replace id child name info =>
    simp only [register] at h
    cases hch : vm.Children[id]? with
    | none =>
      rw [hch] at h
      cases h
    | some old =>
      cases hl : mapLookup vm.Objects name with
      | none =>
        rw [hch, hl] at h
        cases h
      | some oldInfo =>
        rw [hch, hl] at h
        simp only at h
        by_cases hid : id < 4294967296
        · rw [if_pos hid] at h
          simp only [Option.some.injEq, Prod.mk.injEq] at h
          obtain ⟨h1, h2⟩ := h
          subst h1
          subst h2
          simp only at hc ho
          have hlt : id < vm.Children.length := by
            rcases Nat.lt_or_ge id vm.Children.length with h0 | h0
            · exact h0
            · rw [List.getElem?_eq_none h0] at hch
              cases hch
          have hlt' : id < w.Children.length := by
            rw [hc]; simpa using hlt
          refine ⟨{ Children := w.Children.set id old,
                    Objects := mapSet w.Objects name oldInfo }, ?_, ?_, ?_⟩
          · simp only [flushRollbackOne]
            rw [if_pos hlt']
          · simp only [hc, List.set_set]
            rw [List.getElem?_eq_getElem hlt] at hch
            cases hch
            exact list_set_getElem vm.Children id hlt
          · intro n
            simp only [mapLookup_mapSet, ho]
            by_cases hn : n = name
            · simp [hn, hl]
            · simp [hn]
        · rw [if_neg hid] at h
          cases h

/-- Undoing the flush list of a run of registrations from the last record to the
first, on a VM that agrees with the VM after the run, gives a VM that agrees with
the VM before the run. -/
theorem registerAll_undo :
    ∀ (regs : List Registration) (vm vm2 : VM) (flush : List FlushInfo),
      registerAll vm regs = some (vm2, flush) →
      ∀ w : VM, w.Children = vm2.Children →
        (∀ n, mapLookup w.Objects n = mapLookup vm2.Objects n) →
        ∃ w1, flushRollback w flush = .ret w1 ∧ w1.Children = vm.Children ∧
          ∀ n, mapLookup w1.Objects n = mapLookup vm.Objects n := by
  intro regs
  induction regs with
  | nil =>
    intro vm vm2 flush h w hc ho
    simp only [registerAll, Option.some.injEq, Prod.mk.injEq] at h
    obtain ⟨h1, h2⟩ := h
    subst h1
    subst h2
    exact ⟨w, rfl, hc, ho⟩
  | cons r rs ih =>
    intro vm vm2 flush h w hc ho
    simp only [registerAll] at h
    cases hr : register vm r with
    | none =>
      rw [hr] at h
      cases h
    | some p =>
      obtain ⟨vm1, f⟩ := p
      rw [hr] at h
      simp only at h
      cases hrs : registerAll vm1 rs with
      | none =>
        rw [hrs] at h
        cases h
      | some q =>
        obtain ⟨vm3, fs⟩ := q
        rw [hrs] at h
        simp only [Option.some.injEq, Prod.mk.injEq] at h
        obtain ⟨h1, h2⟩ := h
        subst h1
        subst h2
        obtain ⟨w1, hw1, hc1, ho1⟩ := ih vm1 vm3 fs hrs w hc ho
        obtain ⟨w2, hw2, hc2, ho2⟩ := register_undo vm vm1 r f hr w1 hc1 ho1
        refine ⟨w2, ?_, hc2, ho2⟩
        unfold flushRollback at hw1 ⊢
        rw [List.reverse_cons, flushRollbackList_append, hw1]
        simp only [flushRollbackList, hw2]

/-- C20: if the flush list of a failed transaction records, in order, each
registration it made on the VM (an append under a new name recorded with
Prev = nil, ID = the index of the appended child and Name; a replacement recorded
with ID, Name, the previous child Prev and the previous object entry Info), then
processing the list from last to first does not panic and leaves VM.Children equal
to its value before the transaction ran and VM.Objects with the same entry for
every name; the error branch of the loop of Play goes on with that VM.  A record
with Prev = nil whose ID is not the last index of Children, the index taken as a
uint32 as the code compares it, changes nothing; on a VM with at least one and at
most 2^32 children this is the last index itself. -/
theorem flush_undo_restores (vm vm1 : VM) (regs : List Registration) (flush : List FlushInfo)
    (w : VM) (f : FlushInfo) (h : registerAll vm regs = some (vm1, flush)) :
    (∃ vm2, flushRollback vm1 flush = .ret vm2 ∧ vm2.Children = vm.Children ∧
      (∀ n, mapLookup vm2.Objects n = mapLookup vm.Objects n) ∧
      ∀ (env : Env) (b : Block) (st : PlayState) (i : Nat) (t : Transaction) (res : TxPlayResult)
        (err : Err), st.vm = vm1 → res.flush = flush →
        playUndo env b st i t res err = playFailed env b { st with vm := vm2 } i t res err) ∧
    (f.Prev = none → f.ID ≠ uint32 ((w.Children.length : Int) - 1) →
      flushRollbackOne w f = .ret w) ∧
    (f.Prev = none → 0 < w.Children.length → w.Children.length ≤ 4294967296 →
      (f.ID : Int) ≠ (w.Children.length : Int) - 1 → flushRollbackOne w f = .ret w) := by
  have hcode : f.Prev = none → f.ID ≠ uint32 ((w.Children.length : Int) - 1) →
      flushRollbackOne w f = .ret w := by
    intro hprev hid
    simp only [flushRollbackOne, hprev]
    rw [if_pos hid]
  refine ⟨?_, hcode, ?_⟩
  · obtain ⟨vm2, h1, h2, h3⟩ := registerAll_undo regs vm vm1 flush h vm1 rfl (fun _ => rfl)
    refine ⟨vm2, h1, h2, h3, ?_⟩
    intro env b st i t res err hvm hfl
    unfold playUndo
    rw [hvm, hfl, h1]
  · intro hprev hpos hle hne
    have hu : uint32 ((w.Children.length : Int) - 1) = w.Children.length - 1 := by
      unfold uint32
      have h0 : (0 : Int) ≤ (w.Children.length : Int) - 1 := by omega
      have h1 : (w.Children.length : Int) - 1 < 4294967296 := by omega
      rw [Int.emod_eq_of_lt h0 h1]
      omega
    apply hcode hprev
    rw [hu]
    omega

/-- C20 at a transaction that appended a child under the new name b and then
replaced the child in slot 0 and the entry of the name a. -/
theorem flush_undo_restores_witness :
    registerAll sampleVM [.append 12 "b" (some 2), .replace 0 13 "a" (some 3)]
      = some (VM.mk [13, 11, 12] [("a", some 3), ("b", some 2)],
          [FlushInfo.mk 2 none none "b", FlushInfo.mk 0 (some 10) (some 1) "a"]) ∧
    flushRollback (VM.mk [13, 11, 12] [("a", some 3), ("b", some 2)])
      [FlushInfo.mk 2 none none "b", FlushInfo.mk 0 (some 10) (some 1) "a"] = .ret sampleVM ∧
    flushRollbackOne sampleVM (FlushInfo.mk 0 none none "c") = .ret sampleVM ∧
    (∃ vm2, flushRollback (VM.mk [13, 11, 12] [("a", some 3), ("b", some 2)])
        [FlushInfo.mk 2 none none "b", FlushInfo.mk 0 (some 10) (some 1) "a"] = .ret vm2 ∧
      vm2.Children = sampleVM.Children ∧
      (∀ n, mapLookup vm2.Objects n = mapLookup sampleVM.Objects n) ∧
      ∀ (env : Env) (b : Block) (st : PlayState) (i : Nat) (t : Transaction) (res : TxPlayResult)
        (err : Err), st.vm = VM.mk [13, 11, 12] [("a", some 3), ("b", some 2)] →
        res.flush = [FlushInfo.mk 2 none none "b", FlushInfo.mk 0 (some 10) (some 1) "a"] →
        playUndo env b st i t res err = playFailed env b { st with vm := vm2 } i t res err) :=
  ⟨by decide, by decide, by decide,
    (flush_undo_restores sampleVM (VM.mk [13, 11, 12] [("a", some 3), ("b", some 2)])
      [.append 12 "b" (some 2), .replace 0 13 "a" (some 3)]
      [FlushInfo.mk 2 none none "b", FlushInfo.mk 0 (some 10) (some 1) "a"]
      sampleVM (FlushInfo.mk 0 none none "c") (by decide)).1⟩

/-! ## The parameter cache after a refresh -/

theorem kvGet_cons {κ ν : Type} [DecidableEq κ] (p : κ × ν) (ps : List (κ × ν)) (n : κ) :
    kvGet (p :: ps) n = if p.1 = n then some p.2 else kvGet ps n := by
  by_cases h : p.1 = n
  · simp [kvGet, List.find?_cons, h]
  · simp [kvGet, List.find?_cons, h]

theorem kvGet_filter {κ ν : Type} [DecidableEq κ] (m : List (κ × ν)) (k n : κ) :
    kvGet (m.filter (fun p => decide (p.1 ≠ k))) n = if n = k then none else kvGet m n := by
  induction m with
  | nil => simp [kvGet]
  | cons p ps ih =>
    by_cases hpk : p.1 = k
    · rw [List.filter_cons_of_neg (by simpa using hpk), ih, kvGet_cons]
      by_cases hnk : n = k
      · simp [hnk]
      · have : ¬ p.1 = n := fun h => hnk (h.symm.trans hpk)
        simp [hnk, this]
    · rw [List.filter_cons_of_pos (by simpa using hpk), kvGet_cons, ih, kvGet_cons]
      by_cases hpn : p.1 = n
      · have : ¬ n = k := fun h => hpk (hpn.trans h)
        simp [hpn, this]
      · simp [hpn]

theorem kvGet_kvSet {κ ν : Type} [DecidableEq κ] (m : List (κ × ν)) (k n : κ) (v : ν) :
    kvGet (kvSet m k v) n = if n = k then some v else kvGet m n := by
  unfold kvSet
  rw [kvGet_cons, kvGet_filter]
  by_cases hnk : n = k
  · simp [hnk]
  · have : ¬ k = n := fun h => hnk h.symm
    simp [hnk, this]

/-- Storing rows in the cache: a name gets the value of its last row; a name
without a row keeps its entry. -/
theorem kvGet_cacheRows (rows : List (String × String)) :
    ∀ (cache : List (String × String)) (n : String),
      kvGet (cacheRows rows cache) n = (kvGet rows.reverse n).or (kvGet cache n) := by
  induction rows with
  | nil => intro cache n; simp [cacheRows, kvGet]
  | cons p ps ih =>
    intro cache n
    simp only [cacheRows]
    rw [ih, kvGet_kvSet]
    have happ : kvGet ((p :: ps).reverse) n = (kvGet ps.reverse n).or (kvGet [p] n) := by
      simp only [kvGet, List.reverse_cons, List.find?_append]
      cases List.find? (fun p => decide (p.1 = n)) ps.reverse <;> simp
    rw [happ, kvGet_cons]
    cases kvGet ps.reverse n with
    | some v => simp
    | none =>
      by_cases hpn : p.1 = n
      · simp [hpn, kvGet]
      · have : ¬ n = p.1 := fun h => hpn h.symm
        simp [hpn, this, kvGet]

theorem kvGet_eq_none {κ ν : Type} [DecidableEq κ] (m : List (κ × ν)) (n : κ) :
    kvGet m n = none ↔ ∀ p ∈ m, p.1 ≠ n := by
  simp [kvGet]

theorem kvGet_of_mem_nodup {κ ν : Type} [DecidableEq κ] (m : List (κ × ν)) (n : κ) (v : ν)
    (hmem : (n, v) ∈ m) (hnd : (m.map Prod.fst).Nodup) : kvGet m n = some v := by
  induction m with
  | nil => simp at hmem
  | cons p ps ih =>
    rw [kvGet_cons]
    simp only [List.map_cons, List.nodup_cons] at hnd
    rcases List.mem_cons.1 hmem with h | h
    · subst h
      simp
    · have hne : ¬ p.1 = n := by
        intro hp
        apply hnd.1
        rw [hp]
        exact List.mem_map.2 ⟨(n, v), h, rfl⟩
      rw [if_neg hne]
      exact ih h hnd.2

theorem updateNodes_cache (env : SysparEnv) (s : Syspar) :
    (updateNodes env s).2.cache = s.cache ∧ (updateNodes env s).2.nodePubKey = s.nodePubKey := by
  unfold updateNodes
  simp only []
  split
  · exact ⟨rfl, rfl⟩
  · split
    · exact ⟨rfl, rfl⟩
    · exact ⟨rfl, rfl⟩

/-- Whatever SysUpdate returns once the table was read, the cache is the old cache
with the rows stored in it. -/
theorem SysUpdate_cache (env : SysparEnv) (s : Syspar) (rows : List (String × String))
    (hrows : env.GetAllSystemParameters = .ok rows) :
    (SysUpdate env s).2.cache = cacheRows rows s.cache := by
  unfold SysUpdate
  rw [hrows]
  simp only []
  by_cases hn : (SysString { s with cache := cacheRows rows s.cache } HonorNodes).length > 0
  · rw [if_pos hn]
    have hc := (updateNodes_cache env { s with cache := cacheRows rows s.cache }).1
    cases hu : updateNodes env { s with cache := cacheRows rows s.cache } with
    | mk e s2 =>
      rw [hu] at hc
      cases e with
      | some err => exact hc
      | none => exact hc
  · rw [if_neg hn]

theorem SysUpdate_ok_rows (env : SysparEnv) (s : Syspar) (h : (SysUpdate env s).1 = none) :
    ∃ rows, env.GetAllSystemParameters = .ok rows := by
  cases hr : env.GetAllSystemParameters with
  | ok rows => exact ⟨rows, rfl⟩
  | error e =>
    unfold SysUpdate at h
    rw [hr] at h
    cases h

/-- C16, as stated, fails: the cache holds the entry old = 1, the table holds the
rows new and honor_nodes only, SysUpdate returns nil, and the entry old is still
there: HasSys(old) is true and SysString(old) is 1. -/
theorem sysUpdate_keeps_stale_entry_counterexample :
    (SysUpdate sampleSysparEnv sampleSyspar).1 = none ∧
    sampleSysparEnv.GetAllSystemParameters = .ok [("new", "2"), ("honor_nodes", "n")] ∧
    HasSys sampleSyspar "old" = true ∧
    HasSys (SysUpdate sampleSysparEnv sampleSyspar).2 "old" = true ∧
    SysString (SysUpdate sampleSysparEnv sampleSyspar).2 "old" = "1" :=
  ⟨by decide, rfl, by decide, by decide, by decide⟩

/-- C16 (amended): after a successful syspar.SysUpdate the rows of the parameter
table have been stored in the in-memory map, which is not emptied first: for every
name with a row in the table, SysString(name) is the value of the last such row
(the value of its row when names are not repeated) and HasSys(name) is true; for
every name without a row, SysString(name) and HasSys(name) are what they were before
the refresh. -/
theorem sysUpdate_merges_rows (env : SysparEnv) (s : Syspar)
    (hok : (SysUpdate env s).1 = none) :
    ∃ rows, env.GetAllSystemParameters = .ok rows ∧
      (∀ n v, kvGet rows.reverse n = some v →
        SysString (SysUpdate env s).2 n = v ∧ HasSys (SysUpdate env s).2 n = true) ∧
      (∀ n v, (n, v) ∈ rows → (rows.map Prod.fst).Nodup →
        SysString (SysUpdate env s).2 n = v ∧ HasSys (SysUpdate env s).2 n = true) ∧
      (∀ n, (∀ p ∈ rows, p.1 ≠ n) →
        SysString (SysUpdate env s).2 n = SysString s n ∧
        HasSys (SysUpdate env s).2 n = HasSys s n) := by
  obtain ⟨rows, hrows⟩ := SysUpdate_ok_rows env s hok
  have hc := SysUpdate_cache env s rows hrows
  have hlast : ∀ n v, kvGet rows.reverse n = some v →
      SysString (SysUpdate env s).2 n = v ∧ HasSys (SysUpdate env s).2 n = true := by
    intro n v hv
    simp only [SysString, HasSys, hc, kvGet_cacheRows, hv]
    exact ⟨rfl, rfl⟩
  refine ⟨rows, hrows, hlast, ?_, ?_⟩
  · intro n v hmem hnd
    apply hlast
    apply kvGet_of_mem_nodup
    · exact List.mem_reverse.2 hmem
    · rw [List.map_reverse]
      exact List.nodup_reverse.2 hnd
  · intro n hno
    have hnone : kvGet rows.reverse n = none := by
      rw [kvGet_eq_none]
      intro p hp
      exact hno p (List.mem_reverse.1 hp)
    simp only [SysString, HasSys, hc, kvGet_cacheRows, hnone]
    exact ⟨rfl, rfl⟩

/-- C16 (amended) at the sample refresh: the name new has a row and gets its value,
the name old has none and keeps its entry. -/
theorem sysUpdate_merges_rows_witness :
    (SysUpdate sampleSysparEnv sampleSyspar).1 = none ∧
    SysString (SysUpdate sampleSysparEnv sampleSyspar).2 "new" = "2" ∧
    ∃ rows, sampleSysparEnv.GetAllSystemParameters = .ok rows ∧
      (∀ n v, kvGet rows.reverse n = some v →
        SysString (SysUpdate sampleSysparEnv sampleSyspar).2 n = v ∧
        HasSys (SysUpdate sampleSysparEnv sampleSyspar).2 n = true) ∧
      (∀ n v, (n, v) ∈ rows → (rows.map Prod.fst).Nodup →
        SysString (SysUpdate sampleSysparEnv sampleSyspar).2 n = v ∧
        HasSys (SysUpdate sampleSysparEnv sampleSyspar).2 n = true) ∧
      (∀ n, (∀ p ∈ rows, p.1 ≠ n) →
        SysString (SysUpdate sampleSysparEnv sampleSyspar).2 n = SysString sampleSyspar n ∧
        HasSys (SysUpdate sampleSysparEnv sampleSyspar).2 n = HasSys sampleSyspar n) :=
  ⟨by decide, by decide, sysUpdate_merges_rows sampleSysparEnv sampleSyspar (by decide)⟩

/-! ## The honor nodes after updateNodes -/

theorem updateNodesLoop_byPosition (env : SysparEnv) :
    ∀ (items : List HonorNode) (nodes : List (String × HonorNode)) (byPosition : List HonorNode),
      (updateNodesLoop env items (nodes, byPosition)).2
        = byPosition ++ items.filter (fun item => !item.Stopped) := by
  intro items
  induction items with
  | nil => intro nodes byPosition; simp [updateNodesLoop]
  | cons item rest ih =>
    intro nodes byPosition
    simp only [updateNodesLoop]
    rw [ih]
    cases hs : item.Stopped <;> simp [hs]

/-- After updateNodes returned nil, nodesByPosition holds the non-stopped items of
the parsed list, in list order, and no stopped node. -/
theorem updateNodes_byPosition (env : SysparEnv) (s : Syspar)
    (h : (updateNodes env s).1 = none) :
    ∃ items, (updateNodes env s).2.nodesByPosition = items.filter (fun item => !item.Stopped) ∧
      (SysString s HonorNodes ≠ "" → env.unmarshalNodes (SysString s HonorNodes) = .ok items) ∧
      ∀ item ∈ (updateNodes env s).2.nodesByPosition, item.Stopped = false := by
  unfold updateNodes at h ⊢
  simp only [] at h ⊢
  have hlen : ∀ v : String, v.length > 0 ↔ v ≠ "" := by
    intro v
    constructor
    · intro hv hz
      subst hz
      simp at hv
    · intro hne
      cases v with
      | mk data =>
        cases data with
        | nil => exact absurd rfl hne
        | cons c cs => simp [String.length]
  split at h
  · cases h
  · rename_i items hp
    split at h
    · cases h
    · rename_i hd
      refine ⟨items, ?_, ?_, ?_⟩
      · rw [updateNodesLoop_byPosition]
        simp
      · intro hne
        rw [if_pos ((hlen _).2 hne)] at hp
        exact hp
      · intro item hmem
        rw [updateNodesLoop_byPosition] at hmem
        simp only [List.nil_append, List.mem_filter] at hmem
        simpa using hmem.2

/-- On a list without stopped nodes the loop of GetNodePositionByPublicKey never
reports a disabled node: a key that is not in the list is an incorrect key. -/
theorem positionLoop_active (publicKey : Bytes) :
    ∀ (l : List HonorNode) (i : Nat), (∀ item ∈ l, item.Stopped = false) →
      positionLoop publicKey l i ≠ .error errNodeDisabled ∧
      ((∀ item ∈ l, item.PublicKey ≠ publicKey) →
        positionLoop publicKey l i = .error (.errorf "Incorrect public key")) := by
  intro l
  induction l with
  | nil =>
    intro i _
    refine ⟨?_, fun _ => rfl⟩
    intro h
    simp [positionLoop, errNodeDisabled] at h
  | cons item rest ih =>
    intro i hall
    have h0 : item.Stopped = false := hall item (List.mem_cons_self _ _)
    have hrest : ∀ it ∈ rest, it.Stopped = false := fun it hit => hall it (List.mem_cons_of_mem _ hit)
    simp only [positionLoop, h0, Bool.false_eq_true, if_false]
    by_cases hk : item.PublicKey = publicKey
    · rw [if_pos hk]
      refine ⟨fun h => (by cases h), ?_⟩
      intro hno
      exact absurd hk (hno item (List.mem_cons_self _ _))
    · rw [if_neg hk]
      obtain ⟨h1, h2⟩ := ih (i + 1) hrest
      exact ⟨h1, fun hno => h2 (fun it hit => hno it (List.mem_cons_of_mem _ hit))⟩

/-- After updateNodes returned nil, GetNodePositionByPublicKey never fails with the
error of a disabled node. -/
theorem position_never_disabled (env : SysparEnv) (s : Syspar) (publicKey : Bytes)
    (h : (updateNodes env s).1 = none) :
    GetNodePositionByPublicKey (updateNodes env s).2 publicKey ≠ .error errNodeDisabled := by
  obtain ⟨items, _, _, hall⟩ := updateNodes_byPosition env s h
  exact (positionLoop_active publicKey _ 0 hall).1

/-- On a list without stopped nodes the loop of GetNodePositionByPublicKey returns
the index of the first node with the key. -/
theorem positionLoop_index (publicKey : Bytes) :
    ∀ (l : List HonorNode) (i j : Nat) (node : HonorNode),
      (∀ item ∈ l, item.Stopped = false) → l[j]? = some node → node.PublicKey = publicKey →
      (∀ m, m < j → ∀ n, l[m]? = some n → n.PublicKey ≠ publicKey) →
      positionLoop publicKey l i = .ok (int64 ((i + j : Nat) : Int)) := by
  intro l
  induction l with
  | nil => intro i j node _ hj; simp at hj
  | cons item rest ih =>
    intro i j node hall hj hk hfirst
    have h0 : item.Stopped = false := hall item (List.mem_cons_self _ _)
    simp only [positionLoop, h0, Bool.false_eq_true, if_false]
    cases j with
    | zero =>
      simp only [List.getElem?_cons_zero, Option.some.injEq] at hj
      subst hj
      rw [if_pos hk]
      rfl
    | succ j =>
      have hne : item.PublicKey ≠ publicKey := hfirst 0 (Nat.succ_pos _) item (by simp)
      rw [if_neg hne]
      simp only [List.getElem?_cons_succ] at hj
      rw [ih (i + 1) j node (fun it hit => hall it (List.mem_cons_of_mem _ hit)) hj hk
        (fun m hm n hn => hfirst (m + 1) (by omega) n (by simpa using hn))]
      congr 2
      omega

/-- After updateNodes returned nil, the position of a non-stopped node is its index
among the non-stopped nodes in list order (the first one with its key), and
GetNodeByPosition returns no stopped node. -/
theorem updateNodes_positions (env : SysparEnv) (s : Syspar) (h : (updateNodes env s).1 = none) :
    (∀ (j : Nat) (node : HonorNode), (updateNodes env s).2.nodesByPosition[j]? = some node →
      (∀ m, m < j → ∀ n, (updateNodes env s).2.nodesByPosition[m]? = some n →
        n.PublicKey ≠ node.PublicKey) →
      GetNodePositionByPublicKey (updateNodes env s).2 node.PublicKey = .ok (int64 (j : Int))) ∧
    (∀ (position : Int) (node : HonorNode),
      GetNodeByPosition (updateNodes env s).2.nodesByPosition position = .ret (.ok node) →
      node.Stopped = false) := by
  obtain ⟨items, _, _, hall⟩ := updateNodes_byPosition env s h
  constructor
  · intro j node hj hfirst
    have := positionLoop_index node.PublicKey _ 0 j node hall hj rfl hfirst
    simpa [GetNodePositionByPublicKey] using this
  · intro position node hget
    apply hall
    unfold GetNodeByPosition at hget
    split at hget
    · cases hget
    · split at hget
      · cases hget
      · cases hn : (updateNodes env s).2.nodesByPosition[position.toNat]? with
        | none =>
          rw [hn] at hget
          cases hget
        | some n =>
          rw [hn] at hget
          simp only [Outcome.ret.injEq, Except.ok.injEq] at hget
          subst hget
          exact List.getElem?_mem hn

/-- C17 fails in the code: the honor-node list holds an active node with key [1]
and a stopped node with key [2].  After updateNodes, nodesByPosition holds the
active node only, so the loop of GetNodePositionByPublicKey never meets the stopped
node: for the key [2] it fails with the error of an incorrect public key, not with
the error of a disabled node.  The active node has position 0 and is the only node
GetNodeByPosition returns. -/
theorem stopped_node_reported_as_incorrect_key :
    (updateNodes sampleSysparEnv { sampleSyspar with cache := [("honor_nodes", "n")] }).1 = none ∧
    (updateNodes sampleSysparEnv { sampleSyspar with cache := [("honor_nodes", "n")] }).2.nodesByPosition
      = [{ PublicKey := [1], TCPAddress := "10.0.0.1:7078", Stopped := false }] ∧
    GetNodePositionByPublicKey
      (updateNodes sampleSysparEnv { sampleSyspar with cache := [("honor_nodes", "n")] }).2 [2]
      = .error (.errorf "Incorrect public key") ∧
    GetNodePositionByPublicKey
      (updateNodes sampleSysparEnv { sampleSyspar with cache := [("honor_nodes", "n")] }).2 [2]
      ≠ .error errNodeDisabled ∧
    GetNodePositionByPublicKey
      (updateNodes sampleSysparEnv { sampleSyspar with cache := [("honor_nodes", "n")] }).2 [1]
      = .ok 0 ∧
    GetNodeByPosition
      (updateNodes sampleSysparEnv { sampleSyspar with cache := [("honor_nodes", "n")] }).2.nodesByPosition 0
      = .ret (.ok { PublicKey := [1], TCPAddress := "10.0.0.1:7078", Stopped := false }) ∧
    GetNodeByPosition
      (updateNodes sampleSysparEnv { sampleSyspar with cache := [("honor_nodes", "n")] }).2.nodesByPosition 1
      = .ret (.error (.errorf "incorrect position")) := by
  refine ⟨by decide, by decide, rfl, ?_, rfl, rfl, rfl⟩
  intro h
  cases h

/-! ## The remote hosts -/

theorem remoteHostsLoop_eq (nodeKey : String) :
    ∀ (l : List (String × HonorNode)) (ret : List String),
      remoteHostsLoop nodeKey l ret
        = ret ++ (l.filter (fun p => decide (p.1 ≠ nodeKey ∧ p.2.Stopped = false))).map
            (fun p => p.2.TCPAddress) := by
  intro l
  induction l with
  | nil => intro ret; simp [remoteHostsLoop]
  | cons p ps ih =>
    intro ret
    obtain ⟨pubKey, item⟩ := p
    simp only [remoteHostsLoop]
    by_cases hc : pubKey ≠ nodeKey ∧ item.Stopped = false
    · rw [if_pos hc, ih, List.filter_cons_of_pos (by simpa using hc)]
      simp
    · rw [if_neg hc, ih, List.filter_cons_of_neg (by simpa using hc)]

theorem mem_kvSet {κ ν : Type} [DecidableEq κ] (m : List (κ × ν)) (k : κ) (v : ν) (p : κ × ν)
    (h : p ∈ kvSet m k v) : p = (k, v) ∨ p ∈ m := by
  unfold kvSet at h
  rcases List.mem_cons.1 h with h1 | h1
  · exact Or.inl h1
  · exact Or.inr (List.mem_filter.1 h1).1

theorem updateNodesLoop_keys (env : SysparEnv) :
    ∀ (items : List HonorNode) (nodes : List (String × HonorNode)) (byPosition : List HonorNode),
      (∀ p ∈ nodes, p.1 = env.EncodeToString p.2.PublicKey) →
      ∀ p ∈ (updateNodesLoop env items (nodes, byPosition)).1,
        p.1 = env.EncodeToString p.2.PublicKey := by
  intro items
  induction items with
  | nil => intro nodes byPosition h; simpa [updateNodesLoop] using h
  | cons item rest ih =>
    intro nodes byPosition h
    simp only [updateNodesLoop]
    apply ih
    intro p hp
    rcases mem_kvSet _ _ _ _ hp with h1 | h1
    · rw [h1]
    · exact h p h1

/-- After updateNodes returned nil, every entry of the map nodes sits under the hex
text of its own public key. -/
theorem updateNodes_keys (env : SysparEnv) (s : Syspar) (h : (updateNodes env s).1 = none) :
    ∀ p ∈ (updateNodes env s).2.nodes, p.1 = env.EncodeToString p.2.PublicKey := by
  unfold updateNodes at h ⊢
  simp only [] at h ⊢
  split at h
  · cases h
  · split at h
    · cases h
    · exact updateNodesLoop_keys env _ [] [] (by simp)

/-- C18: GetRemoteHosts returns the TCP addresses of exactly the entries of the
honor-node map that are not stopped and whose key (the hex public key, as
updateNodes stores it) differs from the hex public key of this node, one address
per entry, and in whatever order the map is visited the result is the same
collection.  GetDefaultRemoteHosts returns the same list when it is not empty,
the single address NodesAddr[0] when it is empty and a bootstrap address is
configured, and the empty list otherwise. -/
theorem remote_hosts_collection (env : SysparEnv) (s : Syspar) :
    GetRemoteHosts env s
      = (s.nodes.filter (fun p => decide (p.1 ≠ env.EncodeToString s.nodePubKey ∧
          p.2.Stopped = false))).map (fun p => p.2.TCPAddress) ∧
    (∀ a, a ∈ GetRemoteHosts env s ↔
      ∃ p ∈ s.nodes, p.2.Stopped = false ∧ p.1 ≠ env.EncodeToString s.nodePubKey ∧
        p.2.TCPAddress = a) ∧
    (∀ s1 : Syspar, s1.nodes.Perm s.nodes → s1.nodePubKey = s.nodePubKey →
      (GetRemoteHosts env s1).Perm (GetRemoteHosts env s)) ∧
    (∀ s0 : Syspar, (updateNodes env s0).1 = none →
      ∀ p ∈ (updateNodes env s0).2.nodes, p.1 = env.EncodeToString p.2.PublicKey) ∧
    (GetRemoteHosts env s ≠ [] → GetDefaultRemoteHosts env s = GetRemoteHosts env s) ∧
    (GetRemoteHosts env s = [] → ∀ addr rest, env.NodesAddr = addr :: rest →
      GetDefaultRemoteHosts env s = [addr]) ∧
    (GetRemoteHosts env s = [] → env.NodesAddr = [] → GetDefaultRemoteHosts env s = []) := by
  have heq : ∀ s2 : Syspar, GetRemoteHosts env s2
      = (s2.nodes.filter (fun p => decide (p.1 ≠ env.EncodeToString s2.nodePubKey ∧
          p.2.Stopped = false))).map (fun p => p.2.TCPAddress) := by
    intro s2
    unfold GetRemoteHosts
    rw [remoteHostsLoop_eq]
    rfl
  have hdef : GetDefaultRemoteHosts env s
      = if (GetRemoteHosts env s).length = 0 ∧ env.NodesAddr.length > 0 then
          match env.NodesAddr with
          | addr :: _ => GetRemoteHosts env s ++ [addr]
          | [] => GetRemoteHosts env s
        else GetRemoteHosts env s := rfl
  refine ⟨heq s, ?_, ?_, ?_, ?_, ?_, ?_⟩
  · intro a
    rw [heq s]
    simp only [List.mem_map, List.mem_filter, decide_eq_true_eq]
    constructor
    · rintro ⟨p, ⟨hp, h1, h2⟩, h3⟩
      exact ⟨p, hp, h2, h1, h3⟩
    · rintro ⟨p, hp, h2, h1, h3⟩
      exact ⟨p, ⟨hp, h1, h2⟩, h3⟩
  · intro s1 hperm hkey
    rw [heq s1, heq s, hkey]
    exact (hperm.filter _).map _
  · intro s0 h0
    exact updateNodes_keys env s0 h0
  · intro hne
    rw [hdef, if_neg]
    intro hc
    exact hne (List.length_eq_zero.1 hc.1)
  · intro hnil addr rest haddr
    rw [hdef, haddr, hnil]
    simp
  · intro hnil haddr
    rw [hdef, haddr, hnil]
    simp

/-! ## The block codec: reading back what was written -/

theorem encodeFixed_length : ∀ (w n : Nat), (encodeFixed w n).length = w := by
  intro w
  induction w with
  | zero => intro n; rfl
  | succ w ih => intro n; simp [encodeFixed, ih]

theorem decodeFixed_append (l : Bytes) (x : Fin 256) :
    decodeFixed (l ++ [x]) = decodeFixed l * 256 + x.val := by
  simp [decodeFixed, List.foldl_append]

theorem decodeFixed_encodeFixed : ∀ (w n : Nat), decodeFixed (encodeFixed w n) = n % 256 ^ w := by
  intro w
  induction w with
  | zero => intro n; simp [encodeFixed, decodeFixed, Nat.mod_one]
  | succ w ih =>
    intro n
    simp only [encodeFixed]
    rw [decodeFixed_append, ih, pow_succ, Nat.mul_comm (256 ^ w) 256, Nat.mod_mul]
    simp only []
    omega

theorem readFixed_append (w : Nat) (field rest : Bytes) (h : field.length = w) :
    readFixed w (field ++ rest) = some (field, rest) := by
  unfold readFixed
  rw [if_neg (by simp [h])]
  simp [← h]

theorem int64_emod (x : Int) : int64 (((x % 18446744073709551616).toNat : Nat) : Int) = int64 x := by
  have h0 : 0 ≤ x % 18446744073709551616 := Int.emod_nonneg _ (by decide)
  rw [Int.toNat_of_nonneg h0]
  unfold int64
  omega

theorem readInt64_append (x : Int) (rest : Bytes) :
    readInt64 (encodeInt64 x ++ rest) = some (int64 x, rest) := by
  unfold readInt64 encodeInt64
  rw [readFixed_append 8 _ rest (encodeFixed_length 8 _)]
  simp only [decodeInt64]
  rw [decodeFixed_encodeFixed]
  have hlt : (x % 18446744073709551616).toNat < 256 ^ 8 := by
    have h0 : 0 ≤ x % 18446744073709551616 := Int.emod_nonneg _ (by decide)
    have h1 : x % 18446744073709551616 < 18446744073709551616 := Int.emod_lt_of_pos _ (by decide)
    have : (256 : Nat) ^ 8 = 18446744073709551616 := by norm_num
    omega
  rw [Nat.mod_eq_of_lt hlt, int64_emod]

theorem readLengthPlusData_append (field rest : Bytes) (h : field.length < 4294967296) :
    readLengthPlusData (encodeLengthPlusData field ++ rest) = some (field, rest) := by
  unfold readLengthPlusData encodeLengthPlusData
  rw [List.append_assoc, readFixed_append 4 _ _ (encodeFixed_length 4 _)]
  simp only []
  rw [decodeFixed_encodeFixed]
  have : (256 : Nat) ^ 4 = 4294967296 := by norm_num
  rw [Nat.mod_eq_of_lt (by omega)]
  exact readFixed_append _ field rest rfl

theorem encodeLengthPlusData_length (field : Bytes) :
    (encodeLengthPlusData field).length = 4 + field.length := by
  simp [encodeLengthPlusData, encodeFixed_length]

/-- The transaction stream reads back item by item, and a fuel of the number of
bytes is enough. -/
theorem readStream_flatten :
    ∀ (items : List Bytes) (fuel : Nat),
      (∀ item ∈ items, item.length < 4294967296) →
      ((items.map encodeLengthPlusData).flatten).length ≤ fuel →
      readStream fuel ((items.map encodeLengthPlusData).flatten) = some items := by
  intro items
  induction items with
  | nil => intro fuel _ _; cases fuel <;> rfl
  | cons item rest ih =>
    intro fuel hlen hfuel
    simp only [List.map_cons, List.flatten_cons] at hfuel ⊢
    have hl : (encodeLengthPlusData item ++ (rest.map encodeLengthPlusData).flatten).length
        = 4 + item.length + ((rest.map encodeLengthPlusData).flatten).length := by
      rw [List.length_append, encodeLengthPlusData_length]
    have hread := readLengthPlusData_append item ((rest.map encodeLengthPlusData).flatten)
      (hlen item (List.mem_cons_self _ _))
    cases hd : encodeLengthPlusData item ++ (rest.map encodeLengthPlusData).flatten with
    | nil =>
      rw [hd] at hl
      simp at hl
      omega
    | cons x bs =>
      rw [hd] at hread hfuel hl
      cases fuel with
      | zero => simp at hfuel
      | succ fuel =>
        simp only [readStream, hread]
        rw [ih fuel (fun it hit => hlen it (List.mem_cons_of_mem _ hit)) (by omega)]

theorem unmarshallTransactions_map (c : CodecEnv) :
    ∀ txs : List Transaction,
      (∀ t ∈ txs, c.UnmarshallTransaction t.TxFullData = .ok t) →
      unmarshallTransactions c (txs.map (fun t => t.TxFullData)) = .ok txs := by
  intro txs
  induction txs with
  | nil => intro _; rfl
  | cons t ts ih =>
    intro h
    simp only [List.map_cons, unmarshallTransactions]
    rw [h t (List.mem_cons_self _ _), ih (fun t1 h1 => h t1 (List.mem_cons_of_mem _ h1))]

theorem merkleLayer_length (sha256 : Bytes → Bytes) :
    ∀ (n : Nat) (l : List Bytes), l.length ≤ n → (merkleLayer sha256 l).length = (l.length + 1) / 2 := by
  intro n
  induction n using Nat.strong_induction_on with
  | _ n ih =>
    intro l hl
    match l with
    | [] => rfl
    | [x] => simp [merkleLayer]
    | x :: y :: rest =>
      simp only [merkleLayer, List.length_cons]
      simp only [List.length_cons] at hl
      rw [ih (n - 2) (by omega) rest (by omega)]
      omega

/-- The fuel of the Merkle tree is never used up: any fuel of at least the number
of leaves gives the same root. -/
theorem merkleFold_fuel (sha256 : Bytes → Bytes) :
    ∀ (fuel1 fuel2 : Nat) (l : List Bytes), l.length ≤ fuel1 → l.length ≤ fuel2 →
      merkleFold sha256 fuel1 l = merkleFold sha256 fuel2 l := by
  intro fuel1
  induction fuel1 with
  | zero =>
    intro fuel2 l h1 h2
    have : l = [] := List.length_eq_zero.1 (by omega)
    subst this
    cases fuel2 <;> rfl
  | succ fuel1 ih =>
    intro fuel2 l h1 h2
    match l with
    | [] => cases fuel2 <;> rfl
    | [x] => cases fuel2 <;> rfl
    | x :: y :: rest =>
      cases fuel2 with
      | zero => simp at h2
      | succ fuel2 =>
        simp only [merkleFold]
        have hlen := merkleLayer_length sha256 _ (x :: y :: rest) (Nat.le_refl _)
        simp only [List.length_cons] at hlen h1 h2
        apply ih
        · rw [hlen]; omega
        · rw [hlen]; omega

/-- What UnmarshallBlock reads back from the bytes MarshallBlock wrote. -/
theorem unmarshall_marshalled (c : CodecEnv) (h prev : BlockData) (txs : List Transaction)
    (signed : Bytes)
    (hprev : prev.RollbacksHash.length < 4294967296)
    (hsigned : signed.length < 4294967296)
    (htxlen : ∀ t ∈ txs, t.TxFullData.length < 4294967296)
    (hparse : ∀ t ∈ txs, c.UnmarshallTransaction t.TxFullData = .ok t) :
    UnmarshallBlock c
      (encodeInt64 h.Version ++ (encodeInt64 h.BlockID ++ (encodeInt64 h.Time ++
        (encodeInt64 h.EcosystemID ++ (encodeInt64 h.KeyID ++
        (encodeInt64 h.NodePosition ++ (encodeLengthPlusData prev.RollbacksHash ++
        (encodeLengthPlusData signed
          ++ ((txs.map (fun t => t.TxFullData)).map encodeLengthPlusData).flatten))))))))
      = .ok { Header := { BlockID := int64 h.BlockID, Time := int64 h.Time,
                          EcosystemID := int64 h.EcosystemID, KeyID := int64 h.KeyID,
                          NodePosition := int64 h.NodePosition, Sign := signed, Hash := [],
                          RollbacksHash := [], Version := int64 h.Version },
              PrevHeader := none, PrevRollbacksHash := prev.RollbacksHash,
              MrklRoot := MerkleTreeRoot c.sha256 (txs.map (fun t => t.TxHash)),
              BinData := encodeInt64 h.Version ++ (encodeInt64 h.BlockID ++ (encodeInt64 h.Time ++
                (encodeInt64 h.EcosystemID ++ (encodeInt64 h.KeyID ++
                (encodeInt64 h.NodePosition ++ (encodeLengthPlusData prev.RollbacksHash ++
                (encodeLengthPlusData signed
                  ++ ((txs.map (fun t => t.TxFullData)).map encodeLengthPlusData).flatten))))))),
              Transactions := txs, SysUpdate := false, GenBlock := false, Notifications := [] } := by
  have hstream : readStream
      (((txs.map (fun t => t.TxFullData)).map encodeLengthPlusData).flatten).length
      (((txs.map (fun t => t.TxFullData)).map encodeLengthPlusData).flatten)
      = some (txs.map (fun t => t.TxFullData)) := by
    apply readStream_flatten
    · intro item hitem
      obtain ⟨t, ht, hti⟩ := List.mem_map.1 hitem
      rw [← hti]
      exact htxlen t ht
    · exact Nat.le_refl _
  unfold UnmarshallBlock
  simp only [readInt64_append, readLengthPlusData_append _ _ hprev,
    readLengthPlusData_append _ _ hsigned, hstream, unmarshallTransactions_map c txs hparse]

/-- C19: for a well-formed header h (its fields are int64 values), transactions txs
(each parses back from its serialized form, which is shorter than 2^32 bytes and
hashes to TxHash), previous header prev and node key for which signing succeeds,
MarshallBlock returns bytes, and UnmarshallBlock of these bytes returns a block
with the same header fields, the same transactions in the same order, the Merkle
root of txs, and the signature, which verifies over ForSign(prev, Merkle root)
when signatures made with the key verify.  With this codec repeatMarshallBlock
succeeds and replaces BinData, Transactions and MrklRoot by these bytes, these
transactions and this root. -/
theorem marshall_unmarshall_roundtrip (c : CodecEnv) (h prev : BlockData) (txs : List Transaction)
    (key : String) (pub signed : Bytes)
    (hint : int64 h.Version = h.Version ∧ int64 h.BlockID = h.BlockID ∧ int64 h.Time = h.Time ∧
      int64 h.EcosystemID = h.EcosystemID ∧ int64 h.KeyID = h.KeyID ∧
      int64 h.NodePosition = h.NodePosition)
    (hprev : prev.RollbacksHash.length < 4294967296)
    (htxlen : ∀ t ∈ txs, t.TxFullData.length < 4294967296)
    (hparse : ∀ t ∈ txs, c.UnmarshallTransaction t.TxFullData = .ok t)
    (hhash : ∀ t ∈ txs, c.txHash t.TxFullData = t.TxHash)
    (hsign : c.SignString key
      (c.headerForSign h prev (MerkleTreeRoot c.sha256 (txs.map (fun t => t.TxHash)))) = .ok signed)
    (hsigned : signed.length < 4294967296)
    (hcrypto : ∀ msg sig, c.SignString key msg = .ok sig → c.CheckSign pub msg sig = true) :
    ∃ data nb,
      MarshallBlock c h (txs.map (fun t => t.TxFullData)) prev key = .ok data ∧
      UnmarshallBlock c data = .ok nb ∧
      nb.Header.Version = h.Version ∧ nb.Header.BlockID = h.BlockID ∧ nb.Header.Time = h.Time ∧
      nb.Header.EcosystemID = h.EcosystemID ∧ nb.Header.KeyID = h.KeyID ∧
      nb.Header.NodePosition = h.NodePosition ∧
      nb.Transactions = txs ∧
      nb.MrklRoot = MerkleTreeRoot c.sha256 (txs.map (fun t => t.TxHash)) ∧
      nb.PrevRollbacksHash = prev.RollbacksHash ∧
      nb.BinData = data ∧
      c.CheckSign pub (c.headerForSign nb.Header prev nb.MrklRoot) nb.Header.Sign = true ∧
      ∀ (env : Env) (tr : Trace) (b : Block), b.Header = h → b.PrevHeader = some prev →
        b.Transactions = txs → env.NodePrivateKey tr = key → 1 ≤ key.length →
        (b.repeatMarshallBlock (env.withCodec c) tr).1 = none ∧
        (b.repeatMarshallBlock (env.withCodec c) tr).2.1
          = { b with BinData := data, Transactions := txs,
                     MrklRoot := MerkleTreeRoot c.sha256 (txs.map (fun t => t.TxHash)),
                     SysUpdate := false } := by
  obtain ⟨i1, i2, i3, i4, i5, i6⟩ := hint
  have hmap : (txs.map (fun t => t.TxFullData)).map c.txHash = txs.map (fun t => t.TxHash) := by
    rw [List.map_map]
    apply List.map_congr_left
    intro t ht
    exact hhash t ht
  have hm : MarshallBlock c h (txs.map (fun t => t.TxFullData)) prev key
      = .ok (encodeInt64 h.Version ++ (encodeInt64 h.BlockID ++ (encodeInt64 h.Time ++
        (encodeInt64 h.EcosystemID ++ (encodeInt64 h.KeyID ++
        (encodeInt64 h.NodePosition ++ (encodeLengthPlusData prev.RollbacksHash ++
        (encodeLengthPlusData signed
          ++ ((txs.map (fun t => t.TxFullData)).map encodeLengthPlusData).flatten)))))))) := by
    unfold MarshallBlock
    simp only [hmap, hsign]
  have hu := unmarshall_marshalled c h prev txs signed hprev hsigned htxlen hparse
  rw [i1, i2, i3, i4, i5, i6] at hu
  refine ⟨_, _, hm, hu, rfl, rfl, rfl, rfl, rfl, rfl, rfl, rfl, rfl, rfl, ?_, ?_⟩
  · exact hcrypto _ _ hsign
  · intro env tr b hb hp ht hk hklen
    have hkey : (env.withCodec c).NodePrivateKey tr = key := hk
    have hmar : ∀ t1, (env.withCodec c).MarshallBlock t1 b.Header
        (b.Transactions.map (fun t => t.TxFullData)) b.PrevHeader key
        = MarshallBlock c h (txs.map (fun t => t.TxFullData)) prev key := by
      intro t1
      simp only [Env.withCodec, hb, hp, ht]
    have hun : ∀ t1 d, (env.withCodec c).UnmarshallBlock t1 d = UnmarshallBlock c d := fun _ _ => rfl
    unfold Block.repeatMarshallBlock
    simp only [hkey, hmar, hm, hun, hu]
    rw [if_neg (by omega)]
    exact ⟨rfl, rfl⟩

/-- C19 at a sample header with two transactions. -/
theorem marshall_unmarshall_roundtrip_witness :
    ∃ data nb,
      MarshallBlock sampleCodecEnv (sampleHeader 5 900)
        ([sampleTx 1 1, sampleTx 2 1].map (fun t => t.TxFullData)) (sampleHeader 4 800) "k" = .ok data ∧
      UnmarshallBlock sampleCodecEnv data = .ok nb ∧
      nb.Header.Version = (sampleHeader 5 900).Version ∧
      nb.Header.BlockID = (sampleHeader 5 900).BlockID ∧
      nb.Header.Time = (sampleHeader 5 900).Time ∧
      nb.Header.EcosystemID = (sampleHeader 5 900).EcosystemID ∧
      nb.Header.KeyID = (sampleHeader 5 900).KeyID ∧
      nb.Header.NodePosition = (sampleHeader 5 900).NodePosition ∧
      nb.Transactions = [sampleTx 1 1, sampleTx 2 1] ∧
      nb.MrklRoot = MerkleTreeRoot sampleCodecEnv.sha256
        ([sampleTx 1 1, sampleTx 2 1].map (fun t => t.TxHash)) ∧
      nb.PrevRollbacksHash = (sampleHeader 4 800).RollbacksHash ∧
      nb.BinData = data ∧
      sampleCodecEnv.CheckSign []
        (sampleCodecEnv.headerForSign nb.Header (sampleHeader 4 800) nb.MrklRoot) nb.Header.Sign = true ∧
      ∀ (env : Env) (tr : Trace) (b : Block), b.Header = sampleHeader 5 900 →
        b.PrevHeader = some (sampleHeader 4 800) →
        b.Transactions = [sampleTx 1 1, sampleTx 2 1] → env.NodePrivateKey tr = "k" →
        1 ≤ "k".length →
        (b.repeatMarshallBlock (env.withCodec sampleCodecEnv) tr).1 = none ∧
        (b.repeatMarshallBlock (env.withCodec sampleCodecEnv) tr).2.1
          = { b with BinData := data, Transactions := [sampleTx 1 1, sampleTx 2 1],
                     MrklRoot := MerkleTreeRoot sampleCodecEnv.sha256
                       ([sampleTx 1 1, sampleTx 2 1].map (fun t => t.TxHash)),
                     SysUpdate := false } :=
  marshall_unmarshall_roundtrip sampleCodecEnv (sampleHeader 5 900) (sampleHeader 4 800)
    [sampleTx 1 1, sampleTx 2 1] "k" [] [1]
    (by decide) (by decide) (by decide)
    (by intro t ht; simp only [List.mem_cons, List.mem_singleton, List.not_mem_nil, or_false] at ht
        rcases ht with h1 | h1 <;> subst h1 <;> rfl)
    (by decide) rfl (by decide) (fun _ _ _ => rfl)

/-! ## The markers of the rejections of Check -/

/-- C23, as stated, fails: block 5 holds two transactions of hash [3]; Block.Check
rejects it with the error made by utils.ErrInfo alone, which carries no WithBan
marker. -/
theorem check_duplicate_not_bannable_counterexample :
    ((sampleBlock 5 900 none [sampleTx 3 1, sampleTx 4 2, sampleTx 3 3]).Check sampleEnv []).ret
      = .ret (some (.errInfo (.errorf "duplicate transaction 03"))) ∧
    (Err.errInfo (.errorf "duplicate transaction 03")).isBan = false := by
  decide

/-- C23 (amended): when the transaction scan of Block.Check rejects a block, the
error is one of three.  For a transaction hash seen before it is the error made by
utils.ErrInfo for a duplicate transaction, which carries no WithBan marker (it is
not bannable); for a sender over the cap it is the max_block_user_transactions
error wrapped in utils.WithBan (bannable); otherwise it is the error of CheckTime
wrapped by errors.Wrap. -/
theorem check_rejection_markers (env : Env) (time : Int) :
    ∀ (ts : List Transaction) (cnt : List (Int × Int)) (hs : List String) (tr : Trace) (e : Err),
      (checkTransactions env time ts cnt hs tr).1 = some e →
      (∃ t ∈ ts, e = .errInfo (.errorf ("duplicate transaction " ++ env.BinToHex t.TxHash)) ∧
        e.isBan = false) ∨
      (e = .withBan (.errInfo (.errorf "max_block_user_transactions")) ∧ e.isBan = true) ∨
      (∃ err, e = .wrap err "check transaction") := by
  intro ts
  induction ts with
  | nil => intro cnt hs tr e h; simp [checkTransactions] at h
  | cons t ts ih =>
    intro cnt hs tr e h
    unfold checkTransactions at h
    simp only [] at h
    split at h
    · simp only [Option.some.injEq] at h
      subst h
      exact Or.inl ⟨t, List.mem_cons_self _ _, rfl, rfl⟩
    · split at h
      · simp only [Option.some.injEq] at h
        subst h
        exact Or.inr (Or.inl ⟨rfl, rfl⟩)
      · split at h
        · simp only [Option.some.injEq] at h
          subst h
          exact Or.inr (Or.inr ⟨_, rfl⟩)
        · rcases ih _ _ _ e h with ⟨t1, ht1, h1⟩ | h1 | h1
          · exact Or.inl ⟨t1, List.mem_cons_of_mem _ ht1, h1⟩
          · exact Or.inr (Or.inl h1)
          · exact Or.inr (Or.inr h1)

/-- C23 (amended) at a scan with the cap read as -1: the first transaction is over
the cap and the rejection carries the WithBan marker. -/
theorem check_rejection_markers_witness :
    (checkTransactions negativeCapEnv 900 [sampleTx 3 1] [] [] []).1
      = some (.withBan (.errInfo (.errorf "max_block_user_transactions"))) ∧
    ((∃ t ∈ [sampleTx 3 1],
        Err.withBan (.errInfo (.errorf "max_block_user_transactions"))
          = .errInfo (.errorf ("duplicate transaction " ++ negativeCapEnv.BinToHex t.TxHash)) ∧
        (Err.withBan (.errInfo (.errorf "max_block_user_transactions"))).isBan = false) ∨
      (Err.withBan (.errInfo (.errorf "max_block_user_transactions"))
          = .withBan (.errInfo (.errorf "max_block_user_transactions")) ∧
        (Err.withBan (.errInfo (.errorf "max_block_user_transactions"))).isBan = true) ∨
      (∃ err, Err.withBan (.errInfo (.errorf "max_block_user_transactions"))
          = .wrap err "check transaction")) :=
  ⟨by decide,
    check_rejection_markers negativeCapEnv 900 [sampleTx 3 1] [] [] []
      (.withBan (.errInfo (.errorf "max_block_user_transactions"))) (by decide)⟩

/-! ## IsPrivateBlockchain -/

/-- The value of IsPrivateBlockchain by the cached text of the parameter: false
for the empty text, for 0 and for false, true for every other text. -/
theorem isPrivateBlockchain_value (s : Syspar) :
    IsPrivateBlockchain s
      = decide (SysString s PrivateBlockchain ≠ "" ∧ SysString s PrivateBlockchain ≠ "0" ∧
          SysString s PrivateBlockchain ≠ "false") := by
  unfold IsPrivateBlockchain
  simp only []
  have hlen : (SysString s PrivateBlockchain).length > 0 ↔ SysString s PrivateBlockchain ≠ "" := by
    constructor
    · intro hv hz
      rw [hz] at hv
      simp at hv
    · intro hne
      cases hv : SysString s PrivateBlockchain with
      | mk data =>
        cases data with
        | nil => exact absurd hv hne
        | cons c cs => simp [String.length]
  simp only [hlen]

/-- C24 fails in the code: with no entry for private_blockchain in the cache, and
with an entry holding the empty text, IsPrivateBlockchain returns false, not true;
for the texts 0 and false it returns false and for another text, here 1, true. -/
theorem isPrivateBlockchain_unset_is_false :
    HasSys sampleSyspar PrivateBlockchain = false ∧
    IsPrivateBlockchain sampleSyspar = false ∧
    IsPrivateBlockchain { sampleSyspar with cache := [("private_blockchain", "")] } = false ∧
    IsPrivateBlockchain { sampleSyspar with cache := [("private_blockchain", "0")] } = false ∧
    IsPrivateBlockchain { sampleSyspar with cache := [("private_blockchain", "false")] } = false ∧
    IsPrivateBlockchain { sampleSyspar with cache := [("private_blockchain", "1")] } = true := by
  decide

/-! ## Positions that are out of range -/

/-- A position that is in range for the length test but negative is the only one
for which the lookups index out of range; every other position gives the node or
the error of an incorrect position. -/
theorem getNodeByPosition_cases (nodes : List HonorNode) (position : Int) :
    (position < 0 → GetNodeByPosition nodes position = .panic ∧
      GetNodePublicKeyByPosition nodes position = .panic) ∧
    ((nodes.length : Int) ≤ position →
      GetNodeByPosition nodes position = .ret (.error (.errorf "incorrect position"))) ∧
    (0 ≤ position → position < (nodes.length : Int) →
      ∃ n, nodes[position.toNat]? = some n ∧ GetNodeByPosition nodes position = .ret (.ok n)) := by
  refine ⟨?_, ?_, ?_⟩
  · intro hneg
    have h1 : ¬ (nodes.length : Int) ≤ position := by omega
    constructor
    · simp only [GetNodeByPosition, h1, hneg, if_false, if_true]
    · simp only [GetNodePublicKeyByPosition, GetNodeByPosition, h1, hneg, if_false, if_true]
  · intro hge
    simp only [GetNodeByPosition, hge, if_true]
  · intro h0 hlt
    have h1 : ¬ (nodes.length : Int) ≤ position := by omega
    have h2 : ¬ position < 0 := by omega
    have h3 : position.toNat < nodes.length := by omega
    refine ⟨nodes[position.toNat], List.getElem?_eq_getElem h3, ?_⟩
    simp only [GetNodeByPosition, h1, h2, if_false, List.getElem?_eq_getElem h3]

/-- C26 fails in the code: for the position -1 the test len(nodesByPosition) <=
position does not fire, and both lookups index the list out of range (a panic);
a received block 5 whose header carries NodePosition = -1 makes Block.CheckHash and
Block.Check panic. -/
theorem negative_position_panics :
    GetNodeByPosition (sampleEnv.nodesByPosition []) (-1) = .panic ∧
    GetNodePublicKeyByPosition (sampleEnv.nodesByPosition []) (-1) = .panic ∧
    ({ sampleBlock 5 900 (some (sampleHeader 4 800)) [sampleTx 1 1] with
        Header := { sampleHeader 5 900 with NodePosition := -1 } }.CheckHash sampleEnv []).ret
      = .panic ∧
    ({ sampleBlock 5 900 (some (sampleHeader 4 800)) [sampleTx 1 1] with
        Header := { sampleHeader 5 900 with NodePosition := -1 } }.Check sampleEnv []).ret
      = .panic :=
  ⟨rfl, rfl, by decide, by decide⟩

/-! ## The first input transaction on the error path of PlaySafe -/

/-- When generating, if Play returns an error and leaves no transaction, PlaySafe
reads inputTx[0]: with an empty input list this is a panic, with a first
transaction it is not. -/
theorem playSafe_reads_first_input (env : Env) (tr : Trace) (vm : VM) (b : Block) (err : Err)
    (hstart : env.StartTransaction tr = none)
    (hplay : (b.Play env (tr ++ [Event.startTransaction none]) vm).ret = .ret (some err))
    (hgen : (b.Play env (tr ++ [Event.startTransaction none]) vm).b.GenBlock = true)
    (hempty : (b.Play env (tr ++ [Event.startTransaction none]) vm).b.Transactions = []) :
    (b.Transactions = [] → (b.PlaySafe env tr vm).ret = .panic) ∧
    (b.Transactions ≠ [] → (b.PlaySafe env tr vm).ret ≠ .panic) := by
  unfold Block.PlaySafe
  simp only [hstart, hplay, hgen, hempty, List.length_nil, and_self, if_true]
  constructor
  · intro hnil
    rw [hnil]
  · intro hne
    cases hb : b.Transactions with
    | nil => exact absurd hb hne
    | cons t0 ts =>
      simp only []
      split <;> · intro h; cases h

/-- C27 fails in the code: a block is generated with no transaction and persisting
the accumulators fails, so Play returns the error of AfterPlayTxs and leaves no
transaction; PlaySafe rolls back and then reads inputTx[0] of the empty input
list, which is a panic. -/
theorem playSafe_empty_input_panics :
    (sampleGenBlock []).GenBlock = true ∧
    (sampleGenBlock []).Transactions = [] ∧
    ((sampleGenBlock []).Play afterPlayFailsEnv [Event.startTransaction none] sampleVM).ret
      = .ret (some (.errorf "db")) ∧
    ((sampleGenBlock []).PlaySafe afterPlayFailsEnv [] sampleVM).ret = .panic ∧
    (sampleGenBlock []).playSafeEvents afterPlayFailsEnv [] sampleVM
      = [Event.startTransaction none, Event.afterPlayTxs 5 ⟨[], [], []⟩ (some (.errorf "db")),
          Event.dbRollback] := by
  decide

/-! ## The error SysUpdate returns -/

/-- Once the table was read and the honor nodes were loaded, SysUpdate returns the
error of parsing taxes_wallet alone: the error of parsing fuel_rate is overwritten. -/
theorem SysUpdate_returns_wallets_error (env : SysparEnv) (s : Syspar)
    (rows : List (String × String)) (hrows : env.GetAllSystemParameters = .ok rows)
    (hnodes : SysString { s with cache := cacheRows rows s.cache } HonorNodes = "") :
    (SysUpdate env s).1
      = (getParams env { s with cache := cacheRows rows s.cache } TaxesWallet).2 := by
  unfold SysUpdate
  rw [hrows]
  simp only [hnodes]
  rfl

/-- C28 fails in the code: the table holds fuel_rate = bad, which is not JSON, and
a taxes_wallet that parses.  Parsing fuel_rate fails, and SysUpdate still returns
nil: the error is overwritten by the result of parsing taxes_wallet, and the map
fuels is left empty. -/
theorem sysUpdate_drops_fuel_error :
    SysString (SysUpdate badFuelSysparEnv sampleSyspar).2 FuelRate = "bad" ∧
    (getParams badFuelSysparEnv (SysUpdate badFuelSysparEnv sampleSyspar).2 FuelRate).2
      = some (.errorf "invalid character b looking for beginning of value") ∧
    (getParams badFuelSysparEnv (SysUpdate badFuelSysparEnv sampleSyspar).2 TaxesWallet).2 = none ∧
    (SysUpdate badFuelSysparEnv sampleSyspar).1 = none ∧
    (SysUpdate badFuelSysparEnv sampleSyspar).2.fuels = [] ∧
    (SysUpdate badFuelSysparEnv sampleSyspar).2.wallets = [(1, "w")] := by
  decide

/-! ## compareVer -/

theorem versionTriple_inv (env : MigrationEnv) (a : String) (t : Int × Int × Int)
    (h : versionTriple env a = some t) :
    ∃ x y z, env.Split a = [x, y, z] ∧ env.Atoi x = .ok t.1 ∧ env.Atoi y = .ok t.2.1 ∧
      env.Atoi z = .ok t.2.2 := by
  unfold versionTriple at h
  split at h
  · rename_i x y z hs
    split at h
    · rename_i i j k hx hy hz
      simp only [Option.some.injEq] at h
      subst h
      exact ⟨x, y, z, hs, hx, hy, hz⟩
    · cases h
  · cases h

/-- On two versions of three integers each, compareVer compares the first parts,
then the second, then the third. -/
theorem compareVer_triples (env : MigrationEnv) (a b : String) (ta tb : Int × Int × Int)
    (ha : versionTriple env a = some ta) (hb : versionTriple env b = some tb) :
    compareVer env a b
      = .ret (.ok (if ta.1 < tb.1 then -1 else if ta.1 > tb.1 then 1
          else if ta.2.1 < tb.2.1 then -1 else if ta.2.1 > tb.2.1 then 1
          else if ta.2.2 < tb.2.2 then -1 else if ta.2.2 > tb.2.2 then 1 else 0)) := by
  obtain ⟨x, y, z, hsa, hx, hy, hz⟩ := versionTriple_inv env a ta ha
  obtain ⟨x1, y1, z1, hsb, hx1, hy1, hz1⟩ := versionTriple_inv env b tb hb
  unfold compareVer
  simp only [hsa, hsb, List.length_cons, List.length_nil, ne_eq, not_true_eq_false, if_false]
  simp only [compareLoop, hx, hy, hz, hx1, hy1, hz1, List.getElem?_cons_zero,
    List.getElem?_cons_succ, Nat.zero_add, Nat.reduceAdd]
  split
  · rfl
  · split
    · rfl
    · split
      · rfl
      · split
        · rfl
        · split
          · rfl
          · split <;> rfl

/-- The three-step comparison of two triples is their lexicographic comparison. -/
theorem cmp3_spec (x y : Int × Int × Int) (r : Int)
    (hr : r = if x.1 < y.1 then -1 else if x.1 > y.1 then 1
          else if x.2.1 < y.2.1 then -1 else if x.2.1 > y.2.1 then 1
          else if x.2.2 < y.2.2 then -1 else if x.2.2 > y.2.2 then 1 else 0) :
    (r = -1 ∨ r = 0 ∨ r = 1) ∧ (r = -1 ↔ lexLt x y) ∧ (r = 0 ↔ x = y) ∧ (r = 1 ↔ lexLt y x) := by
  obtain ⟨x1, x2, x3⟩ := x
  obtain ⟨y1, y2, y3⟩ := y
  simp only [lexLt, Prod.mk.injEq] at hr ⊢
  rcases lt_trichotomy x1 y1 with h1 | h1 | h1
  · rw [if_pos h1] at hr
    subst hr
    refine ⟨Or.inl rfl, ?_, ?_, ?_⟩
    · exact ⟨fun _ => Or.inl h1, fun _ => rfl⟩
    · constructor
      · intro h; exact absurd h (by decide)
      · intro h; omega
    · constructor
      · intro h; exact absurd h (by decide)
      · intro h; omega
  · subst h1
    rw [if_neg (lt_irrefl _), if_neg (lt_irrefl _)] at hr
    rcases lt_trichotomy x2 y2 with h2 | h2 | h2
    · rw [if_pos h2] at hr
      subst hr
      refine ⟨Or.inl rfl, ?_, ?_, ?_⟩
      · exact ⟨fun _ => Or.inr ⟨rfl, Or.inl h2⟩, fun _ => rfl⟩
      · constructor
        · intro h; exact absurd h (by decide)
        · intro h; omega
      · constructor
        · intro h; exact absurd h (by decide)
        · intro h; omega
    · subst h2
      rw [if_neg (lt_irrefl _), if_neg (lt_irrefl _)] at hr
      rcases lt_trichotomy x3 y3 with h3 | h3 | h3
      · rw [if_pos h3] at hr
        subst hr
        refine ⟨Or.inl rfl, ?_, ?_, ?_⟩
        · exact ⟨fun _ => Or.inr ⟨rfl, Or.inr ⟨rfl, h3⟩⟩, fun _ => rfl⟩
        · constructor
          · intro h; exact absurd h (by decide)
          · intro h; omega
        · constructor
          · intro h; exact absurd h (by decide)
          · intro h; omega
      · subst h3
        rw [if_neg (lt_irrefl _), if_neg (lt_irrefl _)] at hr
        subst hr
        refine ⟨Or.inr (Or.inl rfl), ?_, ?_, ?_⟩
        · constructor
          · intro h; exact absurd h (by decide)
          · intro h; omega
        · exact ⟨fun _ => ⟨rfl, rfl, rfl⟩, fun _ => rfl⟩
        · constructor
          · intro h; exact absurd h (by decide)
          · intro h; omega
      · rw [if_neg (not_lt.2 (le_of_lt h3)), if_pos h3] at hr
        subst hr
        refine ⟨Or.inr (Or.inr rfl), ?_, ?_, ?_⟩
        · constructor
          · intro h; exact absurd h (by decide)
          · intro h; omega
        · constructor
          · intro h; exact absurd h (by decide)
          · intro h; omega
        · exact ⟨fun _ => Or.inr ⟨rfl, Or.inr ⟨rfl, h3⟩⟩, fun _ => rfl⟩
    · rw [if_neg (not_lt.2 (le_of_lt h2)), if_pos h2] at hr
      subst hr
      refine ⟨Or.inr (Or.inr rfl), ?_, ?_, ?_⟩
      · constructor
        · intro h; exact absurd h (by decide)
        · intro h; omega
      · constructor
        · intro h; exact absurd h (by decide)
        · intro h; omega
      · exact ⟨fun _ => Or.inr ⟨rfl, Or.inl h2⟩, fun _ => rfl⟩
  · rw [if_neg (not_lt.2 (le_of_lt h1)), if_pos h1] at hr
    subst hr
    refine ⟨Or.inr (Or.inr rfl), ?_, ?_, ?_⟩
    · constructor
      · intro h; exact absurd h (by decide)
      · intro h; omega
    · constructor
      · intro h; exact absurd h (by decide)
      · intro h; omega
    · exact ⟨fun _ => Or.inl h1, fun _ => rfl⟩

/-- The lexicographic order on triples is irreflexive, asymmetric and transitive. -/
theorem lexLt_order (x y z : Int × Int × Int) :
    ¬ lexLt x x ∧ (lexLt x y → ¬ lexLt y x) ∧ (lexLt x y → lexLt y z → lexLt x z) ∧
    (lexLt x y → y = z → lexLt x z) ∧ (x = y → lexLt y z → lexLt x z) := by
  obtain ⟨x1, x2, x3⟩ := x
  obtain ⟨y1, y2, y3⟩ := y
  obtain ⟨z1, z2, z3⟩ := z
  simp only [lexLt, Prod.mk.injEq]
  refine ⟨?_, ?_, ?_, ?_, ?_⟩
  · omega
  · intro h; omega
  · intro h1 h2; omega
  · intro h1 h2; omega
  · intro h1 h2; omega

/-- On versions that compareVer reads as triples (three parts, each accepted by
Atoi) it returns no error; it returns -1, 0 or 1 as the triple of a is
lexicographically less than, equal to or greater than the triple of b; so
compareVer(a, a) = 0, compareVer(b, a) = -compareVer(a, b), and the order is
transitive. -/
theorem compareVer_triples_order (env : MigrationEnv) (a b c : String)
    (ta tb tc : Int × Int × Int)
    (ha : versionTriple env a = some ta) (hb : versionTriple env b = some tb)
    (hc : versionTriple env c = some tc) :
    ∃ r, compareVer env a b = .ret (.ok r) ∧ (r = -1 ∨ r = 0 ∨ r = 1) ∧
      (r = -1 ↔ lexLt ta tb) ∧ (r = 0 ↔ ta = tb) ∧ (r = 1 ↔ lexLt tb ta) ∧
      compareVer env a a = .ret (.ok 0) ∧
      compareVer env b a = .ret (.ok (-r)) ∧
      ∃ r2 r3, compareVer env b c = .ret (.ok r2) ∧ compareVer env a c = .ret (.ok r3) ∧
        (r ≤ 0 → r2 ≤ 0 → r3 ≤ 0) ∧ (r = -1 → r2 ≤ 0 → r3 = -1) ∧ (r ≤ 0 → r2 = -1 → r3 = -1) := by
  obtain ⟨k1, l1, e1, g1⟩ := cmp3_spec ta tb _ rfl
  obtain ⟨k2, l2, e2, g2⟩ := cmp3_spec tb tc _ rfl
  obtain ⟨k3, l3, e3, g3⟩ := cmp3_spec ta tc _ rfl
  obtain ⟨k4, l4, e4, g4⟩ := cmp3_spec tb ta _ rfl
  obtain ⟨k5, l5, e5, g5⟩ := cmp3_spec ta ta _ rfl
  obtain ⟨o1, o2, o3, o4, o5⟩ := lexLt_order ta tb tc
  obtain ⟨p1, p2, _⟩ := lexLt_order tb ta ta
  obtain ⟨q1, _⟩ := lexLt_order ta ta ta
  rw [compareVer_triples env a b ta tb ha hb, compareVer_triples env a a ta ta ha ha,
    compareVer_triples env b a tb ta hb ha, compareVer_triples env b c tb tc hb hc,
    compareVer_triples env a c ta tc ha hc]
  generalize (if ta.1 < tb.1 then (-1 : Int) else if ta.1 > tb.1 then 1
          else if ta.2.1 < tb.2.1 then -1 else if ta.2.1 > tb.2.1 then 1
          else if ta.2.2 < tb.2.2 then -1 else if ta.2.2 > tb.2.2 then 1 else 0) = r at *
  generalize (if tb.1 < tc.1 then (-1 : Int) else if tb.1 > tc.1 then 1
          else if tb.2.1 < tc.2.1 then -1 else if tb.2.1 > tc.2.1 then 1
          else if tb.2.2 < tc.2.2 then -1 else if tb.2.2 > tc.2.2 then 1 else 0) = r2 at *
  generalize (if ta.1 < tc.1 then (-1 : Int) else if ta.1 > tc.1 then 1
          else if ta.2.1 < tc.2.1 then -1 else if ta.2.1 > tc.2.1 then 1
          else if ta.2.2 < tc.2.2 then -1 else if ta.2.2 > tc.2.2 then 1 else 0) = r3 at *
  generalize (if tb.1 < ta.1 then (-1 : Int) else if tb.1 > ta.1 then 1
          else if tb.2.1 < ta.2.1 then -1 else if tb.2.1 > ta.2.1 then 1
          else if tb.2.2 < ta.2.2 then -1 else if tb.2.2 > ta.2.2 then 1 else 0) = r4 at *
  generalize (if ta.1 < ta.1 then (-1 : Int) else if ta.1 > ta.1 then 1
          else if ta.2.1 < ta.2.1 then -1 else if ta.2.1 > ta.2.1 then 1
          else if ta.2.2 < ta.2.2 then -1 else if ta.2.2 > ta.2.2 then 1 else 0) = r5 at *
  have h5 : r5 = 0 := e5.2 rfl
  have h4 : r4 = -r := by
    rcases k1 with h | h | h
    · have := g4.2 (l1.1 h); omega
    · have := e4.2 ((e1.1 h).symm); omega
    · have := l4.2 (g1.1 h); omega
  refine ⟨r, rfl, k1, l1, e1, g1, by rw [h5], by rw [h4], r2, r3, rfl, rfl, ?_, ?_, ?_⟩
  · intro hr hr2
    by_contra hcon
    have h3 : r3 = 1 := by omega
    have hgt := g3.1 h3
    rcases k1 with h | h | h
    · rcases k2 with h' | h' | h'
      · exact (lexLt_order ta tc ta).2.1 (o3 (l1.1 h) (l2.1 h')) hgt
      · exact (lexLt_order ta tc ta).2.1 (o4 (l1.1 h) (e2.1 h')) hgt
      · omega
    · rcases k2 with h' | h' | h'
      · exact (lexLt_order ta tc ta).2.1 (o5 (e1.1 h) (l2.1 h')) hgt
      · have : ta = tc := (e1.1 h).trans (e2.1 h')
        rw [this] at hgt
        exact (lexLt_order tc tc tc).1 hgt
      · omega
    · omega
  · intro hr hr2
    apply l3.2
    rcases k2 with h' | h' | h'
    · exact o3 (l1.1 hr) (l2.1 h')
    · exact o4 (l1.1 hr) (e2.1 h')
    · omega
  · intro hr hr2
    apply l3.2
    rcases k1 with h | h | h
    · exact o3 (l1.1 h) (l2.1 hr2)
    · exact o5 (e1.1 h) (l2.1 hr2)
    · omega

/-- A version of three dot-separated decimal integers within the range of int is
one that compareVer reads as that triple with the Go library. -/
theorem versionTriple_withGoLibrary (env : MigrationEnv) (intSize : Nat) (a : String)
    (ta : Int × Int × Int) (ha : decimalTriple a = some ta)
    (hr : tripleInRange intSize ta = true) :
    versionTriple (env.withGoLibrary intSize) a = some ta := by
  unfold decimalTriple at ha
  unfold versionTriple
  simp only [MigrationEnv.withGoLibrary]
  split at ha
  · rename_i x y z hs
    split at ha
    · rename_i i j k hi hj hk
      cases ha
      simp only [tripleInRange, Bool.and_eq_true] at hr
      obtain ⟨⟨h1, h2⟩, h3⟩ := hr
      simp only [strconv.Atoi, hi, hj, hk, h1, h2, h3, if_true]
    · cases ha
  · cases ha

/-- C29, as stated, fails: the version 9223372036854775808.0.0 consists of three
dot-separated decimal integers, but strconv.Atoi rejects its first part, which an
int (of 64 bits) cannot hold, and compareVer returns the error for a wrong
version. -/
theorem compareVer_out_of_range_counterexample :
    decimalTriple "9223372036854775808.0.0" = some (9223372036854775808, 0, 0) ∧
    decimalTriple "0.0.0" = some (0, 0, 0) ∧
    compareVer (sampleMigrationEnv.withGoLibrary 64) "9223372036854775808.0.0" "0.0.0"
      = .ret (.error (.errorf "Wrong version 9223372036854775808.0.0")) ∧
    compareVer (sampleMigrationEnv.withGoLibrary 64) "0.0.0" "9223372036854775808.0.0"
      = .ret (.error (.errorf "Wrong version 9223372036854775808.0.0")) :=
  ⟨by decide, by decide, rfl, rfl⟩

/-- C29 (amended): for versions a, b (and c) that each consist of exactly three
dot-separated decimal integers, each within the range of the type int, compareVer
returns no error; it returns -1, 0 or 1 as the triple of a is lexicographically
less than, equal to or greater than the triple of b; so compareVer(a, a) = 0,
compareVer(b, a) = -compareVer(a, b), and the order is transitive. -/
theorem compareVer_decimal_triples (env : MigrationEnv) (intSize : Nat) (a b c : String)
    (ta tb tc : Int × Int × Int)
    (ha : decimalTriple a = some ta) (hb : decimalTriple b = some tb)
    (hc : decimalTriple c = some tc)
    (hra : tripleInRange intSize ta = true) (hrb : tripleInRange intSize tb = true)
    (hrc : tripleInRange intSize tc = true) :
    ∃ r, compareVer (env.withGoLibrary intSize) a b = .ret (.ok r) ∧ (r = -1 ∨ r = 0 ∨ r = 1) ∧
      (r = -1 ↔ lexLt ta tb) ∧ (r = 0 ↔ ta = tb) ∧ (r = 1 ↔ lexLt tb ta) ∧
      compareVer (env.withGoLibrary intSize) a a = .ret (.ok 0) ∧
      compareVer (env.withGoLibrary intSize) b a = .ret (.ok (-r)) ∧
      ∃ r2 r3, compareVer (env.withGoLibrary intSize) b c = .ret (.ok r2) ∧
        compareVer (env.withGoLibrary intSize) a c = .ret (.ok r3) ∧
        (r ≤ 0 → r2 ≤ 0 → r3 ≤ 0) ∧ (r = -1 → r2 ≤ 0 → r3 = -1) ∧ (r ≤ 0 → r2 = -1 → r3 = -1) :=
  compareVer_triples_order (env.withGoLibrary intSize) a b c ta tb tc
    (versionTriple_withGoLibrary env intSize a ta ha hra)
    (versionTriple_withGoLibrary env intSize b tb hb hrb)
    (versionTriple_withGoLibrary env intSize c tc hc hrc)

/-- C29 (amended) at the versions 0.1.5, 0.1.6 and 3.2.0 with an int of 64 bits. -/
theorem compareVer_decimal_triples_witness :
    decimalTriple "0.1.5" = some (0, 1, 5) ∧ decimalTriple "0.1.6" = some (0, 1, 6) ∧
    decimalTriple "3.2.0" = some (3, 2, 0) ∧
    tripleInRange 64 (0, 1, 5) = true ∧ tripleInRange 64 (0, 1, 6) = true ∧
    tripleInRange 64 (3, 2, 0) = true ∧
    compareVer (sampleMigrationEnv.withGoLibrary 64) "0.1.5" "0.1.6" = .ret (.ok (-1)) ∧
    ∃ r, compareVer (sampleMigrationEnv.withGoLibrary 64) "0.1.5" "0.1.6" = .ret (.ok r) ∧
      (r = -1 ∨ r = 0 ∨ r = 1) ∧
      (r = -1 ↔ lexLt (0, 1, 5) (0, 1, 6)) ∧ (r = 0 ↔ ((0, 1, 5) : Int × Int × Int) = (0, 1, 6)) ∧
      (r = 1 ↔ lexLt (0, 1, 6) (0, 1, 5)) ∧
      compareVer (sampleMigrationEnv.withGoLibrary 64) "0.1.5" "0.1.5" = .ret (.ok 0) ∧
      compareVer (sampleMigrationEnv.withGoLibrary 64) "0.1.6" "0.1.5" = .ret (.ok (-r)) ∧
      ∃ r2 r3, compareVer (sampleMigrationEnv.withGoLibrary 64) "0.1.6" "3.2.0" = .ret (.ok r2) ∧
        compareVer (sampleMigrationEnv.withGoLibrary 64) "0.1.5" "3.2.0" = .ret (.ok r3) ∧
        (r ≤ 0 → r2 ≤ 0 → r3 ≤ 0) ∧ (r = -1 → r2 ≤ 0 → r3 = -1) ∧ (r ≤ 0 → r2 = -1 → r3 = -1) :=
  ⟨by decide, by decide, by decide, by decide, by decide, by decide, rfl,
    compareVer_decimal_triples sampleMigrationEnv 64 "0.1.5" "0.1.6" "3.2.0" (0, 1, 5) (0, 1, 6)
      (3, 2, 0) (by decide) (by decide) (by decide) (by decide) (by decide) (by decide)⟩

/-! ## migrate -/

/-- The test of migrate on a version: the comparison with the database version is
negative exactly when the version is lexicographically greater. -/
theorem compareVer_pending (env : MigrationEnv) (dbVer v : String) (tdb t : Int × Int × Int)
    (hdb : versionTriple env dbVer = some tdb) (hv : versionTriple env v = some t) :
    ∃ r, compareVer env dbVer v = .ret (.ok r) ∧ (r ≥ 0 ↔ ¬ lexLt tdb t) := by
  obtain ⟨k, l, e, g⟩ := cmp3_spec tdb t _ rfl
  rw [compareVer_triples env dbVer v tdb t hdb hv]
  refine ⟨_, rfl, ?_⟩
  constructor
  · intro hge hlt
    have := l.2 hlt
    omega
  · intro hn
    rcases k with h | h | h
    · exact absurd (l.1 h) hn
    · omega
    · omega

/-- The loop of migrate applies the pending migrations. -/
theorem migrateLoop_eq (env : MigrationEnv) (dbVer : String) (tdb : Int × Int × Int)
    (hdb : versionTriple env dbVer = some tdb) :
    ∀ (ms : List Migration) (calls : List MigrationCall),
      (∀ m ∈ ms, ∃ t, versionTriple env m.version = some t) →
      migrateLoop env dbVer ms calls = applyPending env (pendingMigrations env tdb ms) calls := by
  intro ms
  induction ms with
  | nil => intro calls _; rfl
  | cons m rest ih =>
    intro calls hms
    obtain ⟨t, ht⟩ := hms m (List.mem_cons_self _ _)
    have hrest : ∀ m1 ∈ rest, ∃ t1, versionTriple env m1.version = some t1 :=
      fun m1 h1 => hms m1 (List.mem_cons_of_mem _ h1)
    obtain ⟨r, hr, hiff⟩ := compareVer_pending env dbVer m.version tdb t hdb ht
    simp only [migrateLoop, hr]
    by_cases hge : r ≥ 0
    · have hn : ¬ lexLt tdb t := hiff.1 hge
      have hp : pendingMigrations env tdb (m :: rest) = pendingMigrations env tdb rest := by
        unfold pendingMigrations
        rw [List.filter_cons_of_neg]
        simp [ht, hn]
      rw [if_pos hge, hp]
      exact ih calls hrest
    · have hl : lexLt tdb t := by
        by_contra hn
        exact hge (hiff.2 hn)
      have hp : pendingMigrations env tdb (m :: rest) = m :: pendingMigrations env tdb rest := by
        unfold pendingMigrations
        rw [List.filter_cons_of_pos]
        simp [ht, hl]
      rw [if_neg hge, hp]
      simp only [applyPending]
      cases hconv : (if m.template = true then env.sqlConvert [m.data] else Except.ok m.data) with
      | error err => rfl
      | ok data =>
        simp only []
        cases hap : env.ApplyMigration calls m.version data with
        | some err => rfl
        | none => exact ih _ hrest

/-- Applying pending migrations never panics; the calls of ApplyMigration it makes
are for the first k pending migrations, in list order, each but the last with the
result nil; it returns nil exactly when all of them were applied, and otherwise
the error of the failed conversion or of the failed call, which is the last. -/
theorem applyPending_spec (env : MigrationEnv) :
    ∀ (pend : List Migration) (calls : List MigrationCall),
      ∃ k new, k ≤ pend.length ∧ (applyPending env pend calls).calls = calls ++ new ∧
        new.map (fun c => c.version) = (pend.take k).map (fun m => m.version) ∧
        (∀ c ∈ new.dropLast, c.result = none) ∧
        ((applyPending env pend calls).ret = .ret none ∨
          ∃ e, (applyPending env pend calls).ret = .ret (some e)) ∧
        ((applyPending env pend calls).ret = .ret none →
          k = pend.length ∧ ∀ c ∈ new, c.result = none) ∧
        (∀ e, (applyPending env pend calls).ret = .ret (some e) →
          (∃ c, new.getLast? = some c ∧ c.result = some e) ∨
          (∃ m, pend[k]? = some m ∧ m.template = true ∧ env.sqlConvert [m.data] = .error e ∧
            ∀ c ∈ new, c.result = none)) := by
  intro pend
  induction pend with
  | nil =>
    intro calls
    exact ⟨0, [], Nat.le_refl _, by simp [applyPending], rfl, by simp, Or.inl rfl,
      fun _ => ⟨rfl, by simp⟩, fun e h => by simp [applyPending] at h⟩
  | cons m rest ih =>
    intro calls
    simp only [applyPending]
    cases hconv : (if m.template = true then env.sqlConvert [m.data] else Except.ok m.data) with
    | error err =>
      have htemp : m.template = true ∧ env.sqlConvert [m.data] = .error err := by
        by_cases ht : m.template = true
        · rw [if_pos ht] at hconv
          exact ⟨ht, hconv⟩
        · rw [if_neg ht] at hconv
          cases hconv
      refine ⟨0, [], Nat.zero_le _, by simp, rfl, by simp, Or.inr ⟨err, rfl⟩, ?_, ?_⟩
      · intro h
        cases h
      · intro e h
        simp only [Outcome.ret.injEq, Option.some.injEq] at h
        subst h
        exact Or.inr ⟨m, by simp, htemp.1, htemp.2, by simp⟩
    | ok data =>
      simp only []
      cases hap : env.ApplyMigration calls m.version data with
      | some err =>
        refine ⟨1, [{ version := m.version, data := data, result := some err }], by simp, rfl,
          by simp, by simp, Or.inr ⟨err, rfl⟩, ?_, ?_⟩
        · intro h
          cases h
        · intro e h
          simp only [Outcome.ret.injEq, Option.some.injEq] at h
          subst h
          exact Or.inl ⟨_, rfl, rfl⟩
      | none =>
        simp only []
        obtain ⟨k, new, hk, hcalls, hver, hdrop, hret, hnil, herr⟩ :=
          ih (calls ++ [{ version := m.version, data := data, result := none }])
        refine ⟨k + 1, { version := m.version, data := data, result := none } :: new,
          by simpa using hk, by rw [hcalls]; simp, by simp [hver], ?_, hret, ?_, ?_⟩
        · intro c hc
          cases new with
          | nil => simp at hc
          | cons n ns =>
            rw [List.dropLast_cons₂] at hc
            rcases List.mem_cons.1 hc with h1 | h1
            · rw [h1]
            · exact hdrop c h1
        · intro h
          obtain ⟨h1, h2⟩ := hnil h
          refine ⟨by simp [h1], ?_⟩
          intro c hc
          rcases List.mem_cons.1 hc with h3 | h3
          · rw [h3]
          · exact h2 c h3
        · intro e h
          rcases herr e h with ⟨c, hc1, hc2⟩ | ⟨m1, hm1, hm2, hm3, hm4⟩
          · left
            refine ⟨c, ?_, hc2⟩
            cases new with
            | nil => simp at hc1
            | cons n ns =>
              rw [List.getLast?_cons_cons]
              exact hc1
          · right
            refine ⟨m1, by simpa using hm1, hm2, hm3, ?_⟩
            intro c hc
            rcases List.mem_cons.1 hc with h3 | h3
            · rw [h3]
            · exact hm4 c h3

/-- C30: for well-formed versions (the database version, the application version
and the versions of the list are triples of integers), migrate applies no
migration and returns nil when the database version is greater than or equal to
the application version.  Otherwise it applies, in list order, the migrations of
the list whose version is strictly greater than the database version read at the
start; it stops at the first one whose application fails (the conversion of its
template or the call of ApplyMigration) and returns that error, and it returns nil
if all of them were applied.  It never panics. -/
theorem migrate_applies_pending (env : MigrationEnv) (appVer dbVer : String)
    (ms : List Migration) (tdb tapp : Int × Int × Int)
    (hcur : env.CurrentVersion = .ok dbVer)
    (hdb : versionTriple env dbVer = some tdb) (happ : versionTriple env appVer = some tapp)
    (hms : ∀ m ∈ ms, ∃ t, versionTriple env m.version = some t) :
    (¬ lexLt tdb tapp → migrate env appVer ms = ⟨.ret none, []⟩) ∧
    (∀ m, m ∈ pendingMigrations env tdb ms ↔
      m ∈ ms ∧ ∃ t, versionTriple env m.version = some t ∧ lexLt tdb t) ∧
    (pendingMigrations env tdb ms).Sublist ms ∧
    (lexLt tdb tapp →
      migrate env appVer ms = applyPending env (pendingMigrations env tdb ms) [] ∧
      ∃ k, k ≤ (pendingMigrations env tdb ms).length ∧
        (migrate env appVer ms).calls.map (fun c => c.version)
          = ((pendingMigrations env tdb ms).take k).map (fun m => m.version) ∧
        (∀ c ∈ (migrate env appVer ms).calls.dropLast, c.result = none) ∧
        ((migrate env appVer ms).ret = .ret none ∨
          ∃ e, (migrate env appVer ms).ret = .ret (some e)) ∧
        ((migrate env appVer ms).ret = .ret none →
          k = (pendingMigrations env tdb ms).length ∧
          ∀ c ∈ (migrate env appVer ms).calls, c.result = none) ∧
        (∀ e, (migrate env appVer ms).ret = .ret (some e) →
          (∃ c, (migrate env appVer ms).calls.getLast? = some c ∧ c.result = some e) ∨
          (∃ m, (pendingMigrations env tdb ms)[k]? = some m ∧ m.template = true ∧
            env.sqlConvert [m.data] = .error e ∧
            ∀ c ∈ (migrate env appVer ms).calls, c.result = none))) := by
  obtain ⟨r, hr, hiff⟩ := compareVer_pending env dbVer appVer tdb tapp hdb happ
  refine ⟨?_, ?_, ?_, ?_⟩
  · intro hn
    unfold migrate
    simp only [hcur, hr]
    rw [if_pos (hiff.2 hn)]
  · intro m
    unfold pendingMigrations
    rw [List.mem_filter]
    constructor
    · rintro ⟨hm, hf⟩
      obtain ⟨t, ht⟩ := hms m hm
      rw [ht] at hf
      exact ⟨hm, t, ht, by simpa using hf⟩
    · rintro ⟨hm, t, ht, hl⟩
      refine ⟨hm, ?_⟩
      rw [ht]
      simpa using hl
  · exact List.filter_sublist _
  · intro hl
    have hlt : ¬ r ≥ 0 := fun hge => hiff.1 hge hl
    have heq : migrate env appVer ms = applyPending env (pendingMigrations env tdb ms) [] := by
      unfold migrate
      simp only [hcur, hr]
      rw [if_neg hlt]
      exact migrateLoop_eq env dbVer tdb hdb ms [] hms
    refine ⟨heq, ?_⟩
    obtain ⟨k, new, hk, hcalls, hver, hdrop, hret, hnil, herr⟩ :=
      applyPending_spec env (pendingMigrations env tdb ms) []
    rw [heq]
    rw [List.nil_append] at hcalls
    rw [hcalls]
    exact ⟨k, hk, hver, hdrop, hret, hnil, herr⟩

/-- C30 at a database of version 0.1.5 and an application of version 3.3.0: of the
five migrations the versions 0.1.6 and 3.2.0 are tried, in this order, the second
fails and its error is returned; the version 3.3.0 is not tried. -/
theorem migrate_applies_pending_witness :
    (migrate sampleMigrationEnv "3.3.0" sampleMigrations).ret = .ret (some (.errorf "apply")) ∧
    (migrate sampleMigrationEnv "3.3.0" sampleMigrations).calls
      = [⟨"0.1.6", "c", none⟩, ⟨"3.2.0", "d", some (.errorf "apply")⟩] ∧
    (migrate sampleMigrationEnv "0.1.5" sampleMigrations).calls = [] ∧
    (lexLt (0, 1, 5) (3, 3, 0) →
      migrate sampleMigrationEnv "3.3.0" sampleMigrations
        = applyPending sampleMigrationEnv (pendingMigrations sampleMigrationEnv (0, 1, 5)
            sampleMigrations) []) :=
  ⟨by decide, by decide, by decide,
    fun h => ((migrate_applies_pending sampleMigrationEnv "3.3.0" "0.1.5" sampleMigrations
      (0, 1, 5) (3, 3, 0) rfl (by decide) (by decide)
      (fun m hm => Option.isSome_iff_exists.1
        ((by decide : ∀ m ∈ sampleMigrations,
          (versionTriple sampleMigrationEnv m.version).isSome = true) m hm))).2.2.2 h).1⟩

/-! ## The disseminator marks as sent only what was sent -/

/-- The end of sendBlockWithTxHashes only appends calls that mark. -/
theorem markAllSent_trace (env : DissEnv) (tr : List DissEvent) (block : Option Int)
    (trs : Option (List UnsentTx)) :
    ∃ post, (markAllSent env tr block trs).trace = tr ++ post ∧
      ∀ ev ∈ post, ev.isMark = true := by
  unfold markAllSent
  cases block with
  | none =>
    cases trs with
    | none => exact ⟨[], by simp, by simp⟩
    | some txs => exact ⟨[_], rfl, by simp [DissEvent.isMark]⟩
  | some id =>
    cases hm : env.MarkSent tr id with
    | some err =>
      exact ⟨[DissEvent.markSent id (some err)], by simp only [hm], by simp [DissEvent.isMark]⟩
    | none =>
      cases trs with
      | none =>
        exact ⟨[DissEvent.markSent id none], by simp only [hm], by simp [DissEvent.isMark]⟩
      | some txs =>
        exact ⟨[DissEvent.markSent id none,
            DissEvent.markTransactionSentBatches (txs.map (fun t => t.Hash))
              (env.MarkTransactionSentBatches (tr ++ [DissEvent.markSent id none])
                (txs.map (fun t => t.Hash)))],
          by simp only [hm]; simp, by simp [DissEvent.isMark]⟩

/-- The send to the good hosts: either it fails, and its error is returned with
nothing marked, or it succeeds and only marks follow. -/
theorem sendToGoodHosts_trace (env : DissEnv) (tr : List DissEvent) (hosts : List String)
    (block : Option Int) (txs : List UnsentTx) (honorNodeID : Int) :
    (∃ e, env.SendFullBlockToAll tr hosts block txs honorNodeID = some e ∧
      sendToGoodHosts env tr hosts block (some txs) honorNodeID
        = ⟨.ret (some e), tr ++ [DissEvent.sendFullBlockToAll hosts block txs honorNodeID (some e)]⟩) ∨
    (env.SendFullBlockToAll tr hosts block txs honorNodeID = none ∧
      ∃ post, (sendToGoodHosts env tr hosts block (some txs) honorNodeID).trace
          = tr ++ [DissEvent.sendFullBlockToAll hosts block txs honorNodeID none] ++ post ∧
        ∀ ev ∈ post, ev.isMark = true) := by
  unfold sendToGoodHosts
  cases hs : env.SendFullBlockToAll tr hosts block txs honorNodeID with
  | some e =>
    left
    refine ⟨e, rfl, ?_⟩
    simp only [hs]
  | none =>
    right
    obtain ⟨post, hp, hm⟩ := markAllSent_trace env
      (tr ++ [DissEvent.sendFullBlockToAll hosts block txs honorNodeID none]) block (some txs)
    refine ⟨rfl, post, ?_, hm⟩
    simp only [hs]
    exact hp

/-- The runs of sendBlockWithTxHashes: either nothing is marked, and then the
function returned before the marks (nothing to send, an error of a collaborator,
or a panic on a nil list), or both sends succeeded and only marks follow the send
to the good hosts. -/
theorem sendBlock_shape (env : DissEnv) (block : Option Int) (honorNodeID : Int) :
    ((∀ ev ∈ (sendBlockWithTxHashes env block honorNodeID).trace, ev.isMark = false) ∧
      (∀ hosts blk txs e, DissEvent.sendFullBlockToAll hosts blk txs honorNodeID (some e)
          ∈ (sendBlockWithTxHashes env block honorNodeID).trace →
        (sendBlockWithTxHashes env block honorNodeID).ret = .ret (some e)) ∧
      (∀ e, env.FilterHosts env.GetRemoteHosts = .error e →
        DissEvent.filterHosts env.GetRemoteHosts
          ∈ (sendBlockWithTxHashes env block honorNodeID).trace →
        (sendBlockWithTxHashes env block honorNodeID).ret = .ret (some e))) ∨
    (∃ hosts banHosts txs pre post,
      env.FilterHosts env.GetRemoteHosts = .ok (hosts, banHosts) ∧
      env.GetAllUnsentTransactions env.GetMaxTxCount = .ok (some txs) ∧
      (sendBlockWithTxHashes env block honorNodeID).trace
        = pre ++ [DissEvent.sendFullBlockToAll hosts block txs honorNodeID none] ++ post ∧
      (∀ ev ∈ pre, ev.isMark = false) ∧
      (∀ ev ∈ pre, ∀ h1 b1 t1 i1 e, ev ≠ DissEvent.sendFullBlockToAll h1 b1 t1 i1 (some e)) ∧
      (∀ ev ∈ post, ev.isMark = true) ∧
      (banHosts.length > 0 →
        DissEvent.sendFullBlockToAll banHosts none txs honorNodeID none ∈ pre)) := by
  unfold sendBlockWithTxHashes
  simp only []
  cases hg : env.GetAllUnsentTransactions env.GetMaxTxCount with
  | error err =>
    left
    simp [DissEvent.isMark]
  | ok trs =>
    simp only []
    split
    · left
      simp [DissEvent.isMark]
    · cases hf : env.FilterHosts env.GetRemoteHosts with
      | error err =>
        left
        simp [DissEvent.isMark]
      | ok p =>
        obtain ⟨hosts, banHosts⟩ := p
        simp only []
        cases trs with
        | none =>
          left
          split
          · simp [DissEvent.isMark]
          · simp [sendToGoodHosts, DissEvent.isMark]
        | some txs =>
          by_cases hb : banHosts.length > 0
          · rw [if_pos hb]
            simp only []
            cases hs1 : env.SendFullBlockToAll
                [DissEvent.getAllUnsentTransactions env.GetMaxTxCount,
                  DissEvent.filterHosts env.GetRemoteHosts] banHosts none txs honorNodeID with
            | some e =>
              left
              simp only [List.singleton_append, List.cons_append, List.nil_append, hs1]
              simp [DissEvent.isMark]
              intro hosts1 blk1 txs1 e1 _ _ _ he
              rw [he]
            | none =>
              simp only [List.singleton_append, List.cons_append, List.nil_append, hs1]
              rcases sendToGoodHosts_trace env
                [DissEvent.getAllUnsentTransactions env.GetMaxTxCount,
                  DissEvent.filterHosts env.GetRemoteHosts,
                  DissEvent.sendFullBlockToAll banHosts none txs honorNodeID none]
                hosts block txs honorNodeID with ⟨e, he, hres⟩ | ⟨hnone, post, hpost, hmark⟩
              · left
                rw [hres]
                simp [DissEvent.isMark]
                intro hosts1 blk1 txs1 e1 _ _ _ h4
                rw [h4]
              · right
                refine ⟨hosts, banHosts, txs, _, post, rfl, rfl, hpost, ?_, ?_, hmark, ?_⟩
                · simp [DissEvent.isMark]
                · simp
                · intro _
                  simp
          · rw [if_neg hb]
            rcases sendToGoodHosts_trace env
              ([DissEvent.getAllUnsentTransactions env.GetMaxTxCount]
                ++ [DissEvent.filterHosts env.GetRemoteHosts])
              hosts block txs honorNodeID with ⟨e, he, hres⟩ | ⟨hnone, post, hpost, hmark⟩
            · left
              rw [hres]
              simp [DissEvent.isMark]
              intro hosts1 blk1 txs1 e1 _ _ _ h4
              rw [h4]
            · right
              refine ⟨hosts, banHosts, txs, _, post, rfl, rfl, hpost, ?_, ?_, hmark, ?_⟩
              · simp [DissEvent.isMark]
              · simp
              · intro h
                exact absurd h hb

/-- C22: in sendBlockWithTxHashes, a call that marks the unsent block or the unsent
transactions as sent is made only after the host filter succeeded, the send of the
transactions alone (no block) to the ban hosts, if there are any, returned nil, and
the send of the block with the transactions to the good hosts returned nil; nothing
but marks follows that send.  If filtering the hosts fails, or one of the two sends
fails, the function returns that error and marks neither the block nor any
transaction as sent. -/
theorem sendBlock_marks_after_sends (env : DissEnv) (block : Option Int) (honorNodeID : Int) :
    (∀ ev ∈ (sendBlockWithTxHashes env block honorNodeID).trace, ev.isMark = true →
      ∃ hosts banHosts txs pre post,
        env.FilterHosts env.GetRemoteHosts = .ok (hosts, banHosts) ∧
        env.GetAllUnsentTransactions env.GetMaxTxCount = .ok (some txs) ∧
        (sendBlockWithTxHashes env block honorNodeID).trace
          = pre ++ [DissEvent.sendFullBlockToAll hosts block txs honorNodeID none] ++ post ∧
        (∀ ev1 ∈ pre, ev1.isMark = false) ∧ (∀ ev1 ∈ post, ev1.isMark = true) ∧
        (banHosts.length > 0 →
          DissEvent.sendFullBlockToAll banHosts none txs honorNodeID none ∈ pre)) ∧
    (∀ hosts blk txs e, DissEvent.sendFullBlockToAll hosts blk txs honorNodeID (some e)
        ∈ (sendBlockWithTxHashes env block honorNodeID).trace →
      (sendBlockWithTxHashes env block honorNodeID).ret = .ret (some e) ∧
      ∀ ev ∈ (sendBlockWithTxHashes env block honorNodeID).trace, ev.isMark = false) ∧
    (∀ e, env.FilterHosts env.GetRemoteHosts = .error e →
      DissEvent.filterHosts env.GetRemoteHosts
        ∈ (sendBlockWithTxHashes env block honorNodeID).trace →
      (sendBlockWithTxHashes env block honorNodeID).ret = .ret (some e) ∧
      ∀ ev ∈ (sendBlockWithTxHashes env block honorNodeID).trace, ev.isMark = false) := by
  rcases sendBlock_shape env block honorNodeID with ⟨hno, hsend, hfil⟩ |
    ⟨hosts, banHosts, txs, pre, post, hf, hg, htr, hpre, hpresend, hpost, hban⟩
  · refine ⟨?_, ?_, ?_⟩
    · intro ev hev hm
      rw [hno ev hev] at hm
      cases hm
    · intro hosts blk txs e hmem
      exact ⟨hsend hosts blk txs e hmem, hno⟩
    · intro e he hmem
      exact ⟨hfil e he hmem, hno⟩
  · refine ⟨?_, ?_, ?_⟩
    · intro ev _ _
      exact ⟨hosts, banHosts, txs, pre, post, hf, hg, htr, hpre, hpost, hban⟩
    · intro hosts1 blk txs1 e hmem
      exfalso
      rw [htr] at hmem
      rcases List.mem_append.1 hmem with h1 | h1
      · rcases List.mem_append.1 h1 with h2 | h2
        · exact hpresend _ h2 hosts1 blk txs1 honorNodeID e rfl
        · have := List.mem_singleton.1 h2
          cases this
      · have := hpost _ h1
        simp [DissEvent.isMark] at this
    · intro e he _
      rw [hf] at he
      cases he

/-- The runs of the two samples: with every call succeeding the ban host gets the
transactions without the block, the good host the block with the transactions,
and then the block and the transactions are marked; when the send to the good
hosts fails nothing is marked and the error is returned. -/
theorem sendBlock_sample_runs :
    (sendBlockWithTxHashes sampleDissEnv (some 7) 0).ret = .ret none ∧
    (sendBlockWithTxHashes sampleDissEnv (some 7) 0).trace
      = [DissEvent.getAllUnsentTransactions 100,
          DissEvent.filterHosts ["10.0.0.1:7078", "10.0.0.2:7078"],
          DissEvent.sendFullBlockToAll ["10.0.0.2:7078"] none [⟨[1], [1, 1]⟩, ⟨[2], [2, 2]⟩] 0 none,
          DissEvent.sendFullBlockToAll ["10.0.0.1:7078"] (some 7) [⟨[1], [1, 1]⟩, ⟨[2], [2, 2]⟩] 0 none,
          DissEvent.markSent 7 none,
          DissEvent.markTransactionSentBatches [[1], [2]] none] ∧
    (sendBlockWithTxHashes failingSendDissEnv (some 7) 0).ret = .ret (some (.errorf "tcp")) ∧
    (sendBlockWithTxHashes failingSendDissEnv (some 7) 0).trace
      = [DissEvent.getAllUnsentTransactions 100,
          DissEvent.filterHosts ["10.0.0.1:7078", "10.0.0.2:7078"],
          DissEvent.sendFullBlockToAll ["10.0.0.2:7078"] none [⟨[1], [1, 1]⟩, ⟨[2], [2, 2]⟩] 0 none,
          DissEvent.sendFullBlockToAll ["10.0.0.1:7078"] (some 7) [⟨[1], [1, 1]⟩, ⟨[2], [2, 2]⟩] 0
            (some (.errorf "tcp"))] := by
  decide

/-! ## ToBlockID -/

theorem SetBytes_append (l : Bytes) (x : Fin 256) :
    SetBytes (l ++ [x]) = SetBytes l * 256 + x.val := by
  simp [SetBytes, List.foldl_append]

theorem SetBytes_bigBytesAux : ∀ (fuel n : Nat), n ≤ fuel → SetBytes (bigBytesAux fuel n) = n := by
  intro fuel
  induction fuel with
  | zero =>
    intro n h
    have : n = 0 := by omega
    subst this
    rfl
  | succ fuel ih =>
    intro n h
    unfold bigBytesAux
    by_cases hn : n = 0
    · rw [if_pos hn, hn]
      rfl
    · rw [if_neg hn, SetBytes_append, ih (n / 256) (by omega)]
      simp only []
      omega

theorem SetBytes_bigBytes (n : Nat) : SetBytes (bigBytes n) = n :=
  SetBytes_bigBytesAux n n (Nat.le_refl n)

theorem bigBytesAux_length : ∀ (fuel k n : Nat), n < 256 ^ k → (bigBytesAux fuel n).length ≤ k := by
  intro fuel
  induction fuel with
  | zero =>
    intro k n _
    simp [bigBytesAux]
  | succ fuel ih =>
    intro k n h
    unfold bigBytesAux
    by_cases hn : n = 0
    · rw [if_pos hn]
      simp
    · rw [if_neg hn]
      cases k with
      | zero =>
        simp at h
        omega
      | succ k =>
        have h2 : n / 256 < 256 ^ k := by
          rw [pow_succ] at h
          omega
        have := ih k (n / 256) h2
        simp only [List.length_append, List.length_singleton]
        omega

theorem SetBytes_replicate_zero (k : Nat) (bs : Bytes) :
    SetBytes (List.replicate k (0 : Fin 256) ++ bs) = SetBytes bs := by
  induction k with
  | zero => rfl
  | succ k ih =>
    rw [List.replicate_succ, List.cons_append]
    have h : SetBytes ((0 : Fin 256) :: (List.replicate k (0 : Fin 256) ++ bs))
        = SetBytes (List.replicate k (0 : Fin 256) ++ bs) := by
      simp [SetBytes]
    rw [h, ih]

theorem FillLeft_length (bs : Bytes) (h : bs.length ≤ 32) : (FillLeft bs).length = 32 := by
  unfold FillLeft
  by_cases h32 : 32 ≤ bs.length
  · rw [if_pos h32]
    omega
  · rw [if_neg h32, List.length_append, List.length_replicate]
    omega

theorem SetBytes_FillLeft (bs : Bytes) : SetBytes (FillLeft bs) = SetBytes bs := by
  unfold FillLeft
  by_cases h32 : 32 ≤ bs.length
  · rw [if_pos h32]
  · rw [if_neg h32, SetBytes_replicate_zero]

/-- The public key that genKeyPair builds from a point with coordinates below
2^256 has 64 bytes, and its two halves read back as the coordinates. -/
theorem publicKey_halves (x y : Nat) (hx : x < 2 ^ 256) (hy : y < 2 ^ 256) :
    (FillLeft (bigBytes x) ++ FillLeft (bigBytes y)).length = 64 ∧
    SetBytes ((FillLeft (bigBytes x) ++ FillLeft (bigBytes y)).take 32) = x ∧
    SetBytes ((FillLeft (bigBytes x) ++ FillLeft (bigBytes y)).drop 32) = y := by
  have e : (2 : Nat) ^ 256 = 256 ^ 32 := by norm_num
  have lx : (FillLeft (bigBytes x)).length = 32 :=
    FillLeft_length _ (bigBytesAux_length x 32 x (e ▸ hx))
  have ly : (FillLeft (bigBytes y)).length = 32 :=
    FillLeft_length _ (bigBytesAux_length y 32 y (e ▸ hy))
  refine ⟨by rw [List.length_append, lx, ly], ?_, ?_⟩
  · rw [List.take_append_of_le_length (by omega), List.take_of_length_le (by omega),
      SetBytes_FillLeft, SetBytes_bigBytes]
  · rw [List.drop_append_of_le_length (by omega), List.drop_of_length_le (by omega),
      List.nil_append, SetBytes_FillLeft, SetBytes_bigBytes]

theorem verify_true_iff (env : SM2Env) (public data signature : Bytes) (ok : Bool)
    (err : Option Err) (h : SM2.verify env public data signature = .ret (ok, err)) :
    (ok = true ↔ err = none) := by
  simp only [SM2.verify] at h
  split_ifs at h <;> simp only [Outcome.ret.injEq, Prod.mk.injEq] at h <;>
    (obtain ⟨h1, h2⟩ := h; subst h1; subst h2; simp)

theorem verify_checked (env : SM2Env) (public data signature : Bytes)
    (hp : public ≠ []) (hd : data ≠ []) (hl : public.length = env.PubkeySizeLength)
    (hs : signature ≠ []) (hk : env.PrivkeyLength ≤ public.length) :
    SM2.verify env public data signature
      = if env.Verify (SetBytes (public.take env.PrivkeyLength),
            SetBytes (public.drop env.PrivkeyLength)) data signature = true
        then .ret (true, none) else .ret (false, some ErrIncorrectSign) := by
  unfold SM2.verify
  rw [if_neg (by simpa using hp), if_neg (by simpa using hd), if_neg (by simp [hl]),
    if_neg (by simpa using hs), if_neg (by omega)]
  simp only []
  cases env.Verify (SetBytes (public.take env.PrivkeyLength),
    SetBytes (public.drop env.PrivkeyLength)) data signature <;> simp

theorem verify_returns (env : SM2Env) (hc : env.PrivkeyLength ≤ env.PubkeySizeLength)
    (public data signature : Bytes) :
    ∃ ok err, SM2.verify env public data signature = .ret (ok, err) := by
  simp only [SM2.verify]
  split_ifs with h1 h2 h3 h4 h5
  · exact ⟨_, _, rfl⟩
  · exact ⟨_, _, rfl⟩
  · exact ⟨_, _, rfl⟩
  · exact ⟨_, _, rfl⟩
  · exfalso
    simp only [ne_eq, not_not] at h3
    omega
  · exact ⟨_, _, rfl⟩
  · exact ⟨_, _, rfl⟩

theorem sample_sm2_correct (d : Nat) (data sig : Bytes)
    (h : sampleSM2Env.Sign d (sampleSM2Env.ScalarBaseMult (bigBytes d)) data = (sig, none)) :
    sig ≠ [] ∧ sampleSM2Env.Verify (sampleSM2Env.ScalarBaseMult (bigBytes d)) data sig = true := by
  simp only [sampleSM2Env, Prod.mk.injEq, and_true] at h
  subst h
  refine ⟨?_, by simp [sampleSM2Env]⟩
  intro h0
  have := congrArg List.length h0
  rw [encodeFixed_length] at this
  cases this

/-- C25: SM2.verify returns true exactly when it returns no error, and it returns
whenever the constant PrivkeyLength does not exceed PubkeySizeLength; when its four
checks of the lengths pass and the check of the signature on the curve fails it
reports ErrIncorrectSign.  With keys of 32 bytes and public keys of 64, a library
that generates a key whose public point is the one computed from its private
number, with coordinates below 2^256, and that verifies on the public point the
signatures it makes with the private number: for every key pair (prv, pub) given
by genKeyPair and every non-empty message src, a signature that sign(prv, src)
returns without error is verified by verify(pub, src, signature) with the result
(true, nil). -/
theorem sm2_sign_verify (env : SM2Env) :
    (∀ (public data signature : Bytes) (ok : Bool) (err : Option Err),
      SM2.verify env public data signature = .ret (ok, err) → (ok = true ↔ err = none)) ∧
    (env.PrivkeyLength ≤ env.PubkeySizeLength → ∀ (public data signature : Bytes),
      ∃ ok err, SM2.verify env public data signature = .ret (ok, err)) ∧
    (∀ (public data signature : Bytes), public ≠ [] → data ≠ [] →
      public.length = env.PubkeySizeLength → signature ≠ [] →
      env.PrivkeyLength ≤ public.length →
      env.Verify (SetBytes (public.take env.PrivkeyLength),
        SetBytes (public.drop env.PrivkeyLength)) data signature = false →
      SM2.verify env public data signature = .ret (false, some ErrIncorrectSign)) ∧
    (env.PrivkeyLength = 32 → env.PubkeySizeLength = 64 →
      (∀ d x y, env.GenerateKey = .ok (d, x, y) →
        env.ScalarBaseMult (bigBytes d) = (x, y) ∧ x < 2 ^ 256 ∧ y < 2 ^ 256) →
      (∀ d data sig, data ≠ [] →
        env.Sign d (env.ScalarBaseMult (bigBytes d)) data = (sig, none) →
        sig ≠ [] ∧ env.Verify (env.ScalarBaseMult (bigBytes d)) data sig = true) →
      ∀ (prv pub src sig : Bytes), SM2.genKeyPair env = .ok (prv, pub) → src ≠ [] →
        SM2.sign env prv src = (sig, none) →
        SM2.verify env pub src sig = .ret (true, none)) := by
  refine ⟨verify_true_iff env, verify_returns env, ?_, ?_⟩
  · intro public data signature hp hd hl hs hk hv
    rw [verify_checked env public data signature hp hd hl hs hk, hv]
    rfl
  · intro hpriv hpub hkey hlib prv pub src sig hgen hsrc hsign
    unfold SM2.genKeyPair at hgen
    cases hg : env.GenerateKey with
    | error e =>
      rw [hg] at hgen
      cases hgen
    | ok k =>
      obtain ⟨d, x, y⟩ := k
      rw [hg] at hgen
      simp only [Except.ok.injEq, Prod.mk.injEq] at hgen
      obtain ⟨hprv, hpubkey⟩ := hgen
      obtain ⟨hpt, hx, hy⟩ := hkey d x y hg
      obtain ⟨hlen, htake, hdrop⟩ := publicKey_halves x y hx hy
      rw [hpubkey] at hlen htake hdrop
      unfold SM2.sign at hsign
      simp only [] at hsign
      rw [← hprv, SetBytes_bigBytes] at hsign
      obtain ⟨hsig, hver⟩ := hlib d src sig hsrc hsign
      have hne : pub ≠ [] := by
        intro h0
        rw [h0] at hlen
        cases hlen
      rw [verify_checked env pub src sig hne hsrc (by rw [hlen, hpub]) hsig (by omega),
        hpriv, htake, hdrop, ← hpt, hver]
      rfl

theorem sm2_sign_verify_witness :
    sampleSM2Env.PrivkeyLength ≤ sampleSM2Env.PubkeySizeLength ∧
    SM2.genKeyPair sampleSM2Env
      = .ok ([3, 232], FillLeft [3, 233] ++ FillLeft [3, 234]) ∧
    SM2.sign sampleSM2Env [3, 232] [1, 2] = ([0, 0, 28, 98], none) ∧
    SM2.verify sampleSM2Env (FillLeft [3, 233] ++ FillLeft [3, 234]) [1, 2] [0, 0, 28, 98]
      = .ret (true, none) ∧
    SM2.verify sampleSM2Env (FillLeft [3, 233] ++ FillLeft [3, 234]) [1, 2] [0, 0, 28, 99]
      = .ret (false, some ErrIncorrectSign) ∧
    ((true = true) ↔ ((none : Option Err) = none)) :=
  ⟨by decide, rfl, by decide,
    (sm2_sign_verify sampleSM2Env).2.2.2 rfl rfl
      (fun d x y h => by
        cases h
        exact ⟨rfl, by decide, by decide⟩)
      (fun d data sig _ h => sample_sm2_correct d data sig h)
      [3, 232] (FillLeft [3, 233] ++ FillLeft [3, 234]) [1, 2] [0, 0, 28, 98] rfl (by decide)
      (by decide),
    (sm2_sign_verify sampleSM2Env).2.2.1 (FillLeft [3, 233] ++ FillLeft [3, 234]) [1, 2]
      [0, 0, 28, 99] (by decide) (by decide) (by decide) (by decide) (by decide) (by decide),
    (sm2_sign_verify sampleSM2Env).1 (FillLeft [3, 233] ++ FillLeft [3, 234]) [1, 2]
      [0, 0, 28, 98] true none (by decide)⟩

end Ibax
